import Mathlib

/-!
Aaru-AI: audio capture, transcription cleanup and streaming orchestration

A shallow embedding of the logic-bearing parts of `script.js` (renderer),
`main.js` (main process) and `whisper_logic_snippet.js` (a fragment that
`main.js` does not load), followed by theorems about them.

Conventions of the embedding.

* A JavaScript string is a `List Char`; where the source observes UTF-16 code
  units (`length`, `charCodeAt`) the embedding goes through `utf16`.
* An `ArrayBuffer` seen through a `DataView` is a `List Nat`, one entry per
  byte; a `DataView` setter that would throw a `RangeError` returns `none`.
* Functions of the JavaScript runtime or of libraries (`JSON.parse`, timers,
  media devices, the network) are parameters or events of the model.
-/

namespace AaruAI

/-! ## Strings -/

/-- UTF-16 code units of one character, as `String.prototype.charCodeAt` sees them. -/
def utf16Char (c : Char) : List Nat :=
  if c.toNat < 65536 then [c.toNat]
  else [55296 + (c.toNat - 65536) / 1024, 56320 + (c.toNat - 65536) % 1024]

/-- UTF-16 code units of a string. -/
def utf16 (s : List Char) : List Nat :=
  s.flatMap utf16Char

/-- The `length` property of a JavaScript string: its number of UTF-16 code units. -/
def jsLength (s : List Char) : Nat :=
  (utf16 s).length

/-! ## `DataView` over an `ArrayBuffer` (script.js, `encodeWAV`) -/

/-- Bytes of an `ArrayBuffer`, addressed through a `DataView`. -/
abbrev DataView := List Nat

/-- The expression `new ArrayBuffer(n)`: `n` zero bytes. -/
def newArrayBuffer (n : Nat) : DataView :=
  List.replicate n 0

/-- The call `view.setUint8(offset, value)`. -/
def setUint8 (view : DataView) (offset value : Nat) : Option DataView :=
  if offset + 1 ≤ view.length then some (view.set offset (value % 256)) else none

/-- The call `view.setUint16(offset, value, true)` (little-endian). -/
def setUint16 (view : DataView) (offset value : Nat) : Option DataView :=
  if offset + 2 ≤ view.length then
    some ((view.set offset (value % 256)).set (offset + 1) (value / 256 % 256))
  else none

/-- The call `view.setUint32(offset, value, true)` (little-endian). -/
def setUint32 (view : DataView) (offset value : Nat) : Option DataView :=
  if offset + 4 ≤ view.length then
    some ((((view.set offset (value % 256)).set (offset + 1) (value / 256 % 256)).set
      (offset + 2) (value / 65536 % 256)).set (offset + 3) (value / 16777216 % 256))
  else none

/-- The call `view.setInt16(offset, value, true)` for an integral `value`:
the value is reduced modulo 2^16 (two's complement) and stored little-endian. -/
def setInt16 (view : DataView) (offset : Nat) (value : Int) : Option DataView :=
  setUint16 view offset (value % 65536).toNat

/-- The call `view.getUint16(offset, true)`. -/
def getUint16 (view : DataView) (offset : Nat) : Option Nat :=
  if offset + 2 ≤ view.length then
    some (view.getD offset 0 + 256 * view.getD (offset + 1) 0)
  else none

/-- The call `view.getUint32(offset, true)`. -/
def getUint32 (view : DataView) (offset : Nat) : Option Nat :=
  if offset + 4 ≤ view.length then
    some (view.getD offset 0 + 256 * view.getD (offset + 1) 0
      + 65536 * view.getD (offset + 2) 0 + 16777216 * view.getD (offset + 3) 0)
  else none

/-- The bytes `view[offset .. offset + n)` read as ASCII text. -/
def getAscii (view : DataView) (offset n : Nat) : List Char :=
  ((view.drop offset).take n).map Char.ofNat

/-! ## Samples -/

/-- An element of a `Float32Array`: a finite value (every finite float is a
rational number), a NaN, or an infinity. -/
inductive Sample where
  | fin (q : ℚ)
  | nan
  | inf (negative : Bool)
  deriving DecidableEq

/-- The expression `Math.max(-1, Math.min(1, x))`; `none` stands for NaN. -/
def clampSample : Sample → Option ℚ
  | .fin q => some (max (-1) (min 1 q))
  | .nan => none
  | .inf negative => some (if negative then -1 else 1)

/-- Truncation toward zero, the integer part taken by `ToInt16`. -/
def truncate (x : ℚ) : Int :=
  if 0 ≤ x then ⌊x⌋ else ⌈x⌉

/-- The number handed to `setInt16` for one sample, after `ToInt16`'s
truncation: `s < 0 ? s * 0x8000 : s * 0x7FFF`, and 0 for NaN. The products
are exact in double precision for every clamped single-precision `s`. -/
def pcmValue (x : Sample) : Int :=
  match clampSample x with
  | none => 0
  | some s => if s < 0 then truncate (s * 32768) else truncate (s * 32767)

/-- Source `floatTo16BitPCM(output, offset, input)`. -/
def floatTo16BitPCM (output : DataView) (offset : Nat) : List Sample → Option DataView
  | [] => some output
  | x :: rest =>
    match setInt16 output offset (pcmValue x) with
    | none => none
    | some out => floatTo16BitPCM out (offset + 2) rest

/-- Source `writeString(view, offset, string)`, on the code units of `string`. -/
def writeString (view : DataView) (offset : Nat) : List Nat → Option DataView
  | [] => some view
  | c :: rest =>
    match setUint8 view offset c with
    | none => none
    | some v => writeString v (offset + 1) rest

/-- Source `encodeWAV(samples, sampleRate)` for a non-negative integral
`sampleRate`. -/
def encodeWAV (samples : List Sample) (sampleRate : Nat) : Option DataView := do
  let view := newArrayBuffer (44 + samples.length * 2)
  let view ← writeString view 0 (utf16 "RIFF".toList)
  let view ← setUint32 view 4 (36 + samples.length * 2)
  let view ← writeString view 8 (utf16 "WAVE".toList)
  let view ← writeString view 12 (utf16 "fmt ".toList)
  let view ← setUint32 view 16 16
  let view ← setUint16 view 20 1
  let view ← setUint16 view 22 1
  let view ← setUint32 view 24 sampleRate
  let view ← setUint32 view 28 (sampleRate * 2)
  let view ← setUint16 view 32 2
  let view ← setUint16 view 34 16
  let view ← writeString view 36 (utf16 "data".toList)
  let view ← setUint32 view 40 (samples.length * 2)
  floatTo16BitPCM view 44 samples

/-- Value of a 16-bit pattern read as a signed integer (`getInt16`). -/
def toInt16 (u : Nat) : Int :=
  if u < 32768 then (u : Int) else (u : Int) - 65536

/-- Little-endian 16-bit samples of a byte sequence, two bytes per sample. -/
def pcmSamples : List Nat → List Int
  | b0 :: b1 :: rest => toInt16 (b0 + 256 * b1) :: pcmSamples rest
  | _ => []

/-- A reader of the container `encodeWAV` writes: it takes the declared data
length from offset 40 and reads that many bytes from offset 44 as 16-bit
little-endian samples; `none` when the buffer is shorter than declared. -/
def decodeWAV (buf : DataView) : Option (List Int) :=
  match getUint32 buf 40 with
  | none => none
  | some dataLen =>
    if 44 + dataLen ≤ buf.length then some (pcmSamples ((buf.drop 44).take dataLen))
    else none


/-- The two bytes `setInt16` stores for one sample. -/
def pcmBytes (x : Sample) : List Nat :=
  [(pcmValue x % 65536).toNat % 256, (pcmValue x % 65536).toNat / 256 % 256]

/-- The 44 header bytes written by `encodeWAV` for `n` samples at rate `r`. -/
def wavHeader (n r : Nat) : List Nat :=
  [82, 73, 70, 70,
   (36 + n * 2) % 256, (36 + n * 2) / 256 % 256, (36 + n * 2) / 65536 % 256,
   (36 + n * 2) / 16777216 % 256,
   87, 65, 86, 69, 102, 109, 116, 32,
   16, 0, 0, 0, 1, 0, 1, 0,
   r % 256, r / 256 % 256, r / 65536 % 256, r / 16777216 % 256,
   (r * 2) % 256, (r * 2) / 256 % 256, (r * 2) / 65536 % 256, (r * 2) / 16777216 % 256,
   2, 0, 16, 0, 100, 97, 116, 97,
   (n * 2) % 256, (n * 2) / 256 % 256, (n * 2) / 65536 % 256, (n * 2) / 16777216 % 256]

/-! ## Transcript cleanup (main.js, `setupWhisperIPC`, `close` handler) -/

/-- ECMAScript `LineTerminator`: the characters a regular expression's `.`
does not match. -/
def isLineTerminator (c : Char) : Bool :=
  c.toNat = 10 || c.toNat = 13 || c.toNat = 8232 || c.toNat = 8233

/-- ECMAScript `WhiteSpace` or `LineTerminator`: what `String.prototype.trim`
strips. -/
def isTrimSpace (c : Char) : Bool :=
  isLineTerminator c || c.toNat = 9 || c.toNat = 11 || c.toNat = 12 || c.toNat = 32
    || c.toNat = 160 || c.toNat = 5760 || (8192 ≤ c.toNat && c.toNat ≤ 8202)
    || c.toNat = 8239 || c.toNat = 8287 || c.toNat = 12288 || c.toNat = 65279

/-- The call `s.trim()`. -/
def trim (s : List Char) : List Char :=
  ((s.dropWhile isTrimSpace).reverse.dropWhile isTrimSpace).reverse

/-- The call `s.replace(/PAT.*/g, '')` for a literal `PAT` that contains no
line terminator: every occurrence of `PAT` is deleted together with the rest
of its line. The flag says that the scan is inside a match. -/
def removeToLineEnd (pat : List Char) : Bool → List Char → List Char
  | _, [] => []
  | inMatch, c :: cs =>
    if inMatch && !isLineTerminator c then removeToLineEnd pat true cs
    else if pat.isPrefixOf (c :: cs) then removeToLineEnd pat true cs
    else c :: removeToLineEnd pat false cs

/-- Whether the lazy `.*?` followed by the closing delimiter can match here:
the closing delimiter occurs before any line terminator. -/
def closesOnLine (close : Char) : List Char → Bool
  | [] => false
  | c :: cs => if c = close then true else if isLineTerminator c then false
      else closesOnLine close cs

/-- The call `s.replace(/\O.*?\C/g, '')` for delimiters `O`, `C` (`[`, `]` or
`(`, `)`): every opening delimiter that is followed on its line by a closing
one is deleted with everything up to the nearest closing one. The flag says
that the scan is inside a match. -/
def removeDelimited (opening closing : Char) : Bool → List Char → List Char
  | _, [] => []
  | true, c :: cs =>
    if c = closing then removeDelimited opening closing false cs
    else removeDelimited opening closing true cs
  | false, c :: cs =>
    if c = opening && closesOnLine closing cs then removeDelimited opening closing true cs
    else c :: removeDelimited opening closing false cs

/-- Canonicalisation of a character under the `i` flag (no `u` flag), as far
as it can be compared with an ASCII letter: ASCII letters fold to one case
and no other character folds onto an ASCII letter. -/
def foldCase (c : Char) : Nat :=
  if 97 ≤ c.toNat && c.toNat ≤ 122 then c.toNat - 32 else c.toNat

/-- The test `/^WORD/i.test(s)` for an ASCII word. -/
def startsWithIgnoreCase (word : List Char) (s : List Char) : Bool :=
  (word.map foldCase).isPrefixOf (s.map foldCase)

/-- The list `hallucinations` of the close handler. -/
def hallucinations : List (List Char) :=
  ["Expected".toList, "Silence".toList, "Audio".toList, "Music".toList, "Song".toList]

/-- The test `/^[.?!, ]+$/.test(s)`. -/
def onlyPunctuation (s : List Char) : Bool :=
  !s.isEmpty && s.all (fun c => c = '.' || c = '?' || c = '!' || c = ',' || c = ' ')

/-- The value of `finalTrans` after the replacements and the `trim()` of the
close handler, before the hallucination filter. -/
def stripTranscript (outputText : List Char) : List Char :=
  let finalTrans := removeToLineEnd "system_info".toList false outputText
  let finalTrans := removeToLineEnd "main: ".toList false finalTrans
  let finalTrans := finalTrans.map (fun c => if c = '\n' then ' ' else c)
  let finalTrans := removeDelimited '[' ']' false finalTrans
  let finalTrans := removeDelimited '(' ')' false finalTrans
  trim finalTrans

/-- The value of `finalTrans` that the close handler sends for exit code 0. -/
def cleanTranscript (outputText : List Char) : List Char :=
  let finalTrans := stripTranscript outputText
  let isHallucination := hallucinations.any (fun h => startsWithIgnoreCase h finalTrans)
  if isHallucination || decide (jsLength finalTrans < 2) || onlyPunctuation finalTrans then []
  else finalTrans

/-- A message sent to the renderer by the transcription handler. -/
inductive TranscriptionEvent where
  | result (text : List Char)
  | error (message : List Char)
  deriving DecidableEq

/-- The part of the `close` handler after the scratch file is unlinked;
`code` is the exit code, `none` when the process was ended by a signal. -/
def whisperOnClose (code : Option Int) (outputText : List Char) : TranscriptionEvent :=
  if code = some 0 then .result (cleanTranscript outputText)
  else .error ("Process exited with code ".toList
    ++ (match code with | none => "null".toList | some n => (toString n).toList))

/-! ## JavaScript values produced by `JSON.parse` -/

/-- A value as the stream and socket handlers can observe it. A number is
represented by what the handlers can see of it: its decimal rendering and
whether it is truthy (neither zero nor NaN). -/
inductive JsVal where
  | undefined
  | null
  | bool (b : Bool)
  | num (text : List Char) (nonzero : Bool)
  | str (s : List Char)
  | arr (items : List JsVal)
  | obj (fields : List (List Char × JsVal))

/-- ECMAScript `ToBoolean`. -/
def truthy : JsVal → Bool
  | .undefined => false
  | .null => false
  | .bool b => b
  | .num _ nonzero => nonzero
  | .str s => !s.isEmpty
  | .arr _ => true
  | .obj _ => true

/-- Own property of an object built by `JSON.parse`. -/
def lookupField (name : List Char) : List (List Char × JsVal) → JsVal
  | [] => .undefined
  | (k, v) :: rest => if k = name then v else lookupField name rest

/-- The property read `v.name` for a name that no prototype defines
(`message`, `content`, `done`, `choices`, `delta`, `channel`, `alternatives`,
`transcript`, `is_final`); `none` is the `TypeError` of reading a property of
`undefined` or `null`. -/
def getProp (v : JsVal) (name : List Char) : Option JsVal :=
  match v with
  | .undefined => none
  | .null => none
  | .obj fields => some (lookupField name fields)
  | _ => some .undefined

/-- The indexed read `v[0]`. The first code unit of a string is again a
string; all the handlers read of it are properties it does not have. -/
def getIndex0 (v : JsVal) : Option JsVal :=
  match v with
  | .undefined => none
  | .null => none
  | .obj fields => some (lookupField "0".toList fields)
  | .arr [] => some .undefined
  | .arr (x :: _) => some x
  | .str [] => some .undefined
  | .str (c :: _) => some (.str [c])
  | _ => some .undefined

mutual
/-- ECMAScript `ToString`, as applied by `+=` on a string. An object is
rendered by `Object.prototype.toString`; an object that has an own entry
`toString`, for which the conversion throws a `TypeError`, is not told apart
from the others. -/
def toStr : JsVal → List Char
  | .undefined => "undefined".toList
  | .null => "null".toList
  | .bool b => if b then "true".toList else "false".toList
  | .num text _ => text
  | .str s => s
  | .arr items => joinItems items
  | .obj _ => "[object Object]".toList
/-- The call `Array.prototype.join` with the default separator. -/
def joinItems : List JsVal → List Char
  | [] => []
  | [x] => itemStr x
  | x :: y :: rest => itemStr x ++ ',' :: joinItems (y :: rest)
/-- One element of a joined array: empty for `undefined` and `null`. -/
def itemStr : JsVal → List Char
  | .undefined => []
  | .null => []
  | .bool b => if b then "true".toList else "false".toList
  | .num text _ => text
  | .str s => s
  | .arr items => joinItems items
  | .obj _ => "[object Object]".toList
end

/-! ## Streaming backends (main.js, `streamOllama`, `streamDeepSeek`) -/

/-- A message sent to the renderer while an answer is produced. -/
inductive AiEvent where
  | start
  | chunk (content : JsVal)
  | done

/-- State of a promise: pending, resolved with a text or rejected with the
message of an `Error`. -/
inductive Settled where
  | pending
  | resolved (text : List Char)
  | rejected (message : List Char)
  deriving DecidableEq

/-- What one call of `streamOllama` or `streamDeepSeek` owns besides the line
buffer: the variable `fullResponse`, the state of the returned promise, and
the contents handed to `sender.send('ai-chunk', _)`, oldest first: `sent`
while the promise was pending, `late` after it was settled (the caller
resumes, and sends `ai-done`, as soon as the handler that settles the promise
has returned). -/
structure StreamState where
  fullResponse : List Char
  promise : Settled
  sent : List JsVal
  late : List JsVal

/-- State at the creation of the promise. -/
def StreamState.init : StreamState :=
  ⟨[], .pending, [], []⟩

/-- The statements `fullResponse += content; sender.send('ai-chunk', content)`. -/
def emit (st : StreamState) (content : JsVal) : StreamState :=
  match st.promise with
  | .pending =>
    { st with fullResponse := st.fullResponse ++ toStr content, sent := st.sent ++ [content] }
  | _ =>
    { st with fullResponse := st.fullResponse ++ toStr content, late := st.late ++ [content] }

/-- The call `resolve(value)`: it settles a pending promise and is ignored
otherwise. -/
def resolve (st : StreamState) (value : List Char) : StreamState :=
  match st.promise with
  | .pending => { st with promise := .resolved value }
  | _ => st

/-- The call `reject(new Error(message))`. -/
def reject (st : StreamState) (message : List Char) : StreamState :=
  match st.promise with
  | .pending => { st with promise := .rejected message }
  | _ => st

/-- The call `s.split(sep)` for a one-character separator. -/
def split (sep : Char) : List Char → List (List Char)
  | [] => [[]]
  | c :: cs =>
    if c = sep then [] :: split sep cs
    else
      match split sep cs with
      | [] => [[c]]
      | l :: ls => (c :: l) :: ls

/-- A loop `for (const x of xs) { body }` inside a handler, where the body may
end the handler with `return`: the flag of the body says that it returned,
and the remaining elements are then not visited. -/
def forOf {α σ : Type} (body : α → σ → σ × Bool) : List α → σ → σ × Bool
  | [], st => (st, false)
  | x :: rest, st =>
    match body x st with
    | (st1, true) => (st1, true)
    | (st1, false) => forOf body rest st1

/-- Value of `json.message && json.message.content`; `none` when evaluating
it throws. -/
def messageContent (json : JsVal) : Option JsVal :=
  match getProp json "message".toList with
  | none => none
  | some message => if truthy message then getProp message "content".toList else some message

/-- Body of the line loop of `streamOllama`. `jsonParse` is `JSON.parse`,
`none` being its `SyntaxError`; an exception inside `try` is caught and the
loop goes on with the next line. -/
def ollamaLine (jsonParse : List Char → Option JsVal) (line : List Char)
    (st : StreamState) : StreamState × Bool :=
  if trim line = [] then (st, false)
  else
    match jsonParse line with
    | none => (st, false)
    | some json =>
      match messageContent json with
      | none => (st, false)
      | some content =>
        let st1 := if truthy content then emit st content else st
        match getProp json "done".toList with
        | none => (st1, false)
        | some done => if truthy done then (resolve st1 st1.fullResponse, true) else (st1, false)

/-- The call `s.startsWith(p)`. -/
def startsWith (p s : List Char) : Bool :=
  p.isPrefixOf s

/-- The call `s.replace(p, '')` for a string `p` of which `s` has an
occurrence at its start. -/
def removePrefix (p s : List Char) : List Char :=
  s.drop p.length

/-- Value of `json.choices && json.choices[0].delta &&
json.choices[0].delta.content`; `none` when evaluating it throws. -/
def deltaContent (json : JsVal) : Option JsVal :=
  match getProp json "choices".toList with
  | none => none
  | some choices =>
    if truthy choices then
      match getIndex0 choices with
      | none => none
      | some first =>
        match getProp first "delta".toList with
        | none => none
        | some delta =>
          if truthy delta then getProp delta "content".toList else some delta
    else some choices

/-- Body of the line loop of `streamDeepSeek`. -/
def deepSeekLine (jsonParse : List Char → Option JsVal) (line : List Char)
    (st : StreamState) : StreamState × Bool :=
  let trimmed := trim line
  if startsWith "data: ".toList trimmed then
    let jsonStr := removePrefix "data: ".toList trimmed
    if jsonStr = "[DONE]".toList then (resolve st st.fullResponse, true)
    else
      match jsonParse jsonStr with
      | none => (st, false)
      | some json =>
        match deltaContent json with
        | none => (st, false)
        | some content => if truthy content then (emit st content, false) else (st, false)
  else (st, false)

/-- The `data` handler of either backend: `buffer += chunk`, split at the
newlines, keep the last piece as the new buffer and run the line loop on the
others. The pair is the closure variable `buffer` and the stream state. -/
def onData (body : List Char → StreamState → StreamState × Bool)
    (st : List Char × StreamState) (chunk : List Char) : List Char × StreamState :=
  let buffer := st.1 ++ chunk
  let lines := split '\n' buffer
  (lines.getLastD [], (forOf body lines.dropLast st.2).1)

/-- The `end` handler of either backend: `resolve(fullResponse)`. -/
def onEnd (st : List Char × StreamState) : StreamState :=
  resolve st.2 st.2.fullResponse

/-- An HTTP exchange as the request callbacks see it: a response with its
status line and the successive body chunks followed by `end`, or an `error`
event on the request before any response. -/
inductive HttpExchange where
  | response (statusCode : Nat) (statusMessage : List Char) (chunks : List (List Char))
  | error (message : List Char)

/-- Source `streamOllama(model, messages, sender)`, as a function of the
exchange with the server: the final state of the promise, of `fullResponse`
and of the messages sent. -/
def streamOllama (jsonParse : List Char → Option JsVal) : HttpExchange → StreamState
  | .error message => reject StreamState.init message
  | .response statusCode statusMessage chunks =>
    if statusCode ≠ 200 then
      reject StreamState.init
        ("Ollama API Error: ".toList ++ (toString statusCode).toList ++ ' ' :: statusMessage)
    else
      onEnd (chunks.foldl (onData (ollamaLine jsonParse)) ([], StreamState.init))

/-- Source `streamDeepSeek(apiKey, messages, sender)`, as a function of the
exchange with the server. The response callback does not look at the status. -/
def streamDeepSeek (jsonParse : List Char → Option JsVal) : HttpExchange → StreamState
  | .error message => reject StreamState.init message
  | .response _ _ chunks =>
    onEnd (chunks.foldl (onData (deepSeekLine jsonParse)) ([], StreamState.init))

/-- What the line loops of both backends have in common: a line that does not
end the handler leaves the promise as it was, a line that ends the handler
leaves the promise settled, and a settled promise is never changed. -/
structure SettlesOnReturn (body : List Char → StreamState → StreamState × Bool) : Prop where
  keep : ∀ l st, (body l st).2 = false → (body l st).1.promise = st.promise
  settle : ∀ l st, (body l st).2 = true → (body l st).1.promise ≠ Settled.pending
  mono : ∀ l st, st.promise ≠ Settled.pending → (body l st).1.promise = st.promise

/-! ## Conversation orchestration (main.js, `ask-ai`, reset shortcut) -/

/-- The `role` of a history entry. -/
inductive Role where
  | system
  | user
  | assistant
  deriving DecidableEq

/-- An entry of `conversationHistory`. -/
structure Message where
  role : Role
  content : List Char
  deriving DecidableEq

/-- The settings read by `ask-ai`; a missing key is `none`. -/
structure Settings where
  aiProvider : Option (List Char)
  ollamaModel : Option (List Char)
  deepseekKey : Option (List Char)
  interviewType : Option (List Char)
  resumeText : Option (List Char)

/-- Truthiness of an optional string setting. -/
def isSet (x : Option (List Char)) : Bool :=
  match x with
  | some v => !v.isEmpty
  | none => false

/-- The expression `x || d` for an optional string setting. -/
def orDefault (x : Option (List Char)) (d : List Char) : List Char :=
  match x with
  | some v => if v.isEmpty then d else v
  | none => d

/-- The `systemPrompt` built by `ask-ai` when the history is empty. -/
def systemPrompt (s : Settings) : List Char :=
  "You are the candidate in this interview. ".toList
    ++ ("The interview type is ".toList ++ orDefault s.interviewType "General".toList
      ++ ". ".toList)
    ++ (if isSet s.resumeText then
          "\nThis is YOUR resume and background. Answer questions based on this profile:\n".toList
            ++ orDefault s.resumeText [] ++ "\n".toList
        else [])
    ++ ("\nAnswer as the candidate. Be extremely concise and direct. ".toList
      ++ "Answer ONLY what is asked. Do not elaborate unless specifically requested. ".toList
      ++ "Keep answers short and to the point. Do not mention you are an AI.".toList)

/-- The module-level variables of main.js that the handlers below use. -/
structure MainState where
  mainWindow : Bool
  conversationHistory : List Message

/-- The handler of the shortcut `Alt+Shift+C`; the flag says that
`trigger-reset` was sent to the renderer. -/
def resetShortcut (st : MainState) : MainState × Bool :=
  if st.mainWindow then ({ st with conversationHistory := [] }, true) else (st, false)

/-- The handler `ask-ai` up to the statement `event.sender.send('ai-start')`:
the system entry is pushed if the history is empty, then the question. -/
def askBegin (s : Settings) (question : List Char) (st : MainState) : MainState :=
  let history :=
    if st.conversationHistory.length = 0 then
      st.conversationHistory ++ [⟨Role.system, systemPrompt s⟩]
    else st.conversationHistory
  { st with conversationHistory := history ++ [⟨Role.user, question⟩] }

/-- A call of a stream function by `ask-ai`, with its `messages` argument. -/
inductive BackendCall where
  | ollama (model : List Char) (messages : List Message)
  | deepSeek (apiKey : List Char) (messages : List Message)

/-- The `messages` argument of a call. -/
def BackendCall.messages : BackendCall → List Message
  | .ollama _ messages => messages
  | .deepSeek _ messages => messages

/-- What one run of the handler `ask-ai` leaves behind: the state, the
messages sent to `event.sender`, oldest first, and the stream call made. -/
structure AskOutcome where
  state : MainState
  events : List AiEvent
  call : Option BackendCall

/-- The handler `ask-ai` from the `await` on: the stream's promise decides
between the assistant entry and the error message, `finally` sends `ai-done`;
what the stream sends after its promise is settled comes after that. -/
def askFinish (st : MainState) (call : BackendCall) (stream : StreamState) : AskOutcome :=
  match stream.promise with
  | .resolved fullAnswer =>
    { state := { st with conversationHistory :=
                  st.conversationHistory ++ [⟨Role.assistant, fullAnswer⟩] },
      events := [AiEvent.start] ++ stream.sent.map AiEvent.chunk ++ [AiEvent.done]
        ++ stream.late.map AiEvent.chunk,
      call := some call }
  | .rejected message =>
    { state := st,
      events := [AiEvent.start] ++ stream.sent.map AiEvent.chunk
        ++ [AiEvent.chunk (.str ("**Error:** ".toList ++ message)), AiEvent.done]
        ++ stream.late.map AiEvent.chunk,
      call := some call }
  | .pending =>
    { state := st,
      events := [AiEvent.start] ++ stream.sent.map AiEvent.chunk,
      call := some call }

/-- The handler `ipcMain.on('ask-ai', ...)`, as a function of the exchange
with the server of the configured provider. -/
def askAI (jsonParse : List Char → Option JsVal) (s : Settings) (exchange : HttpExchange)
    (question : List Char) (st : MainState) : AskOutcome :=
  let provider := orDefault s.aiProvider "ollama".toList
  let st1 := askBegin s question st
  if provider = "ollama".toList then
    let model := orDefault s.ollamaModel "llama3".toList
    askFinish st1 (.ollama model st1.conversationHistory) (streamOllama jsonParse exchange)
  else if provider = "deepseek".toList then
    if isSet s.deepseekKey then
      askFinish st1 (.deepSeek (orDefault s.deepseekKey []) st1.conversationHistory)
        (streamDeepSeek jsonParse exchange)
    else
      { state := st1,
        events := [AiEvent.start,
          AiEvent.chunk (.str ("**Error:** ".toList ++ "DeepSeek API Key is missing.".toList)),
          AiEvent.done],
        call := none }
  else
    { state := { st1 with conversationHistory :=
                  st1.conversationHistory ++ [⟨Role.assistant, []⟩] },
      events := [AiEvent.start, AiEvent.done],
      call := none }

/-- The renderer's handlers of `ai-start`, `ai-chunk` and `ai-done`, on the
variable `fullResponseText`. -/
def onAiEvent (fullResponseText : List Char) : AiEvent → List Char
  | .start => []
  | .chunk content => fullResponseText ++ toStr content
  | .done => fullResponseText

/-- A parsed line of the local chat server that carries the text `fragment`
as message content and whose completion flag is `done`. -/
def CarriesFragment (json : JsVal) (fragment : List Char) (done : Bool) : Prop :=
  messageContent json = some (.str fragment)
    ∧ ∃ flag, getProp json "done".toList = some flag ∧ truthy flag = done

/-- The object `{"message": {"role": "assistant", "content": fragment},
"done": done}`. -/
def ollamaObject (fragment : List Char) (done : Bool) : JsVal :=
  .obj [("message".toList,
          .obj [("role".toList, .str "assistant".toList), ("content".toList, .str fragment)]),
        ("done".toList, .bool done)]

/-- A complete line of the response body of the local chat server: it holds
no newline, is not blank, and `JSON.parse` reads it as an object carrying
`fragment` with completion flag `done`. -/
def FragmentLine (jsonParse : List Char → Option JsVal) (line fragment : List Char)
    (done : Bool) : Prop :=
  '\n' ∉ line ∧ trim line ≠ []
    ∧ ∃ json, jsonParse line = some json ∧ CarriesFragment json fragment done

/-- The effect of the line loop of `streamOllama` on a run of fragments none
of which is flagged done. -/
def feed (st : StreamState) (fragments : List (List Char)) : StreamState :=
  fragments.foldl (fun s f => if f.isEmpty then s else emit s (.str f)) st

/-- A table standing for `JSON.parse` on the four lines of the example
response "Hel", "lo", " world", done. -/
def exampleParse (line : List Char) : Option JsVal :=
  if line = "\x7b\"message\":\x7b\"role\":\"assistant\",\"content\":\"Hel\"\x7d,\"done\":false\x7d".toList
  then some (ollamaObject "Hel".toList false)
  else if line = "\x7b\"message\":\x7b\"role\":\"assistant\",\"content\":\"lo\"\x7d,\"done\":false\x7d".toList
  then some (ollamaObject "lo".toList false)
  else if line
      = "\x7b\"message\":\x7b\"role\":\"assistant\",\"content\":\" world\"\x7d,\"done\":false\x7d".toList
  then some (ollamaObject " world".toList false)
  else if line = "\x7b\"message\":\x7b\"role\":\"assistant\",\"content\":\"\"\x7d,\"done\":true\x7d".toList
  then some (ollamaObject [] true)
  else none

/-- The example response "Hel", "lo", " world", done, cut into network chunks
in the middle of its lines. -/
def exampleChunks : List (List Char) :=
  ["\x7b\"message\":\x7b\"role\":\"assistant\",\"content\":\"Hel\"\x7d,\"done\":false\x7d\n\x7b\"mess".toList,
   "age\":\x7b\"role\":\"assistant\",\"content\":\"lo\"\x7d,\"done\":false\x7d\n".toList,
   "\x7b\"message\":\x7b\"role\":\"assistant\",\"content\":\" world\"\x7d,\"done\":false\x7d\n\x7b\"message\":\x7b\"role\"".toList,
   ":\"assistant\",\"content\":\"\"\x7d,\"done\":true\x7d".toList,
   "\n".toList]

/-! ## Renderer: recording control and live transcription (script.js) -/

/-- The values taken by `recordingSource`. -/
inductive Source where
  | click
  | ptt
  | manual
  deriving DecidableEq

/-- The `readyState` of the live transcription socket. -/
inductive ReadyState where
  | connecting
  | opened
  | closing
  | closed
  deriving DecidableEq

/-- What the renderer hands to the outside: calls of its own recording
functions (kept to be counted), IPC messages to the main process and frames
on the live transcription socket. -/
inductive Effect where
  | startRecordingCalled (source : Source)
  | stopRecordingCalled
  | processAudio (wav : DataView)
  | askAi (question : List Char)
  | socketAudio (samples : List Int)
  | socketCloseStream
  | socketClose
  deriving DecidableEq

/-- The module-level variables of script.js and the parts of the page that
the recording logic reads and writes. A media object is represented by
whether its variable is non-null, the pending threshold timer by `pttTimer`
(the variable is non-null exactly while a timer is pending). `effects` lists
what was done to the outside, oldest first. -/
structure Renderer where
  isRecording : Bool
  recordingSource : Option Source
  pttTimer : Bool
  pttActive : Bool
  audioContext : Bool
  micStream : Bool
  sysStream : Bool
  micSource : Bool
  sysSource : Bool
  processor : Bool
  audioChunks : List (List Sample)
  transcriptionProvider : Option (List Char)
  deepgramKey : Option (List Char)
  autoSubmit : Bool
  deepgramSocket : Option ReadyState
  deepgramFinalText : List Char
  deepgramInterimText : JsVal
  inputValue : List Char
  placeholder : List Char
  selectionStart : Nat
  selectionEnd : Nat
  listening : Bool
  effects : List Effect

/-- The renderer when the page has loaded. -/
def Renderer.initial : Renderer :=
  { isRecording := false, recordingSource := none, pttTimer := false, pttActive := false,
    audioContext := false, micStream := false, sysStream := false, micSource := false,
    sysSource := false, processor := false, audioChunks := [],
    transcriptionProvider := none, deepgramKey := none, autoSubmit := false,
    deepgramSocket := none, deepgramFinalText := [], deepgramInterimText := .str [],
    inputValue := [], placeholder := [], selectionStart := 0, selectionEnd := 0,
    listening := false, effects := [] }

/-- Source `cleanupRecording()`. -/
def cleanupRecording (st : Renderer) : Renderer :=
  { st with audioContext := false, micStream := false, sysStream := false,
            micSource := false, sysSource := false, processor := false }

/-- Source `flattenAudioChunks(chunks)`. -/
def flattenAudioChunks (chunks : List (List Sample)) : List Sample :=
  chunks.flatten

/-- How the asynchronous part of `startRecording` ends: every device and the
screen source were obtained, or an exception with this message was thrown. -/
inductive StartOutcome where
  | ok
  | failed (message : List Char)
  deriving DecidableEq

/-- Source `startRecording(source)`. The assignments up to `isRecording =
true` run before the first `await`; the rest is taken in one step. -/
def startRecording (outcome : StartOutcome) (source : Source) (st : Renderer) : Renderer :=
  let st := { st with effects := st.effects ++ [Effect.startRecordingCalled source] }
  if st.isRecording then st
  else
    let st := { st with recordingSource := some source, audioChunks := [],
                        placeholder := "Listening...".toList, inputValue := [],
                        listening := true, isRecording := true }
    match outcome with
    | .failed message =>
      cleanupRecording { st with placeholder := "Error: ".toList ++ message }
    | .ok =>
      let st := { st with audioContext := true, micStream := true, micSource := true,
                          sysStream := true, sysSource := true, processor := true }
      if st.transcriptionProvider = some "deepgram".toList then
        if isSet st.deepgramKey then { st with deepgramSocket := some ReadyState.connecting }
        else { st with placeholder := "Missing Deepgram API Key".toList }
      else st

/-- Source `stopRecording()`. -/
def stopRecording (st : Renderer) : Renderer :=
  let st := { st with effects := st.effects ++ [Effect.stopRecordingCalled],
                      listening := false, isRecording := false,
                      placeholder := "Thinking...".toList }
  let finalBuffer := flattenAudioChunks st.audioChunks
  if finalBuffer.length = 0 then
    cleanupRecording { st with placeholder := "No audio recorded.".toList }
  else
    let st :=
      match st.deepgramSocket with
      | some readyState =>
        if readyState = ReadyState.opened then
          { st with effects := st.effects ++ [Effect.socketCloseStream, Effect.socketClose],
                    deepgramSocket := none }
        else { st with deepgramSocket := none }
      | none => st
    if st.transcriptionProvider = some "deepgram".toList then
      let existingText := st.inputValue
      let st :=
        if trim existingText ≠ [] ∧ st.autoSubmit = true then
          { st with effects := st.effects ++ [Effect.askAi existingText] }
        else st
      cleanupRecording st
    else
      match encodeWAV finalBuffer 16000 with
      | some wavBuffer =>
        cleanupRecording { st with effects := st.effects ++ [Effect.processAudio wavBuffer] }
      | none => st

/-- The `keydown` handler of the document; `space` is `e.code === 'Space'`,
`isRepeat` is `e.repeat`. -/
def onKeyDown (space isRepeat : Bool) (st : Renderer) : Renderer :=
  if space then
    if isRepeat then st
    else if st.isRecording ∧ st.recordingSource = some Source.click then st
    else if ¬ st.isRecording ∧ ¬ st.pttTimer then { st with pttTimer := true }
    else st
  else st

/-- The callback of the threshold timer. When no timer is pending (it fired
or was cleared) the callback does not run. -/
def onTimer (outcome : StartOutcome) (st : Renderer) : Renderer :=
  if st.pttTimer then
    startRecording outcome Source.ptt { st with pttActive := true, pttTimer := false }
  else st

/-- The `keyup` handler of the document. Positions in the input field count
characters, which is what `substring` counts for text of the Basic
Multilingual Plane. -/
def onKeyUp (space : Bool) (st : Renderer) : Renderer :=
  if space then
    if st.isRecording ∧ st.recordingSource = some Source.click then st
    else if st.pttTimer then
      { st with pttTimer := false,
                inputValue := st.inputValue.take st.selectionStart ++ ' '
                  :: st.inputValue.drop st.selectionEnd,
                selectionStart := st.selectionStart + 1,
                selectionEnd := st.selectionStart + 1 }
    else if st.pttActive then stopRecording { st with pttActive := false }
    else st
  else st

/-- The `click` handler of the microphone button. -/
def onMicClick (outcome : StartOutcome) (st : Renderer) : Renderer :=
  if ¬ st.isRecording then startRecording outcome Source.click st
  else stopRecording st

/-- The `onopen` handler of the live transcription socket. -/
def deepgramOnOpen (st : Renderer) : Renderer :=
  { st with deepgramSocket := st.deepgramSocket.map (fun _ => ReadyState.opened),
            deepgramFinalText := [], deepgramInterimText := .str [] }

/-- Value of `data.channel && data.channel.alternatives &&
data.channel.alternatives[0]`; `none` when evaluating it throws. -/
def firstAlternative (data : JsVal) : Option JsVal :=
  match getProp data "channel".toList with
  | none => none
  | some channel =>
    if truthy channel then
      match getProp channel "alternatives".toList with
      | none => none
      | some alternatives => if truthy alternatives then getIndex0 alternatives
          else some alternatives
    else some channel

/-- The `try` block of the `onmessage` handler of the live transcription
socket, after `JSON.parse(msg.data)` has produced `data`. Of the write to
`inputField.value` only the text is recorded; the caret is left where it
was. -/
def deepgramOnData (data : JsVal) (st : Renderer) : Renderer :=
  match firstAlternative data with
  | none => st
  | some alt =>
    if truthy alt then
      match getProp alt "transcript".toList with
      | none => st
      | some transcript =>
        if truthy transcript then
          match getProp data "is_final".toList with
          | none => st
          | some isFinal =>
            let st :=
              if truthy isFinal then
                { st with deepgramFinalText := st.deepgramFinalText
                            ++ ((if st.deepgramFinalText.isEmpty then [] else " ".toList)
                              ++ toStr transcript),
                          deepgramInterimText := .str [] }
              else { st with deepgramInterimText := transcript }
            let displayText := st.deepgramFinalText
              ++ (if truthy st.deepgramInterimText then
                    " ".toList ++ toStr st.deepgramInterimText
                  else [])
            { st with inputValue := displayText }
        else st
    else st

/-- The `onmessage` handler of the live transcription socket. -/
def deepgramOnMessage (jsonParse : List Char → Option JsVal) (msgData : List Char)
    (st : Renderer) : Renderer :=
  match jsonParse msgData with
  | none => st
  | some data => deepgramOnData data st

/-- A result event of the live transcription service with a text transcript:
interim or final. -/
inductive TranscriptEvent where
  | interim (transcript : List Char)
  | final (transcript : List Char)
  deriving DecidableEq

/-- The parsed frame `{"channel": {"alternatives": [{"transcript": t}]},
"is_final": b}` of an event. -/
def TranscriptEvent.toData : TranscriptEvent → JsVal
  | .interim t =>
    .obj [("channel".toList, .obj [("alternatives".toList,
            .arr [.obj [("transcript".toList, .str t)]])]),
          ("is_final".toList, .bool false)]
  | .final t =>
    .obj [("channel".toList, .obj [("alternatives".toList,
            .arr [.obj [("transcript".toList, .str t)]])]),
          ("is_final".toList, .bool true)]

/-- The renderer after the socket handler has seen the events, in order. -/
def receive (events : List TranscriptEvent) (st : Renderer) : Renderer :=
  events.foldl (fun s e => deepgramOnData e.toData s) st

/-- The final transcripts among the events that are not empty, in order. -/
def nonEmptyFinals : List TranscriptEvent → List (List Char)
  | [] => []
  | .final t :: rest => if t.isEmpty then nonEmptyFinals rest else t :: nonEmptyFinals rest
  | .interim _ :: rest => nonEmptyFinals rest

/-- The texts joined by single spaces. -/
def joinWithSpaces : List (List Char) → List Char
  | [] => []
  | [t] => t
  | t :: u :: rest => t ++ ' ' :: joinWithSpaces (u :: rest)

/-- The finalized text after further non-empty final transcripts, as the
handler accumulates it. -/
def extendFinal (finalText : List Char) : List (List Char) → List Char
  | [] => finalText
  | t :: rest =>
    extendFinal (finalText ++ ((if finalText.isEmpty then [] else " ".toList) ++ t)) rest

/-- The sources of the calls of `startRecording` among the effects, in order. -/
def startCalls : List Effect → List Source
  | [] => []
  | .startRecordingCalled source :: rest => source :: startCalls rest
  | _ :: rest => startCalls rest

/-- The number of calls of `stopRecording` among the effects. -/
def stopCalls : List Effect → Nat
  | [] => 0
  | .stopRecordingCalled :: rest => stopCalls rest + 1
  | _ :: rest => stopCalls rest
/-! ## Sessions of the orchestrator -/

/-- A run of `ask-ai` suspended at its `await`: the stream call it has made
and the state in which that stream ends (what it sends, and how its promise is
settled). -/
structure AwaitingAsk where
  call : BackendCall
  stream : StreamState

/-- The handler `ask-ai` up to its `await`: the history with the question
pushed, and the run that now awaits its stream. There is no such run when the
handler ends without a stream call: the key of the remote provider is missing
(the `catch` block runs at once), or the provider is neither of the two (the
empty answer is pushed at once). -/
def askDispatch (jsonParse : List Char → Option JsVal) (s : Settings)
    (exchange : HttpExchange) (question : List Char) (st : MainState) :
    MainState × Option AwaitingAsk :=
  let provider := orDefault s.aiProvider "ollama".toList
  let st1 := askBegin s question st
  if provider = "ollama".toList then
    let model := orDefault s.ollamaModel "llama3".toList
    (st1, some ⟨.ollama model st1.conversationHistory, streamOllama jsonParse exchange⟩)
  else if provider = "deepseek".toList then
    if isSet s.deepseekKey then
      (st1, some ⟨.deepSeek (orDefault s.deepseekKey []) st1.conversationHistory,
        streamDeepSeek jsonParse exchange⟩)
    else (st1, none)
  else
    ({ st1 with conversationHistory := st1.conversationHistory ++ [⟨Role.assistant, []⟩] },
      none)

/-- The main process between two events, as far as the conversation goes: the
module variables, and the runs of `ask-ai` that await their stream, oldest
first. -/
structure Orchestrator where
  main : MainState
  awaiting : List AwaitingAsk

/-- The main process at start-up, once the window exists. -/
def Orchestrator.initial : Orchestrator :=
  ⟨⟨true, []⟩, []⟩

/-- One event of the main process that touches the conversation: the message
`ask-ai` arrives (with the settings the handler loads and the exchange its
stream will have with the backend), the promise awaited by one of the
suspended runs is settled and that run resumes, or the reset shortcut is
pressed. Events are handled one at a time, in any order. -/
inductive OrchestratorStep where
  | ask (s : Settings) (exchange : HttpExchange) (question : List Char)
  | settle (index : Nat)
  | reset

/-- The state after one event. A run resumes on the variable
`conversationHistory` as it is at that time; a run whose promise is never
settled stays suspended. -/
def orchestrate (jsonParse : List Char → Option JsVal) (o : Orchestrator) :
    OrchestratorStep → Orchestrator
  | .ask s exchange question =>
    match askDispatch jsonParse s exchange question o.main with
    | (st1, some run) => ⟨st1, o.awaiting ++ [run]⟩
    | (st1, none) => ⟨st1, o.awaiting⟩
  | .settle index =>
    match o.awaiting.get? index with
    | none => o
    | some run =>
      match run.stream.promise with
      | .pending => o
      | _ => ⟨(askFinish o.main run.call run.stream).state, o.awaiting.eraseIdx index⟩
  | .reset => ⟨(resetShortcut o.main).1, o.awaiting⟩

/-- No reset among the events arrives while a run of `ask-ai` is suspended. -/
def ResetsWhenIdle (jsonParse : List Char → Option JsVal) :
    Orchestrator → List OrchestratorStep → Prop
  | _, [] => True
  | o, .reset :: rest =>
    o.awaiting = [] ∧ ResetsWhenIdle jsonParse (orchestrate jsonParse o .reset) rest
  | o, .ask s exchange question :: rest =>
    ResetsWhenIdle jsonParse (orchestrate jsonParse o (.ask s exchange question)) rest
  | o, .settle index :: rest =>
    ResetsWhenIdle jsonParse (orchestrate jsonParse o (.settle index)) rest

/-- The settings file with no entry: local provider, default model. -/
def defaultSettings : Settings :=
  ⟨none, none, none, none, none⟩

/-- The message `ask-ai` with the question "q1", which the local backend will
answer with "Hello world". -/
def firstQuestion : OrchestratorStep :=
  .ask defaultSettings (.response 200 "OK".toList exampleChunks) "q1".toList

/-- The events of a session in which the reset shortcut is pressed while the
first question awaits its answer. -/
def resetWhileAwaiting : List OrchestratorStep :=
  [firstQuestion, .reset, .settle 0]

/-- A history that is empty, or starts with a system entry and has no other
system entry. -/
def SystemEntryFirst (history : List Message) : Prop :=
  history = [] ∨ ∃ content rest, history = ⟨Role.system, content⟩ :: rest
    ∧ ∀ m ∈ rest, m.role ≠ Role.system

/-- The history after `ask-ai` has pushed the system entry (into an empty
history only) and the question. -/
def historyWithQuestion (s : Settings) (question : List Char) (history : List Message) :
    List Message :=
  history ++ (if history = [] then [⟨Role.system, systemPrompt s⟩] else [])
    ++ [⟨Role.user, question⟩]

/-! ## Screen solve (main.js, `captureAndSolve`) -/

/-- How the capture and the text recognition of `captureAndSolve` end: an
exception before the first source is looked at, no screen source, an exception
from the recogniser, or the recognised text. -/
inductive ScreenCapture where
  | captureFailed (message : List Char)
  | noSource
  | ocrFailed (message : List Char)
  | ocr (text : List Char)

/-- The `systemPrompt` of `captureAndSolve`. -/
def solveSystemPrompt : List Char :=
  "You are an expert Coding and Exam Assistant. \n".toList
    ++ "The user has captured a screenshot of a problem (MCQ or Coding Question).\n".toList
    ++ "The extracted text from the screen is provided below.\n".toList
    ++ "Ignore irrelevant UI elements, window titles, or noise.\n".toList
    ++ "Identify the question and provide the correct answer or solution.\n".toList
    ++ "If it is an MCQ, provide the correct option and a brief explanation.\n".toList
    ++ "If it is a coding problem, provide the correct code solution.\n".toList
    ++ "Be concise and direct.".toList

/-- The array `solveMessages` for the recognised and trimmed text. -/
def solveMessages (cleanText : List Char) : List Message :=
  [⟨Role.system, solveSystemPrompt⟩,
   ⟨Role.user, "Here is the text from the screen:\n\n".toList ++ cleanText⟩]

/-- The message of the `catch` block of `captureAndSolve`. -/
def solveError (message : List Char) : AiEvent :=
  AiEvent.chunk (.str ("\n**Error:** ".toList ++ message))

/-- The progress message with the first hundred characters of the text
(characters are what `substring` counts for text of the Basic Multilingual
Plane). -/
def foundText (cleanText : List Char) : AiEvent :=
  AiEvent.chunk (.str ("**Found Text:**\n> ".toList
    ++ (cleanText.take 100).map (fun c => if c = '\n' then ' ' else c)
    ++ "...\n\n**Solving...**\n".toList))

/-- The handler `captureAndSolve` from the `await` of the stream on. -/
def solveFinish (st : MainState) (before : List AiEvent) (call : BackendCall)
    (stream : StreamState) : AskOutcome :=
  match stream.promise with
  | .resolved _ =>
    { state := st,
      events := before ++ stream.sent.map AiEvent.chunk ++ [AiEvent.done]
        ++ stream.late.map AiEvent.chunk,
      call := some call }
  | .rejected message =>
    { state := st,
      events := before ++ stream.sent.map AiEvent.chunk ++ [solveError message, AiEvent.done]
        ++ stream.late.map AiEvent.chunk,
      call := some call }
  | .pending =>
    { state := st, events := before ++ stream.sent.map AiEvent.chunk, call := some call }

/-- Source `captureAndSolve(win)`, as a function of what the capture gives
and of the exchange with the server of the configured provider. -/
def captureAndSolve (jsonParse : List Char → Option JsVal) (s : Settings)
    (capture : ScreenCapture) (exchange : HttpExchange) (st : MainState) : AskOutcome :=
  let analysing := [AiEvent.start, AiEvent.chunk (.str "**Analyzing screen...**\n".toList)]
  let extracting := analysing ++ [AiEvent.chunk (.str "**Extracting text...**\n".toList)]
  match capture with
  | .captureFailed message =>
    { state := st, events := analysing ++ [solveError message, AiEvent.done], call := none }
  | .noSource =>
    { state := st,
      events := analysing ++ [solveError "No screen source found.".toList, AiEvent.done],
      call := none }
  | .ocrFailed message =>
    { state := st, events := extracting ++ [solveError message, AiEvent.done], call := none }
  | .ocr text =>
    let cleanText := trim text
    if cleanText = [] then
      { state := st,
        events := extracting ++ [solveError "No text found on screen.".toList, AiEvent.done],
        call := none }
    else
      let solving := extracting ++ [foundText cleanText]
      let provider := orDefault s.aiProvider "ollama".toList
      if provider = "ollama".toList then
        solveFinish st solving
          (.ollama (orDefault s.ollamaModel "llama3.2".toList) (solveMessages cleanText))
          (streamOllama jsonParse exchange)
      else if provider = "deepseek".toList then
        if isSet s.deepseekKey then
          solveFinish st solving
            (.deepSeek (orDefault s.deepseekKey []) (solveMessages cleanText))
            (streamDeepSeek jsonParse exchange)
        else
          { state := st,
            events := solving
              ++ [solveError "DeepSeek API Key is missing.".toList, AiEvent.done],
            call := none }
      else { state := st, events := solving ++ [AiEvent.done], call := none }

/-! ## Local transcription request (main.js, `process-audio`) -/

/-- The settings read by `process-audio`. -/
structure TranscriptionSettings where
  transcriptionProvider : Option (List Char)
  deepgramKey : Option (List Char)

/-- How the request to the remote transcription service ends. -/
inductive DeepgramOutcome where
  | transcript (text : List Char)
  | failed (message : List Char)

/-- The resolved paths of the transcription binary and of the model, and
whether `fs.existsSync` finds them. -/
structure WhisperFiles where
  binPath : List Char
  modelPath : List Char
  binExists : Bool
  modelExists : Bool

/-- What becomes of the subprocess: `spawn` throws, or the process runs and
closes with an exit code (`none` for a signal) and its collected output. -/
inductive SpawnOutcome where
  | threw (message : List Char)
  | closed (code : Option Int) (outputText : List Char)

/-- The handler `ipcMain.on('process-audio', ...)`. The flag is whether the
scratch file `aaru_temp_input.wav` exists, before and after; writing and
unlinking it are taken to succeed. The list is what is sent to the renderer. -/
def processAudio (s : TranscriptionSettings) (deepgram : DeepgramOutcome)
    (files : WhisperFiles) (spawn : SpawnOutcome) (tempFile : Bool) :
    Bool × List TranscriptionEvent :=
  let provider := orDefault s.transcriptionProvider "local".toList
  if provider = "deepgram".toList then
    if isSet s.deepgramKey then
      match deepgram with
      | .transcript text => (tempFile, [TranscriptionEvent.result text])
      | .failed message => (tempFile, [TranscriptionEvent.error message])
    else (tempFile, [TranscriptionEvent.error "Deepgram API Key is missing.".toList])
  else
    let written := true
    if ¬ files.binExists then
      (written, [TranscriptionEvent.error ("Binary not found: ".toList ++ files.binPath)])
    else if ¬ files.modelExists then
      (written, [TranscriptionEvent.error ("Model not found: ".toList ++ files.modelPath)])
    else
      match spawn with
      | .threw message => (written, [TranscriptionEvent.error message])
      | .closed code outputText => (false, [whisperOnClose code outputText])

/-! ## Audio blocks (script.js, `onaudioprocess`) -/

/-- The expression `Math.min(1, Math.max(-1, x))`; `none` stands for NaN. -/
def clampForStream : Sample → Option ℚ
  | .fin q => some (min 1 (max (-1) q))
  | .nan => none
  | .inf negative => some (if negative then -1 else 1)

/-- Source `convertFloat32ToInt16(buffer)`: each clamped sample times
`0x7FFF`, truncated by the store into the `Int16Array`. -/
def convertFloat32ToInt16 (buffer : List Sample) : List Int :=
  buffer.map (fun x =>
    match clampForStream x with
    | none => 0
    | some s => truncate (s * 32767))

/-- The `onaudioprocess` callback for one block of samples. -/
def onAudioProcess (floatSamples : List Sample) (st : Renderer) : Renderer :=
  if ¬ st.isRecording then st
  else
    let st := { st with audioChunks := st.audioChunks ++ [floatSamples] }
    if st.transcriptionProvider = some "deepgram".toList
        ∧ st.deepgramSocket = some ReadyState.opened then
      { st with effects := st.effects
          ++ [Effect.socketAudio (convertFloat32ToInt16 floatSamples)] }
    else st

/-- The number of `process-audio` messages among the effects. -/
def processAudioCount : List Effect → Nat
  | [] => 0
  | .processAudio _ :: rest => processAudioCount rest + 1
  | _ :: rest => processAudioCount rest

/-- A response of the local chat server in which a content line arrives, in
a later network chunk, after the line flagged done. -/
def lateChunks : List (List Char) :=
  ["\x7b\"message\":\x7b\"role\":\"assistant\",\"content\":\"\"\x7d,\"done\":true\x7d\n".toList,
   "\x7b\"message\":\x7b\"role\":\"assistant\",\"content\":\"Hel\"\x7d,\"done\":false\x7d\n".toList]

/-- The body of an error response of the remote API. -/
def unauthorizedBody : List Char :=
  "\x7b\"error\":\x7b\"message\":\"Authentication Fails\",\"type\":\"authentication_error\"\x7d\x7d".toList

/-- Settings that select the remote provider with a key. -/
def deepSeekSettings : Settings :=
  ⟨some "deepseek".toList, none, some "sk-test".toList, none, none⟩

/-- Lines joined into a body, each closed by a newline. -/
def unlines (lines : List (List Char)) : List Char :=
  (lines.map (· ++ ['\n'])).flatten

/-- A complete line that `streamDeepSeek` hands to `JSON.parse` and that
`JSON.parse` rejects: a `data: ` line, not the sentinel, with a payload that
is not valid JSON. -/
def MalformedDataLine (jsonParse : List Char → Option JsVal) (line : List Char) : Prop :=
  '\n' ∉ line ∧ startsWith "data: ".toList (trim line) = true
    ∧ removePrefix "data: ".toList (trim line) ≠ "[DONE]".toList
    ∧ jsonParse (removePrefix "data: ".toList (trim line)) = none

/-- A complete line of the local chat server that is not valid JSON. -/
def MalformedJsonLine (jsonParse : List Char → Option JsVal) (line : List Char) : Prop :=
  '\n' ∉ line ∧ jsonParse line = none

/-! ## Reset button (script.js, `resetBtn` click handler) -/

/-- The `click` handler of the Reset / New Chat button: it hides the response
panel and empties the input field. It sends nothing to the main process. -/
def onResetClick (st : Renderer) : Renderer :=
  { st with inputValue := [], placeholder := "Ask me anything...".toList }

/-- A click on the Reset / New Chat button, on the state of both processes:
the main process receives no message and keeps its state. -/
def resetButton (st : MainState × Renderer) : MainState × Renderer :=
  (st.1, onResetClick st.2)

/-- The reset shortcut, on the state of both processes: the main process
clears the history and sends `trigger-reset`, on which the renderer clicks
its reset button. -/
def resetByShortcut (st : MainState × Renderer) : MainState × Renderer :=
  if (resetShortcut st.1).2 then ((resetShortcut st.1).1, onResetClick st.2)
  else ((resetShortcut st.1).1, st.2)

/-- A history with one earlier question and answer. -/
def earlierHistory : List Message :=
  [⟨Role.system, "p".toList⟩, ⟨Role.user, "q1".toList⟩, ⟨Role.assistant, "a1".toList⟩]

/-- The renderer with the live transcription provider configured. -/
def liveRenderer : Renderer :=
  { Renderer.initial with transcriptionProvider := some "deepgram".toList,
                          deepgramKey := some "key".toList }

/-- The frames sent on the live transcription socket that end the session,
among the effects, in order. -/
def socketClosing : List Effect → List Effect
  | [] => []
  | .socketCloseStream :: rest => .socketCloseStream :: socketClosing rest
  | .socketClose :: rest => .socketClose :: socketClosing rest
  | _ :: rest => socketClosing rest

/-! ## Streaming transcription subprocess (whisper_logic_snippet.js) -/

/-- The call `s.replace(/\O.*\C/g, '')` for delimiters `O`, `C`: every opening
delimiter that is followed on its line by a closing one is deleted with
everything up to the last closing one on that line. The flag says that the
scan is inside a match. -/
def removeGreedy (opening closing : Char) : Bool → List Char → List Char
  | _, [] => []
  | true, c :: cs =>
    if c = closing && !closesOnLine closing cs then removeGreedy opening closing false cs
    else removeGreedy opening closing true cs
  | false, c :: cs =>
    if c = opening && closesOnLine closing cs then removeGreedy opening closing true cs
    else c :: removeGreedy opening closing false cs

/-- A message sent to the renderer by the streaming transcription handlers. -/
inductive WhisperUi where
  | transcriptionData (text : List Char)
  | transcriptionStopped
  deriving DecidableEq

/-- The variable `whisperProcess` (the tracked subprocess, by number), the
subprocesses that were spawned and have not closed yet, those on which
`kill()` was called, the number of subprocesses spawned so far, and what was
sent to the renderer, oldest first. -/
structure WhisperState where
  whisperProcess : Option Nat
  alive : List Nat
  killed : List Nat
  spawned : Nat
  sent : List WhisperUi
  deriving DecidableEq

/-- The state before any recording. -/
def WhisperState.initial : WhisperState :=
  ⟨none, [], [], 0, []⟩

/-- What the handlers of the snippet react to: the two IPC messages, and for
a spawned subprocess a `data` event on its standard output or its `close`
event. -/
inductive WhisperEvent where
  | startRecording
  | stopRecording
  | stdoutData (pid : Nat) (data : List Char)
  | close (pid : Nat)

/-- The handlers of whisper_logic_snippet.js, as written. The file is a
fragment with its own `setupWhisperIPC`: `main.js` does not load it, and the
renderer sends neither of its two messages. An event of a subprocess that has
closed (or was never spawned) cannot occur and changes nothing. -/
def whisperStep (st : WhisperState) : WhisperEvent → WhisperState
  | .startRecording =>
    match st.whisperProcess with
    | some _ => st
    | none =>
      { st with whisperProcess := some st.spawned, alive := st.alive ++ [st.spawned],
                spawned := st.spawned + 1 }
  | .stopRecording =>
    match st.whisperProcess with
    | some pid => { st with killed := st.killed ++ [pid], whisperProcess := none }
    | none => st
  | .stdoutData pid data =>
    if pid ∈ st.alive then
      let text := trim data
      let cleanText := trim (removeGreedy '[' ']' false text)
      if cleanText = [] then st
      else { st with sent := st.sent ++ [WhisperUi.transcriptionData cleanText] }
    else st
  | .close pid =>
    if pid ∈ st.alive then
      { st with alive := st.alive.filter (fun p => p ≠ pid), whisperProcess := none,
                sent := st.sent ++ [WhisperUi.transcriptionStopped] }
    else st

/-! ## Stored sample values -/

/-- The call `view.getInt16(offset, true)`. -/
def getInt16 (view : DataView) (offset : Nat) : Option Int :=
  (getUint16 view offset).map toInt16

/-- The value `floatTo16BitPCM` stores for a clamped sample `c`. -/
def pcmOfClamped (c : ℚ) : Int :=
  if c < 0 then truncate (c * 32768) else truncate (c * 32767)

/-! ## Request bodies and their declared length (main.js, stream functions) -/

/-- The number of bytes of one character in UTF-8. -/
def utf8CharLength (c : Char) : Nat :=
  if c.toNat < 128 then 1 else if c.toNat < 2048 then 2 else if c.toNat < 65536 then 3 else 4

/-- The call `Buffer.byteLength(s)`, which is also the number of bytes that
`req.write(s)` puts on the wire: the length of `s` in UTF-8. -/
def utf8Length (s : List Char) : Nat :=
  (s.map utf8CharLength).sum

/-- A lower-case hexadecimal digit. -/
def hexDigit (n : Nat) : Char :=
  if n < 10 then Char.ofNat (48 + n) else Char.ofNat (87 + n)

/-- One character of a string as `JSON.stringify` writes it. -/
def jsonEscape (c : Char) : List Char :=
  if c = '"' then ['\\', '"']
  else if c = '\\' then ['\\', '\\']
  else if c.toNat = 8 then ['\\', 'b']
  else if c.toNat = 9 then ['\\', 't']
  else if c.toNat = 10 then ['\\', 'n']
  else if c.toNat = 12 then ['\\', 'f']
  else if c.toNat = 13 then ['\\', 'r']
  else if c.toNat < 32 then
    ['\\', 'u', '0', '0', hexDigit (c.toNat / 16), hexDigit (c.toNat % 16)]
  else [c]

/-- A string as `JSON.stringify` writes it. -/
def jsonQuote (s : List Char) : List Char :=
  '"' :: s.flatMap jsonEscape ++ ['"']

/-- The string of a role. -/
def Role.name : Role → List Char
  | .system => "system".toList
  | .user => "user".toList
  | .assistant => "assistant".toList

/-- A history entry as `JSON.stringify` writes it. -/
def jsonMessage (m : Message) : List Char :=
  "\x7b\"role\":".toList ++ jsonQuote m.role.name ++ ",\"content\":".toList
    ++ jsonQuote m.content ++ "\x7d".toList

/-- The elements of an array as `JSON.stringify` writes them, separated by
commas. -/
def jsonItems : List Message → List Char
  | [] => []
  | [m] => jsonMessage m
  | m :: n :: rest => jsonMessage m ++ ',' :: jsonItems (n :: rest)

/-- The constant `data` of both stream functions:
`JSON.stringify(\x7b model, stream: true, messages \x7d)`. -/
def requestBody (model : List Char) (messages : List Message) : List Char :=
  "\x7b\"model\":".toList ++ jsonQuote model ++ ",\"stream\":true,\"messages\":[".toList
    ++ jsonItems messages ++ "]\x7d".toList

/-- A request as a stream function makes it: the declared `Content-Length`
and the string handed to `req.write`. -/
structure HttpRequest where
  contentLength : Nat
  body : List Char

/-- The request of `streamOllama(model, messages, sender)`. -/
def ollamaRequest (model : List Char) (messages : List Message) : HttpRequest :=
  ⟨utf8Length (requestBody model messages), requestBody model messages⟩

/-- The request of `streamDeepSeek(apiKey, messages, sender)`. -/
def deepSeekRequest (messages : List Message) : HttpRequest :=
  ⟨jsLength (requestBody "deepseek-chat".toList messages),
    requestBody "deepseek-chat".toList messages⟩

/-- The number of bytes `req.write(data)` puts on the wire. -/
def HttpRequest.bytesWritten (r : HttpRequest) : Nat :=
  utf8Length r.body
/-! ## Lines of the remote provider's stream -/

/-- A complete line of the response body of the remote provider that carries
the text `fragment`: a `data: ` line, not the sentinel, whose payload
`JSON.parse` reads as an object with `fragment` as
`choices[0].delta.content`. -/
def DeltaLine (jsonParse : List Char → Option JsVal) (line fragment : List Char) : Prop :=
  '\n' ∉ line ∧ startsWith "data: ".toList (trim line) = true
    ∧ removePrefix "data: ".toList (trim line) ≠ "[DONE]".toList
    ∧ ∃ json, jsonParse (removePrefix "data: ".toList (trim line)) = some json
        ∧ deltaContent json = some (.str fragment)

/-- A complete line that is the sentinel `data: [DONE]` once trimmed. -/
def DoneLine (line : List Char) : Prop :=
  '\n' ∉ line ∧ trim line = "data: [DONE]".toList

/-- The object `{"choices": [{"delta": {"content": fragment}}]}`. -/
def deepSeekObject (fragment : List Char) : JsVal :=
  .obj [("choices".toList,
          .arr [.obj [("delta".toList, .obj [("content".toList, .str fragment)])]])]

/-- A table standing for `JSON.parse` on the payloads "Hel" and "lo" of an
example response of the remote provider, and on the lines of the example
response of the local chat server. -/
def exampleParseBoth (text : List Char) : Option JsVal :=
  if text = "\x7b\"choices\":[\x7b\"delta\":\x7b\"content\":\"Hel\"\x7d\x7d]\x7d".toList
  then some (deepSeekObject "Hel".toList)
  else if text = "\x7b\"choices\":[\x7b\"delta\":\x7b\"content\":\"lo\"\x7d\x7d]\x7d".toList
  then some (deepSeekObject "lo".toList)
  else exampleParse text

/-! ## Sessions of the streaming transcription handlers -/

/-- The state of the handlers of whisper_logic_snippet.js after the events,
in order, from the state before any recording. -/
def whisperRun (events : List WhisperEvent) : WhisperState :=
  events.foldl whisperStep WhisperState.initial

/-- The text that the `data` handler sends for a piece of standard output:
trimmed, bracketed parts removed, trimmed again. -/
def cleanStreamText (data : List Char) : List Char :=
  trim (removeGreedy '[' ']' false (trim data))

/-! # Theorems -/

theorem setInt16_at_end (pre : List Nat) (b0 b1 : Nat) (post : List Nat) (v : Int) :
    setInt16 (pre ++ b0 :: b1 :: post) pre.length v
      = some ((pre ++ [(v % 65536).toNat % 256, (v % 65536).toNat / 256 % 256]) ++ post) := by
  have h : pre.length + 2 ≤ (pre ++ b0 :: b1 :: post).length := by simp
  simp only [setInt16, setUint16, h, if_true]
  congr 1
  rw [List.set_append_right _ _ (le_refl _), Nat.sub_self, List.set_cons_zero]
  rw [List.set_append_right _ _ (Nat.le_succ _)]
  simp

theorem floatTo16BitPCM_append (samples : List Sample) :
    ∀ (pre mid : List Nat), mid.length = 2 * samples.length →
      floatTo16BitPCM (pre ++ mid) pre.length samples
        = some (pre ++ samples.flatMap pcmBytes) := by
  induction samples with
  | nil =>
    intro pre mid h
    have : mid = [] := List.length_eq_zero.mp (by simpa using h)
    simp [floatTo16BitPCM, this]
  | cons x rest ih =>
    intro pre mid h
    match mid, h with
    | b0 :: b1 :: post, h =>
      have hp : post.length = 2 * rest.length := by
        simp only [List.length_cons] at h; omega
      have key := ih (pre ++ pcmBytes x) post hp
      simp only [floatTo16BitPCM, setInt16_at_end]
      have hl : (pre ++ pcmBytes x).length = pre.length + 2 := by simp [pcmBytes]
      rw [hl] at key
      simpa [pcmBytes, List.flatMap_cons, List.append_assoc] using key

theorem header_writes {β : Type} (n r : Nat) (post : List Nat) (k : DataView → Option β) :
    (do
      let view : DataView := List.replicate 44 0 ++ post
      let view ← writeString view 0 (utf16 "RIFF".toList)
      let view ← setUint32 view 4 (36 + n * 2)
      let view ← writeString view 8 (utf16 "WAVE".toList)
      let view ← writeString view 12 (utf16 "fmt ".toList)
      let view ← setUint32 view 16 16
      let view ← setUint16 view 20 1
      let view ← setUint16 view 22 1
      let view ← setUint32 view 24 r
      let view ← setUint32 view 28 (r * 2)
      let view ← setUint16 view 32 2
      let view ← setUint16 view 34 16
      let view ← writeString view 36 (utf16 "data".toList)
      let view ← setUint32 view 40 (n * 2)
      k view) = k (wavHeader n r ++ post) := by
  simp [writeString, setUint8, setUint16, setUint32, utf16, utf16Char, wavHeader,
    List.replicate]

theorem wavHeader_length (n r : Nat) : (wavHeader n r).length = 44 := rfl

theorem pcmBytes_flatMap_length (samples : List Sample) :
    (samples.flatMap pcmBytes).length = 2 * samples.length := by
  induction samples with
  | nil => rfl
  | cons x rest ih => simp [List.flatMap_cons, pcmBytes, ih]; omega

/-- Closed form of `encodeWAV`: the header followed by two bytes per sample. -/
theorem encodeWAV_eq (samples : List Sample) (r : Nat) :
    encodeWAV samples r = some (wavHeader samples.length r ++ samples.flatMap pcmBytes) := by
  have hbuf : newArrayBuffer (44 + samples.length * 2)
      = List.replicate 44 0 ++ List.replicate (samples.length * 2) 0 := by
    simp [newArrayBuffer, List.replicate_add]
  have hk := header_writes samples.length r (List.replicate (samples.length * 2) 0)
    (fun view => floatTo16BitPCM view 44 samples)
  have hpcm := floatTo16BitPCM_append samples (wavHeader samples.length r)
    (List.replicate (samples.length * 2) 0) (by simp; omega)
  rw [wavHeader_length] at hpcm
  unfold encodeWAV
  rw [hbuf]
  exact hk.trans hpcm

theorem pcmSamples_flatMap_length (samples : List Sample) :
    (pcmSamples (samples.flatMap pcmBytes)).length = samples.length := by
  induction samples with
  | nil => rfl
  | cons x rest ih =>
    simp only [List.flatMap_cons, pcmBytes, List.cons_append, List.nil_append, pcmSamples,
      List.length_cons]
    exact congrArg (· + 1) ih

theorem le32_bytes (x : Nat) (h : x < 2 ^ 32) :
    x % 256 + 256 * (x / 256 % 256) + 65536 * (x / 65536 % 256)
      + 16777216 * (x / 16777216 % 256) = x := by
  omega

/-- C1. For N samples with 44 + 2N < 2^32 and any rate, `encodeWAV` returns a
buffer of exactly 44 + 2N bytes whose little-endian 32-bit field at offset 4
is 36 + 2N and at offset 40 is 2N, and a decoder reading the declared data
length as 16-bit samples from offset 44 recovers exactly N samples. -/
theorem encodeWAV_declared_lengths (samples : List Sample) (sampleRate : Nat)
    (h : 44 + 2 * samples.length < 2 ^ 32) :
    ∃ buf, encodeWAV samples sampleRate = some buf
      ∧ buf.length = 44 + 2 * samples.length
      ∧ getUint32 buf 4 = some (36 + 2 * samples.length)
      ∧ getUint32 buf 40 = some (2 * samples.length)
      ∧ (decodeWAV buf).map List.length = some samples.length := by
  have hlen : (wavHeader samples.length sampleRate ++ samples.flatMap pcmBytes).length
      = 44 + 2 * samples.length := by
    rw [List.length_append, wavHeader_length, pcmBytes_flatMap_length]
  have h40 : getUint32 (wavHeader samples.length sampleRate ++ samples.flatMap pcmBytes) 40
      = some (2 * samples.length) := by
    have hb : 40 + 4 ≤ (wavHeader samples.length sampleRate
        ++ samples.flatMap pcmBytes).length := by omega
    rw [getUint32, if_pos hb]
    have e := le32_bytes (samples.length * 2) (by omega)
    simp [wavHeader, List.getD] 
    omega
  refine ⟨_, encodeWAV_eq samples sampleRate, hlen, ?_, h40, ?_⟩
  · have hb : 4 + 4 ≤ (wavHeader samples.length sampleRate
        ++ samples.flatMap pcmBytes).length := by omega
    rw [getUint32, if_pos hb]
    have e := le32_bytes (36 + samples.length * 2) (by omega)
    simp [wavHeader, List.getD]
    omega
  · rw [decodeWAV, h40]
    have hb : 44 + 2 * samples.length ≤ (wavHeader samples.length sampleRate
        ++ samples.flatMap pcmBytes).length := by omega
    simp only [if_pos hb, Option.map_some']
    congr 1
    have hd : List.drop 44 (wavHeader samples.length sampleRate ++ samples.flatMap pcmBytes)
        = samples.flatMap pcmBytes := by
      rw [List.drop_append_eq_append_drop, wavHeader_length]
      simp [List.drop_of_length_le, wavHeader_length]
    rw [hd, ← pcmBytes_flatMap_length, List.take_length, pcmSamples_flatMap_length]

theorem encodeWAV_declared_lengths_witness :
    44 + 2 * [Sample.fin 0, Sample.fin 1, Sample.nan].length < 2 ^ 32
      ∧ ∃ buf, encodeWAV [Sample.fin 0, Sample.fin 1, Sample.nan] 16000 = some buf
        ∧ buf.length = 44 + 2 * [Sample.fin 0, Sample.fin 1, Sample.nan].length
        ∧ getUint32 buf 4 = some (36 + 2 * [Sample.fin 0, Sample.fin 1, Sample.nan].length)
        ∧ getUint32 buf 40 = some (2 * [Sample.fin 0, Sample.fin 1, Sample.nan].length)
        ∧ (decodeWAV buf).map List.length
            = some [Sample.fin 0, Sample.fin 1, Sample.nan].length :=
  ⟨by decide, encodeWAV_declared_lengths _ 16000 (by decide)⟩

/-- C2. For every sample sequence and every rate R with 2R < 2^32 the first 44
bytes of `encodeWAV(samples, R)` are the canonical 16-bit PCM mono header:
"RIFF" at 0, "WAVE" at 8, "fmt " at 12, chunk size 16 at 16, format 1 at 20,
one channel at 22, R at 24, byte rate 2R at 28, block align 2 at 32, 16 bits
per sample at 34 and "data" at 36, every integer little-endian. -/
theorem encodeWAV_canonical_header (samples : List Sample) (sampleRate : Nat)
    (h : 2 * sampleRate < 2 ^ 32) :
    ∃ buf, encodeWAV samples sampleRate = some buf
      ∧ 44 ≤ buf.length
      ∧ getAscii buf 0 4 = "RIFF".toList
      ∧ getAscii buf 8 4 = "WAVE".toList
      ∧ getAscii buf 12 4 = "fmt ".toList
      ∧ getUint32 buf 16 = some 16
      ∧ getUint16 buf 20 = some 1
      ∧ getUint16 buf 22 = some 1
      ∧ getUint32 buf 24 = some sampleRate
      ∧ getUint32 buf 28 = some (2 * sampleRate)
      ∧ getUint16 buf 32 = some 2
      ∧ getUint16 buf 34 = some 16
      ∧ getAscii buf 36 4 = "data".toList := by
  have hlen : (wavHeader samples.length sampleRate ++ samples.flatMap pcmBytes).length
      = 44 + 2 * samples.length := by
    rw [List.length_append, wavHeader_length, pcmBytes_flatMap_length]
  have er := le32_bytes sampleRate (by omega)
  have er2 := le32_bytes (sampleRate * 2) (by omega)
  refine ⟨_, encodeWAV_eq samples sampleRate, by omega, ?_, ?_, ?_, ?_, ?_, ?_, ?_, ?_, ?_, ?_, ?_⟩
  · simp [getAscii, wavHeader]
  · simp [getAscii, wavHeader]
  · simp [getAscii, wavHeader]
  · rw [getUint32, if_pos (by omega)]; simp [wavHeader, List.getD]
  · rw [getUint16, if_pos (by omega)]; simp [wavHeader, List.getD]
  · rw [getUint16, if_pos (by omega)]; simp [wavHeader, List.getD]
  · rw [getUint32, if_pos (by omega)]; simp [wavHeader, List.getD]; omega
  · rw [getUint32, if_pos (by omega)]; simp [wavHeader, List.getD]; omega
  · rw [getUint16, if_pos (by omega)]; simp [wavHeader, List.getD]
  · rw [getUint16, if_pos (by omega)]; simp [wavHeader, List.getD]
  · simp [getAscii, wavHeader]

theorem encodeWAV_canonical_header_witness :
    2 * 16000 < 2 ^ 32
      ∧ ∃ buf, encodeWAV [Sample.fin (1 / 2), Sample.inf true] 16000 = some buf
        ∧ 44 ≤ buf.length
        ∧ getAscii buf 0 4 = "RIFF".toList
        ∧ getAscii buf 8 4 = "WAVE".toList
        ∧ getAscii buf 12 4 = "fmt ".toList
        ∧ getUint32 buf 16 = some 16
        ∧ getUint16 buf 20 = some 1
        ∧ getUint16 buf 22 = some 1
        ∧ getUint32 buf 24 = some 16000
        ∧ getUint32 buf 28 = some (2 * 16000)
        ∧ getUint16 buf 32 = some 2
        ∧ getUint16 buf 34 = some 16
        ∧ getAscii buf 36 4 = "data".toList :=
  ⟨by decide, encodeWAV_canonical_header _ 16000 (by decide)⟩

theorem onlyPunctuation_of_forall (t : List Char) (hne : t ≠ [])
    (h : ∀ c ∈ t, c = '.' ∨ c = '?' ∨ c = '!' ∨ c = ',' ∨ c = ' ') :
    onlyPunctuation t = true := by
  cases t with
  | nil => exact absurd rfl hne
  | cons a as =>
    simp only [onlyPunctuation, List.isEmpty_cons, Bool.not_false, Bool.true_and,
      List.all_eq_true]
    intro c hc
    have := h c hc
    simp only [Bool.or_eq_true, decide_eq_true_eq]
    tauto

/-- C3. On exit code 0 the cleanup pass sends the empty string for the outputs
"Silence", "silence", "[Music]", three spaces, "." and "a", and sends
"Hello there" unchanged; in general it sends the empty string whenever the
stripped and trimmed text has fewer than 2 characters (UTF-16 code units, as
`length` counts them) or consists only of the characters . ? ! , and space. -/
theorem whisperOnClose_cleanup :
    whisperOnClose (some 0) "Silence".toList = .result []
      ∧ whisperOnClose (some 0) "silence".toList = .result []
      ∧ whisperOnClose (some 0) "[Music]".toList = .result []
      ∧ whisperOnClose (some 0) "   ".toList = .result []
      ∧ whisperOnClose (some 0) ".".toList = .result []
      ∧ whisperOnClose (some 0) "a".toList = .result []
      ∧ whisperOnClose (some 0) "Hello there".toList = .result "Hello there".toList
      ∧ ∀ outputText : List Char,
          (jsLength (stripTranscript outputText) < 2
            ∨ ∀ c ∈ stripTranscript outputText,
                c = '.' ∨ c = '?' ∨ c = '!' ∨ c = ',' ∨ c = ' ') →
          whisperOnClose (some 0) outputText = .result [] := by
  refine ⟨by decide, by decide, by decide, by decide, by decide, by decide, by decide, ?_⟩
  intro outputText h
  have hcode : whisperOnClose (some 0) outputText = .result (cleanTranscript outputText) := by
    simp [whisperOnClose]
  rw [hcode]
  congr 1
  have hshort : jsLength (stripTranscript outputText) < 2
      ∨ onlyPunctuation (stripTranscript outputText) = true := by
    rcases h with h | h
    · exact Or.inl h
    · by_cases hne : stripTranscript outputText = []
      · left; rw [hne]; decide
      · exact Or.inr (onlyPunctuation_of_forall _ hne h)
  unfold cleanTranscript
  rcases hshort with h | h
  · simp [h]
  · simp [h]

theorem whisperOnClose_cleanup_witness :
    (jsLength (stripTranscript "[noise] ?!\n".toList) < 2
      ∨ ∀ c ∈ stripTranscript "[noise] ?!\n".toList,
          c = '.' ∨ c = '?' ∨ c = '!' ∨ c = ',' ∨ c = ' ')
      ∧ whisperOnClose (some 0) "[noise] ?!\n".toList = .result [] :=
  ⟨Or.inr (by decide),
    whisperOnClose_cleanup.2.2.2.2.2.2.2 "[noise] ?!\n".toList (Or.inr (by decide))⟩

theorem split_ne_nil (sep : Char) (s : List Char) : split sep s ≠ [] := by
  cases s with
  | nil => simp [split]
  | cons c cs =>
    simp only [split]
    split_ifs
    · simp
    · cases split sep cs <;> simp

theorem split_cons_sep (sep : Char) (cs : List Char) :
    split sep (sep :: cs) = [] :: split sep cs := by
  simp [split]

theorem split_cons_ne (sep c : Char) (cs : List Char) (h : c ≠ sep) :
    split sep (c :: cs)
      = ((split sep cs).headD [] |>.cons c) :: (split sep cs).tail := by
  have hne := split_ne_nil sep cs
  simp only [split, h, if_false]
  cases hs : split sep cs with
  | nil => exact absurd hs hne
  | cons l ls => simp

theorem split_append (sep : Char) (s t : List Char) :
    split sep (s ++ t)
      = (split sep s).dropLast ++ split sep ((split sep s).getLastD [] ++ t) := by
  induction s with
  | nil => simp [split]
  | cons c cs ih =>
    have hne := split_ne_nil sep cs
    by_cases hc : c = sep
    · subst hc
      rw [List.cons_append, split_cons_sep, split_cons_sep, ih]
      cases hs : split c cs with
      | nil => exact absurd hs hne
      | cons l ls => simp [List.dropLast, List.getLastD]
    · rw [List.cons_append, split_cons_ne _ _ _ hc, split_cons_ne _ _ _ hc, ih]
      cases hs : split sep cs with
      | nil => exact absurd hs hne
      | cons l ls =>
        cases ls with
        | nil =>
          have e1 : [c :: l].getLastD [] = c :: l := rfl
          have e2 : [l].getLastD [] = l := rfl
          simp only [List.dropLast, List.nil_append, List.headD_cons, List.tail_cons, e1, e2,
            List.cons_append]
          rw [split_cons_ne _ _ _ hc]
        | cons l1 ls1 =>
          simp [List.dropLast, List.getLastD]

theorem not_mem_of_mem_split (sep : Char) (s : List Char) :
    ∀ l ∈ split sep s, sep ∉ l := by
  induction s with
  | nil => simp [split]
  | cons c cs ih =>
    by_cases hc : c = sep
    · subst hc
      rw [split_cons_sep]
      intro l hl
      rcases List.mem_cons.mp hl with h | h
      · simp [h]
      · exact ih l h
    · rw [split_cons_ne _ _ _ hc]
      have hne := split_ne_nil sep cs
      cases hs : split sep cs with
      | nil => exact absurd hs hne
      | cons l0 ls =>
        rw [hs] at ih
        intro l hl
        simp only [List.headD_cons, List.tail_cons, List.mem_cons] at hl
        rcases hl with h | h
        · subst h
          have := ih l0 (List.mem_cons_self _ _)
          simp only [List.mem_cons, not_or]
          exact ⟨fun e => hc e.symm, this⟩
        · exact ih l (List.mem_cons_of_mem _ h)

theorem split_of_not_mem (sep : Char) (s : List Char) (h : sep ∉ s) : split sep s = [s] := by
  induction s with
  | nil => rfl
  | cons c cs ih =>
    have hc : c ≠ sep := fun e => h (e ▸ List.mem_cons_self _ _)
    have hcs : sep ∉ cs := fun e => h (List.mem_cons_of_mem _ e)
    rw [split_cons_ne _ _ _ hc, ih hcs]
    rfl

theorem getLastD_split_not_mem (sep : Char) (s : List Char) :
    sep ∉ (split sep s).getLastD [] := by
  have hne := split_ne_nil sep s
  have hmem : (split sep s).getLastD [] ∈ split sep s := by
    rw [List.getLastD_eq_getLast?]
    cases hl : (split sep s).getLast? with
    | none => exact absurd (List.getLast?_eq_none_iff.mp hl) hne
    | some x => exact List.mem_of_getLast?_eq_some hl
  exact not_mem_of_mem_split sep s _ hmem

/-- The `data` handlers of a response, taken together, run the line loop on
successive groups of the complete lines of the body and keep the unfinished
last line in the buffer. -/
theorem onData_foldl (body : List Char → StreamState → StreamState × Bool)
    (chunks : List (List Char)) :
    ∀ (b : List Char) (st : StreamState), '\n' ∉ b →
      ∃ groups : List (List (List Char)),
        groups.flatten = (split '\n' (b ++ chunks.flatten)).dropLast
          ∧ chunks.foldl (onData body) (b, st)
            = ((split '\n' (b ++ chunks.flatten)).getLastD [],
                groups.foldl (fun s g => (forOf body g s).1) st) := by
  induction chunks with
  | nil =>
    intro b st hb
    refine ⟨[], ?_, ?_⟩
    · simp [split_of_not_mem _ _ hb]
    · simp [split_of_not_mem _ _ hb, List.getLastD]
  | cons c cs ih =>
    intro b st hb
    obtain ⟨groups, hg, hf⟩ := ih ((split '\n' (b ++ c)).getLastD [])
      (forOf body (split '\n' (b ++ c)).dropLast st).1 (getLastD_split_not_mem _ _)
    have hsplit : split '\n' (b ++ (c :: cs).flatten)
        = (split '\n' (b ++ c)).dropLast
          ++ split '\n' ((split '\n' (b ++ c)).getLastD [] ++ cs.flatten) := by
      rw [List.flatten_cons, ← List.append_assoc, split_append]
    have hne := split_ne_nil '\n' ((split '\n' (b ++ c)).getLastD [] ++ cs.flatten)
    refine ⟨(split '\n' (b ++ c)).dropLast :: groups, ?_, ?_⟩
    · rw [List.flatten_cons, hg, hsplit, List.dropLast_append_of_ne_nil _ hne]
    · rw [List.foldl_cons, List.foldl_cons, hsplit]
      rw [List.getLastD_eq_getLast?, List.getLast?_append_of_ne_nil _ hne,
        ← List.getLastD_eq_getLast?]
      exact hf

theorem emit_promise (st : StreamState) (v : JsVal) : (emit st v).promise = st.promise := by
  unfold emit
  cases st.promise <;> rfl

theorem resolve_promise_ne (st : StreamState) (v : List Char) :
    (resolve st v).promise ≠ Settled.pending := by
  unfold resolve
  cases h : st.promise <;> simp [h]

theorem resolve_of_settled (st : StreamState) (v : List Char)
    (h : st.promise ≠ Settled.pending) : resolve st v = st := by
  unfold resolve
  cases hp : st.promise with
  | pending => exact absurd hp h
  | resolved t => rfl
  | rejected m => rfl

/-- A loop body that either goes on with the promise untouched or resolves
and returns obeys the three laws. -/
theorem settlesOnReturn_of_shape (body : List Char → StreamState → StreamState × Bool)
    (h : ∀ l st, ∃ st1 : StreamState, st1.promise = st.promise
      ∧ (body l st = (st1, false) ∨ body l st = (resolve st1 st1.fullResponse, true))) :
    SettlesOnReturn body := by
  refine ⟨?_, ?_, ?_⟩
  · intro l st hf
    obtain ⟨st1, hp, h1 | h1⟩ := h l st
    · rw [h1]; exact hp
    · rw [h1] at hf; simp at hf
  · intro l st hf
    obtain ⟨st1, hp, h1 | h1⟩ := h l st
    · rw [h1] at hf; simp at hf
    · rw [h1]; exact resolve_promise_ne _ _
  · intro l st hs
    obtain ⟨st1, hp, h1 | h1⟩ := h l st
    · rw [h1]; exact hp
    · rw [h1, resolve_of_settled _ _ (by rw [hp]; exact hs)]; exact hp

theorem ollamaLine_shape (jsonParse : List Char → Option JsVal) (l : List Char)
    (st : StreamState) :
    ∃ st1 : StreamState, st1.promise = st.promise
      ∧ (ollamaLine jsonParse l st = (st1, false)
        ∨ ollamaLine jsonParse l st = (resolve st1 st1.fullResponse, true)) := by
  unfold ollamaLine
  by_cases h1 : trim l = []
  · exact ⟨st, rfl, Or.inl (by simp [h1])⟩
  · simp only [h1, if_false]
    cases jsonParse l with
    | none => exact ⟨st, rfl, Or.inl rfl⟩
    | some json =>
      simp only []
      cases messageContent json with
      | none => exact ⟨st, rfl, Or.inl rfl⟩
      | some content =>
        refine ⟨if truthy content then emit st content else st, ?_, ?_⟩
        · split_ifs <;> simp [emit_promise]
        · simp only []
          cases getProp json "done".toList with
          | none => exact Or.inl rfl
          | some done =>
            by_cases ht : truthy done = true
            · right; simp [ht]
            · left; simp [ht]

theorem deepSeekLine_shape (jsonParse : List Char → Option JsVal) (l : List Char)
    (st : StreamState) :
    ∃ st1 : StreamState, st1.promise = st.promise
      ∧ (deepSeekLine jsonParse l st = (st1, false)
        ∨ deepSeekLine jsonParse l st = (resolve st1 st1.fullResponse, true)) := by
  unfold deepSeekLine
  simp only []
  by_cases h1 : startsWith "data: ".toList (trim l) = true
  · simp only [h1, if_true]
    by_cases h2 : removePrefix "data: ".toList (trim l) = "[DONE]".toList
    · exact ⟨st, rfl, Or.inr (by rw [if_pos h2])⟩
    · simp only [h2, if_false]
      cases jsonParse (removePrefix "data: ".toList (trim l)) with
      | none => exact ⟨st, rfl, Or.inl rfl⟩
      | some json =>
        simp only []
        cases deltaContent json with
        | none => exact ⟨st, rfl, Or.inl rfl⟩
        | some content =>
          by_cases ht : truthy content = true
          · exact ⟨emit st content, emit_promise _ _, Or.inl (by simp [ht])⟩
          · exact ⟨st, rfl, Or.inl (by simp [ht])⟩
  · exact ⟨st, rfl, Or.inl (by rw [if_neg h1])⟩

theorem ollamaLine_laws (jsonParse : List Char → Option JsVal) :
    SettlesOnReturn (ollamaLine jsonParse) :=
  settlesOnReturn_of_shape _ (ollamaLine_shape jsonParse)

theorem deepSeekLine_laws (jsonParse : List Char → Option JsVal) :
    SettlesOnReturn (deepSeekLine jsonParse) :=
  settlesOnReturn_of_shape _ (deepSeekLine_shape jsonParse)

theorem forOf_append {α σ : Type} (body : α → σ → σ × Bool) (xs ys : List α) :
    ∀ st, forOf body (xs ++ ys) st
      = if (forOf body xs st).2 = true then forOf body xs st
        else forOf body ys (forOf body xs st).1 := by
  induction xs with
  | nil => intro st; simp [forOf]
  | cons x rest ih =>
    intro st
    simp only [List.cons_append, forOf]
    rcases hb : body x st with ⟨st1, f⟩
    cases f with
    | true => simp
    | false => simpa using ih st1

theorem forOf_mono {body : List Char → StreamState → StreamState × Bool}
    (laws : SettlesOnReturn body) (ls : List (List Char)) :
    ∀ st, st.promise ≠ Settled.pending → (forOf body ls st).1.promise = st.promise := by
  induction ls with
  | nil => intro st _; rfl
  | cons x rest ih =>
    intro st hs
    have hm := laws.mono x st hs
    simp only [forOf]
    rcases hb : body x st with ⟨st1, f⟩
    rw [hb] at hm
    cases f with
    | true => exact hm
    | false =>
      simp only []
      rw [ih st1 (by rw [hm]; exact hs)]
      exact hm

theorem forOf_settle {body : List Char → StreamState → StreamState × Bool}
    (laws : SettlesOnReturn body) (ls : List (List Char)) :
    ∀ st, (forOf body ls st).2 = true → (forOf body ls st).1.promise ≠ Settled.pending := by
  induction ls with
  | nil => intro st h; simp [forOf] at h
  | cons x rest ih =>
    intro st
    have hs := laws.settle x st
    simp only [forOf]
    rcases hb : body x st with ⟨st1, f⟩
    rw [hb] at hs
    cases f with
    | true => intro _; exact hs rfl
    | false => exact ih st1

theorem groups_mono {body : List Char → StreamState → StreamState × Bool}
    (laws : SettlesOnReturn body) (groups : List (List (List Char))) :
    ∀ st, st.promise ≠ Settled.pending →
      (groups.foldl (fun s g => (forOf body g s).1) st).promise = st.promise := by
  induction groups with
  | nil => intro st _; rfl
  | cons g gs ih =>
    intro st hs
    rw [List.foldl_cons, ih _ (by rw [forOf_mono laws g st hs]; exact hs)]
    exact forOf_mono laws g st hs

theorem onEnd_promise (b b1 : List Char) (s t : StreamState)
    (h : s.promise = t.promise) (hf : s.promise = Settled.pending → s = t) :
    (onEnd (b, s)).promise = (onEnd (b1, t)).promise := by
  unfold onEnd resolve
  cases hp : s.promise with
  | pending =>
    have := hf hp
    subst this
    simp [hp]
  | resolved v => simp [← h, hp]
  | rejected m => simp [← h, hp]

/-- However the complete lines are grouped into `data` events, the promise is
settled as by one pass over all of them, and while it is pending the whole
stream state is that of the single pass. -/
theorem groups_vs_single {body : List Char → StreamState → StreamState × Bool}
    (laws : SettlesOnReturn body) (groups : List (List (List Char))) :
    ∀ st, (groups.foldl (fun s g => (forOf body g s).1) st).promise
          = (forOf body groups.flatten st).1.promise
        ∧ ((forOf body groups.flatten st).2 = false →
            groups.foldl (fun s g => (forOf body g s).1) st
              = (forOf body groups.flatten st).1) := by
  induction groups with
  | nil => intro st; exact ⟨rfl, fun _ => rfl⟩
  | cons g gs ih =>
    intro st
    rw [List.foldl_cons, List.flatten_cons, forOf_append]
    by_cases hf : (forOf body g st).2 = true
    · simp only [hf, if_true]
      refine ⟨groups_mono laws gs _ (forOf_settle laws g st hf), ?_⟩
      intro h; cases h
    · simp only [hf, if_false]
      exact ih _

theorem stream_promise_single {body : List Char → StreamState → StreamState × Bool}
    (laws : SettlesOnReturn body) (chunks : List (List Char)) :
    (onEnd (chunks.foldl (onData body) ([], StreamState.init))).promise
      = (onEnd ([chunks.flatten].foldl (onData body) ([], StreamState.init))).promise := by
  obtain ⟨g1, hg1, hf1⟩ := onData_foldl body chunks [] StreamState.init (by simp)
  obtain ⟨g2, hg2, hf2⟩ := onData_foldl body [chunks.flatten] [] StreamState.init (by simp)
  have hflat : g2.flatten = g1.flatten := by
    rw [hg1, hg2]; simp
  rw [hf1, hf2]
  have h1 := groups_vs_single laws g1 StreamState.init
  have h2 := groups_vs_single laws g2 StreamState.init
  rw [hflat] at h2
  apply onEnd_promise
  · rw [h1.1, h2.1]
  · intro hp
    have hflag : (forOf body g1.flatten StreamState.init).2 = false := by
      by_contra hne
      have ht : (forOf body g1.flatten StreamState.init).2 = true := by
        simpa using hne
      exact forOf_settle laws _ _ ht (h1.1 ▸ hp)
    rw [h1.2 hflag, h2.2 hflag]

/-- C4. For every response body and every way of splitting it into successive
network chunks, `streamOllama` and `streamDeepSeek` settle their promise as
when the whole body arrives as one chunk: only complete newline-terminated
lines reach the parser and a partial trailing line waits in the buffer for the
next chunk. -/
theorem stream_answer_independent_of_chunking (jsonParse : List Char → Option JsVal)
    (statusCode : Nat) (statusMessage : List Char) (chunks : List (List Char)) :
    (streamOllama jsonParse (.response statusCode statusMessage chunks)).promise
        = (streamOllama jsonParse
            (.response statusCode statusMessage [chunks.flatten])).promise
      ∧ (streamDeepSeek jsonParse (.response statusCode statusMessage chunks)).promise
        = (streamDeepSeek jsonParse
            (.response statusCode statusMessage [chunks.flatten])).promise := by
  constructor
  · simp only [streamOllama]
    by_cases hs : statusCode ≠ 200
    · rw [if_pos hs, if_pos hs]
    · rw [if_neg hs, if_neg hs]
      exact stream_promise_single (ollamaLine_laws jsonParse) chunks
  · simp only [streamDeepSeek]
    exact stream_promise_single (deepSeekLine_laws jsonParse) chunks

theorem split_line (sep : Char) (l rest : List Char) (h : sep ∉ l) :
    split sep (l ++ sep :: rest) = l :: split sep rest := by
  induction l with
  | nil => exact split_cons_sep sep rest
  | cons c cs ih =>
    have hc : c ≠ sep := fun e => h (e ▸ List.mem_cons_self _ _)
    have hcs : sep ∉ cs := fun e => h (List.mem_cons_of_mem _ e)
    rw [List.cons_append, split_cons_ne _ _ _ hc, ih hcs]
    rfl

theorem split_lines (sep : Char) (ls : List (List Char)) (h : ∀ l ∈ ls, sep ∉ l) :
    split sep ((ls.map (· ++ [sep])).flatten) = ls ++ [[]] := by
  induction ls with
  | nil => rfl
  | cons l rest ih =>
    have hl : sep ∉ l := h l (List.mem_cons_self _ _)
    have hr : ∀ x ∈ rest, sep ∉ x := fun x hx => h x (List.mem_cons_of_mem _ hx)
    rw [List.map_cons, List.flatten_cons, List.append_assoc, List.singleton_append,
      split_line _ _ _ hl, ih hr]
    rfl

theorem groups_of_empty {σ : Type} (body : List Char → σ → σ × Bool)
    (groups : List (List (List Char))) (h : groups.flatten = []) :
    ∀ st, groups.foldl (fun s g => (forOf body g s).1) st = st := by
  induction groups with
  | nil => intro st; rfl
  | cons g gs ih =>
    intro st
    rw [List.flatten_cons, List.append_eq_nil] at h
    rw [List.foldl_cons, h.1, ih h.2]
    rfl

/-- When no line before the last one ends the handler, the grouping of the
lines into `data` events does not matter at all. -/
theorem groups_last (body : List Char → StreamState → StreamState × Bool)
    (groups : List (List (List Char))) :
    ∀ (st : StreamState) (ls : List (List Char)) (x : List Char),
      groups.flatten = ls ++ [x] → (forOf body ls st).2 = false →
      groups.foldl (fun s g => (forOf body g s).1) st = (forOf body (ls ++ [x]) st).1 := by
  induction groups with
  | nil =>
    intro st ls x h _
    simp at h
  | cons g gs ih =>
    intro st ls x h hflag
    rw [List.flatten_cons] at h
    rw [List.foldl_cons]
    by_cases hgs : gs.flatten = []
    · rw [hgs, List.append_nil] at h
      rw [groups_of_empty body gs hgs, h]
    · have hsplit : gs.flatten = gs.flatten.dropLast ++ [gs.flatten.getLast hgs] :=
        (List.dropLast_append_getLast hgs).symm
      rw [hsplit, ← List.append_assoc] at h
      have hinj := List.append_inj' h rfl
      have hx : [gs.flatten.getLast hgs] = [x] := hinj.2
      have hls : ls = g ++ gs.flatten.dropLast := hinj.1.symm
      rw [hls, forOf_append] at hflag
      have hg : (forOf body g st).2 = false := by
        by_contra hne
        have ht : (forOf body g st).2 = true := by simpa using hne
        rw [if_pos ht] at hflag
        rw [ht] at hflag
        cases hflag
      rw [if_neg (by rw [hg]; simp)] at hflag
      have hrec := ih (forOf body g st).1 gs.flatten.dropLast x (by rw [← hx]; exact hsplit)
        hflag
      rw [hrec, hls, List.append_assoc, forOf_append body g, if_neg (by rw [hg]; simp)]

theorem ollamaLine_fragment (jsonParse : List Char → Option JsVal) (l f : List Char)
    (d : Bool) (st : StreamState) (h : FragmentLine jsonParse l f d) :
    ollamaLine jsonParse l st
      = (if d then
          (resolve (feed st [f]) (feed st [f]).fullResponse, true)
        else (feed st [f], false)) := by
  obtain ⟨_, hblank, json, hparse, hcontent, flag, hdone, hflag⟩ := h
  subst hflag
  have htr : truthy (.str f) = !f.isEmpty := rfl
  have hfeed : feed st [f] = if f.isEmpty then st else emit st (.str f) := rfl
  unfold ollamaLine
  rw [if_neg hblank]
  simp only [hparse, hcontent, hdone, htr, hfeed]
  cases hf : f.isEmpty <;> simp

theorem feed_append (st : StreamState) (a b : List (List Char)) :
    feed st (a ++ b) = feed (feed st a) b := by
  simp [feed, List.foldl_append]

theorem forOf_fragments (jsonParse : List Char → Option JsVal) (lines frags : List (List Char))
    (h : List.Forall₂ (fun l f => FragmentLine jsonParse l f false) lines frags) :
    ∀ st, forOf (ollamaLine jsonParse) lines st = (feed st frags, false) := by
  induction h with
  | nil => intro st; rfl
  | cons hl _ ih =>
    intro st
    simp only [forOf]
    rw [ollamaLine_fragment _ _ _ _ _ hl]
    simp only [Bool.false_eq_true, if_false]
    rw [ih]
    rfl

theorem feed_fields (frags : List (List Char)) :
    ∀ st : StreamState, st.promise = Settled.pending →
      (feed st frags).promise = Settled.pending
        ∧ (feed st frags).fullResponse = st.fullResponse ++ frags.flatten
        ∧ (feed st frags).sent
            = st.sent ++ (frags.filter (fun f => !f.isEmpty)).map JsVal.str
        ∧ (feed st frags).late = st.late := by
  induction frags with
  | nil => intro st h; simp [feed, h]
  | cons f rest ih =>
    intro st h
    have hstep : feed st (f :: rest)
        = feed (if f.isEmpty then st else emit st (.str f)) rest := rfl
    rw [hstep]
    cases hf : f.isEmpty with
    | true =>
      have hnil : f = [] := List.isEmpty_iff.mp hf
      obtain ⟨h1, h2, h3, h4⟩ := ih st h
      simp only [if_true]
      refine ⟨h1, ?_, ?_, h4⟩
      · rw [h2, hnil]; simp
      · rw [h3, hnil]; simp
    | false =>
      have he : emit st (.str f)
          = { st with fullResponse := st.fullResponse ++ f, sent := st.sent ++ [.str f] } := by
        simp [emit, h, toStr]
      obtain ⟨h1, h2, h3, h4⟩ := ih (emit st (.str f)) (by rw [emit_promise]; exact h)
      simp only [Bool.false_eq_true, if_false]
      refine ⟨h1, ?_, ?_, ?_⟩
      · rw [h2, he]; simp
      · rw [h3, he]; simp [List.filter_cons, hf]
      · rw [h4, he]

theorem fragmentLines_no_newline (jsonParse : List Char → Option JsVal)
    (lines frags : List (List Char))
    (h : List.Forall₂ (fun l f => FragmentLine jsonParse l f false) lines frags) :
    ∀ l ∈ lines, '\n' ∉ l := by
  induction h with
  | nil => intro l hl; cases hl
  | cons hl _ ih =>
    intro l hmem
    rcases List.mem_cons.mp hmem with e | e
    · rw [e]; exact hl.1
    · exact ih l e

/-- Final stream state of `streamOllama` on a body made of fragment lines
closed by one line flagged done, however the body is cut into chunks. -/
theorem streamOllama_fragments_state (jsonParse : List Char → Option JsVal)
    (statusMessage : List Char) (lines frags : List (List Char))
    (lastLine lastFrag : List Char) (chunks : List (List Char))
    (hlines : List.Forall₂ (fun l f => FragmentLine jsonParse l f false) lines frags)
    (hlast : FragmentLine jsonParse lastLine lastFrag true)
    (hbody : chunks.flatten = ((lines ++ [lastLine]).map (· ++ ['\n'])).flatten) :
    streamOllama jsonParse (.response 200 statusMessage chunks)
      = resolve (feed StreamState.init (frags ++ [lastFrag]))
          (feed StreamState.init (frags ++ [lastFrag])).fullResponse := by
  have hnl : ∀ l ∈ lines ++ [lastLine], '\n' ∉ l := by
    intro l hl
    rcases List.mem_append.mp hl with e | e
    · exact fragmentLines_no_newline jsonParse lines frags hlines l e
    · rw [List.mem_singleton.mp e]; exact hlast.1
  obtain ⟨groups, hg, hf⟩ :=
    onData_foldl (ollamaLine jsonParse) chunks [] StreamState.init (by simp)
  rw [List.nil_append, hbody, split_lines _ _ hnl, List.dropLast_concat] at hg
  have hpass := forOf_fragments jsonParse lines frags hlines StreamState.init
  have hrun := groups_last (ollamaLine jsonParse) groups StreamState.init lines lastLine hg
    (by rw [hpass])
  have hfinal : (forOf (ollamaLine jsonParse) (lines ++ [lastLine]) StreamState.init).1
      = resolve (feed StreamState.init (frags ++ [lastFrag]))
          (feed StreamState.init (frags ++ [lastFrag])).fullResponse := by
    rw [forOf_append, hpass, if_neg (by simp)]
    simp only [forOf]
    rw [ollamaLine_fragment _ _ _ _ _ hlast, feed_append]
    rfl
  simp only [streamOllama]
  rw [if_neg (by simp), hf, hrun, hfinal]
  unfold onEnd
  simp only []
  exact resolve_of_settled _ _ (resolve_promise_ne _ _)

theorem resolve_fields (st : StreamState) (v : List Char) (h : st.promise = Settled.pending) :
    (resolve st v).promise = Settled.resolved v ∧ (resolve st v).sent = st.sent
      ∧ (resolve st v).late = st.late ∧ (resolve st v).fullResponse = st.fullResponse := by
  simp [resolve, h]

theorem foldl_onAiEvent_chunks (frags : List (List Char)) :
    ∀ text : List Char,
      (frags.map (fun f => AiEvent.chunk (.str f))).foldl onAiEvent text
        = text ++ frags.flatten := by
  induction frags with
  | nil => intro text; simp
  | cons f rest ih =>
    intro text
    rw [List.map_cons, List.foldl_cons, ih]
    simp [onAiEvent, toStr]

theorem flatten_filter_nonempty (frags : List (List Char)) :
    (frags.filter (fun f => !f.isEmpty)).flatten = frags.flatten := by
  induction frags with
  | nil => rfl
  | cons f rest ih =>
    cases hf : f.isEmpty with
    | true =>
      have hnil : f = [] := List.isEmpty_iff.mp hf
      simp [List.filter_cons, hf, ih, hnil]
    | false => simp [List.filter_cons, hf, ih]

/-- C5. When the local chat server delivers content fragments as
newline-terminated JSON objects, the last of them flagged done, `streamOllama`
forwards the non-empty fragments as `ai-chunk` messages in arrival order and
resolves with the concatenation of the fragments in that order; `ask-ai`
appends that concatenation as the assistant entry, and the renderer has
accumulated the same text at `ai-done`. -/
theorem streamOllama_fragments_in_order (jsonParse : List Char → Option JsVal)
    (s : Settings) (question statusMessage prior : List Char) (st : MainState)
    (lines frags : List (List Char)) (lastLine lastFrag : List Char)
    (chunks : List (List Char))
    (hprov : orDefault s.aiProvider "ollama".toList = "ollama".toList)
    (hlines : List.Forall₂ (fun l f => FragmentLine jsonParse l f false) lines frags)
    (hlast : FragmentLine jsonParse lastLine lastFrag true)
    (hbody : chunks.flatten = ((lines ++ [lastLine]).map (· ++ ['\n'])).flatten) :
    (streamOllama jsonParse (.response 200 statusMessage chunks)).sent
        = ((frags ++ [lastFrag]).filter (fun f => !f.isEmpty)).map JsVal.str
      ∧ (streamOllama jsonParse (.response 200 statusMessage chunks)).late = []
      ∧ (streamOllama jsonParse (.response 200 statusMessage chunks)).promise
        = Settled.resolved (frags ++ [lastFrag]).flatten
      ∧ (askAI jsonParse s (.response 200 statusMessage chunks) question st).events
        = [AiEvent.start]
          ++ ((frags ++ [lastFrag]).filter (fun f => !f.isEmpty)).map
              (fun f => AiEvent.chunk (.str f))
          ++ [AiEvent.done]
      ∧ (askAI jsonParse s (.response 200 statusMessage chunks) question
            st).state.conversationHistory
        = (askBegin s question st).conversationHistory
          ++ [⟨Role.assistant, (frags ++ [lastFrag]).flatten⟩]
      ∧ (askAI jsonParse s (.response 200 statusMessage chunks) question st).events.foldl
          onAiEvent prior
        = (frags ++ [lastFrag]).flatten := by
  have hstate := streamOllama_fragments_state jsonParse statusMessage lines frags lastLine
    lastFrag chunks hlines hlast hbody
  obtain ⟨f1, f2, f3, f4⟩ := feed_fields (frags ++ [lastFrag]) StreamState.init rfl
  obtain ⟨r1, r2, r3, _⟩ := resolve_fields (feed StreamState.init (frags ++ [lastFrag]))
    (feed StreamState.init (frags ++ [lastFrag])).fullResponse f1
  have hsent : (streamOllama jsonParse (.response 200 statusMessage chunks)).sent
      = ((frags ++ [lastFrag]).filter (fun f => !f.isEmpty)).map JsVal.str := by
    rw [hstate, r2, f3]; rfl
  have hlate : (streamOllama jsonParse (.response 200 statusMessage chunks)).late = [] := by
    rw [hstate, r3, f4]; rfl
  have hprom : (streamOllama jsonParse (.response 200 statusMessage chunks)).promise
      = Settled.resolved (frags ++ [lastFrag]).flatten := by
    rw [hstate, r1, f2]; rfl
  have hask : askAI jsonParse s (.response 200 statusMessage chunks) question st
      = askFinish (askBegin s question st)
          (.ollama (orDefault s.ollamaModel "llama3".toList)
            (askBegin s question st).conversationHistory)
          (streamOllama jsonParse (.response 200 statusMessage chunks)) := by
    unfold askAI
    simp only []
    rw [if_pos hprov]
  have hevents : (askAI jsonParse s (.response 200 statusMessage chunks) question st).events
      = [AiEvent.start]
        ++ ((frags ++ [lastFrag]).filter (fun f => !f.isEmpty)).map
            (fun f => AiEvent.chunk (.str f))
        ++ [AiEvent.done] := by
    rw [hask]
    unfold askFinish
    simp only [hprom, hsent, hlate, List.map_map, List.map_nil, List.append_nil]
    rfl
  refine ⟨hsent, hlate, hprom, hevents, ?_, ?_⟩
  · rw [hask]
    unfold askFinish
    simp only [hprom]
  · rw [hevents, List.foldl_append, List.foldl_append, foldl_onAiEvent_chunks,
      flatten_filter_nonempty]
    simp [onAiEvent]

set_option maxRecDepth 8000 in
theorem streamOllama_fragments_in_order_witness :
    (streamOllama exampleParse (.response 200 "OK".toList exampleChunks)).promise
        = Settled.resolved "Hello world".toList
      ∧ (askAI exampleParse ⟨none, none, none, none, none⟩
            (.response 200 "OK".toList exampleChunks) "Who are you?".toList
            ⟨true, []⟩).state.conversationHistory
        = (askBegin ⟨none, none, none, none, none⟩ "Who are you?".toList
            ⟨true, []⟩).conversationHistory
          ++ [⟨Role.assistant, "Hello world".toList⟩] :=
  have h := streamOllama_fragments_in_order exampleParse ⟨none, none, none, none, none⟩
    "Who are you?".toList "OK".toList [] ⟨true, []⟩
    ["\x7b\"message\":\x7b\"role\":\"assistant\",\"content\":\"Hel\"\x7d,\"done\":false\x7d".toList,
     "\x7b\"message\":\x7b\"role\":\"assistant\",\"content\":\"lo\"\x7d,\"done\":false\x7d".toList,
     "\x7b\"message\":\x7b\"role\":\"assistant\",\"content\":\" world\"\x7d,\"done\":false\x7d".toList]
    ["Hel".toList, "lo".toList, " world".toList]
    "\x7b\"message\":\x7b\"role\":\"assistant\",\"content\":\"\"\x7d,\"done\":true\x7d".toList []
    exampleChunks (by decide)
    (List.Forall₂.cons ⟨by decide, by decide, _, rfl, rfl, _, rfl, rfl⟩
      (List.Forall₂.cons ⟨by decide, by decide, _, rfl, rfl, _, rfl, rfl⟩
        (List.Forall₂.cons ⟨by decide, by decide, _, rfl, rfl, _, rfl, rfl⟩ List.Forall₂.nil)))
    ⟨by decide, by decide, _, rfl, rfl, _, rfl, rfl⟩ (by decide)
  ⟨h.2.2.1, h.2.2.2.2.1⟩

theorem deepgramOnData_interim (t : List Char) (st : Renderer) :
    deepgramOnData (TranscriptEvent.interim t).toData st
      = if t.isEmpty then st
        else { st with deepgramInterimText := .str t,
                       inputValue := st.deepgramFinalText ++ (" ".toList ++ t) } := by
  have h1 : firstAlternative (TranscriptEvent.interim t).toData
      = some (.obj [("transcript".toList, .str t)]) := rfl
  have h2 : getProp (.obj [("transcript".toList, .str t)]) "transcript".toList
      = some (.str t) := rfl
  have h3 : getProp (TranscriptEvent.interim t).toData "is_final".toList
      = some (.bool false) := rfl
  have h4 : truthy (.obj [("transcript".toList, .str t)]) = true := rfl
  have h5 : truthy (.str t) = !t.isEmpty := rfl
  have h6 : truthy (.bool false) = false := rfl
  have h7 : toStr (.str t) = t := rfl
  unfold deepgramOnData
  simp only [h1, h2, h3, h4, h5, h6, h7, if_true]
  cases ht : t.isEmpty <;> simp [h5, h7, ht]

theorem deepgramOnData_final (t : List Char) (st : Renderer) :
    deepgramOnData (TranscriptEvent.final t).toData st
      = if t.isEmpty then st
        else { st with
                deepgramFinalText := st.deepgramFinalText
                  ++ ((if st.deepgramFinalText.isEmpty then [] else " ".toList) ++ t),
                deepgramInterimText := .str [],
                inputValue := st.deepgramFinalText
                  ++ ((if st.deepgramFinalText.isEmpty then [] else " ".toList) ++ t) } := by
  have h1 : firstAlternative (TranscriptEvent.final t).toData
      = some (.obj [("transcript".toList, .str t)]) := rfl
  have h2 : getProp (.obj [("transcript".toList, .str t)]) "transcript".toList
      = some (.str t) := rfl
  have h3 : getProp (TranscriptEvent.final t).toData "is_final".toList
      = some (.bool true) := rfl
  have h4 : truthy (.obj [("transcript".toList, .str t)]) = true := rfl
  have h5 : truthy (.str t) = !t.isEmpty := rfl
  have h6 : truthy (.bool true) = true := rfl
  have h7 : toStr (.str t) = t := rfl
  have h8 : truthy (.str []) = false := rfl
  unfold deepgramOnData
  simp only [h1, h2, h3, h4, h5, h6, h7, h8, if_true]
  cases ht : t.isEmpty <;> simp

/-- C6 (what the code does). From an opened session with empty finalized and
interim text, the events interim "hel", interim "hell", final "hello" set the
input field to " hel", then " hell" (each with a leading space), then
"hello". -/
theorem deepgram_first_interims_display :
    (receive [.interim "hel".toList] (deepgramOnOpen Renderer.initial)).inputValue
        = " hel".toList
      ∧ (receive [.interim "hel".toList, .interim "hell".toList]
          (deepgramOnOpen Renderer.initial)).inputValue = " hell".toList
      ∧ (receive [.interim "hel".toList, .interim "hell".toList, .final "hello".toList]
          (deepgramOnOpen Renderer.initial)).inputValue = "hello".toList :=
  ⟨rfl, rfl, rfl⟩

theorem receive_cons (e : TranscriptEvent) (events : List TranscriptEvent) (st : Renderer) :
    receive (e :: events) st = receive events (deepgramOnData e.toData st) := rfl

theorem receive_final_text (events : List TranscriptEvent) :
    ∀ st : Renderer, (receive events st).deepgramFinalText
      = extendFinal st.deepgramFinalText (nonEmptyFinals events) := by
  induction events with
  | nil => intro st; rfl
  | cons e rest ih =>
    intro st
    rw [receive_cons, ih]
    cases e with
    | interim t =>
      rw [deepgramOnData_interim]
      cases ht : t.isEmpty <;> simp [nonEmptyFinals]
    | final t =>
      rw [deepgramOnData_final]
      cases ht : t.isEmpty <;> simp [nonEmptyFinals, ht, extendFinal]

theorem nonEmptyFinals_ne_nil (events : List TranscriptEvent) :
    ∀ t ∈ nonEmptyFinals events, t ≠ [] := by
  induction events with
  | nil => intro t ht; cases ht
  | cons e rest ih =>
    cases e with
    | interim u => simpa [nonEmptyFinals] using ih
    | final u =>
      cases hu : u.isEmpty with
      | true => simpa [nonEmptyFinals, hu] using ih
      | false =>
        intro t ht
        simp only [nonEmptyFinals, hu, Bool.false_eq_true, if_false, List.mem_cons] at ht
        rcases ht with e | e
        · rw [e]; intro h; rw [h] at hu; simp at hu
        · exact ih t e

theorem extendFinal_of_ne_nil (xs : List (List Char)) :
    ∀ acc : List Char, acc ≠ [] →
      extendFinal acc xs = acc ++ (xs.map (fun t => ' ' :: t)).flatten := by
  induction xs with
  | nil => intro acc _; simp [extendFinal]
  | cons t rest ih =>
    intro acc hacc
    have hne : acc.isEmpty = false := by
      cases acc with
      | nil => exact absurd rfl hacc
      | cons a as => rfl
    simp only [extendFinal, hne, Bool.false_eq_true, if_false]
    rw [ih _ (by simp [hacc])]
    simp

theorem joinWithSpaces_cons (t : List Char) (rest : List (List Char)) :
    joinWithSpaces (t :: rest) = t ++ (rest.map (fun u => ' ' :: u)).flatten := by
  induction rest generalizing t with
  | nil => simp [joinWithSpaces]
  | cons u rest ih => simp [joinWithSpaces, ih u]

theorem extendFinal_nil (xs : List (List Char)) (h : ∀ t ∈ xs, t ≠ []) :
    extendFinal [] xs = joinWithSpaces xs := by
  cases xs with
  | nil => rfl
  | cons t rest =>
    have ht : t ≠ [] := h t (List.mem_cons_self _ _)
    simp only [extendFinal, List.isEmpty_nil, if_true, List.nil_append]
    rw [extendFinal_of_ne_nil rest t ht, joinWithSpaces_cons]

theorem receive_prefix (events : List TranscriptEvent) :
    ∀ st : Renderer, st.deepgramFinalText <+: st.inputValue →
      (receive events st).deepgramFinalText <+: (receive events st).inputValue := by
  induction events with
  | nil => intro st h; exact h
  | cons e rest ih =>
    intro st h
    rw [receive_cons]
    apply ih
    cases e with
    | interim t =>
      rw [deepgramOnData_interim]
      cases ht : t.isEmpty
      · simp
      · simpa using h
    | final t =>
      rw [deepgramOnData_final]
      cases ht : t.isEmpty
      · simp
      · simpa using h

/-- C7. For every sequence of live transcription events received by an opened
session, the finalized text is the non-empty final transcripts joined by
single spaces in receipt order; an interim event never changes the finalized
text; the displayed text always begins with the finalized text; and after
final "hello" a later interim "wor" displays "hello wor". -/
theorem deepgram_final_text_accumulates (events : List TranscriptEvent) (st : Renderer) :
    (receive events (deepgramOnOpen st)).deepgramFinalText
        = joinWithSpaces (nonEmptyFinals events)
      ∧ (∀ (t : List Char) (s : Renderer),
          (deepgramOnData (TranscriptEvent.interim t).toData s).deepgramFinalText
            = s.deepgramFinalText)
      ∧ (receive events (deepgramOnOpen st)).deepgramFinalText
          <+: (receive events (deepgramOnOpen st)).inputValue
      ∧ (receive [.final "hello".toList, .interim "wor".toList]
          (deepgramOnOpen st)).inputValue = "hello wor".toList
      ∧ (receive [.final "hello".toList, .interim "wor".toList]
          (deepgramOnOpen st)).deepgramFinalText = "hello".toList := by
  refine ⟨?_, ?_, ?_, rfl, rfl⟩
  · rw [receive_final_text]
    exact extendFinal_nil _ (nonEmptyFinals_ne_nil events)
  · intro t s
    rw [deepgramOnData_interim]
    cases t.isEmpty <;> simp
  · apply receive_prefix
    exact List.nil_prefix

theorem onKeyDown_repeat (st : Renderer) : onKeyDown true true st = st := by
  simp [onKeyDown]

theorem onKeyDown_repeats (n : Nat) (st : Renderer) : (onKeyDown true true)^[n] st = st := by
  induction n with
  | zero => rfl
  | succ k ih => rw [Function.iterate_succ_apply, onKeyDown_repeat, ih]

theorem onKeyDown_idle (st : Renderer) (h1 : st.isRecording = false)
    (h2 : st.pttTimer = false) :
    onKeyDown true false st = { st with pttTimer := true } := by
  simp [onKeyDown, h1, h2]

/-- C8. From Idle with no timer pending, a push-to-talk key-down followed
(after any number of auto-repeat key-downs) by a key-up before the threshold
timer fires never calls `startRecording`: the key-down arms the timer, the
key-up clears it and inserts the space, no recording function has been
called, the controller is not recording, and the cleared timer does nothing. -/
theorem short_tap_never_starts_recording (st : Renderer) (n : Nat)
    (h1 : st.isRecording = false) (h2 : st.pttTimer = false) :
    (onKeyDown true false st).pttTimer = true
      ∧ (onKeyUp true ((onKeyDown true true)^[n] (onKeyDown true false st))).effects
          = st.effects
      ∧ (onKeyUp true ((onKeyDown true true)^[n] (onKeyDown true false st))).pttTimer = false
      ∧ (onKeyUp true ((onKeyDown true true)^[n] (onKeyDown true false st))).isRecording
          = false
      ∧ (onKeyUp true ((onKeyDown true true)^[n] (onKeyDown true false st))).inputValue
          = st.inputValue.take st.selectionStart ++ ' ' :: st.inputValue.drop st.selectionEnd
      ∧ ∀ outcome, onTimer outcome
            (onKeyUp true ((onKeyDown true true)^[n] (onKeyDown true false st)))
          = onKeyUp true ((onKeyDown true true)^[n] (onKeyDown true false st)) := by
  rw [onKeyDown_repeats, onKeyDown_idle st h1 h2]
  refine ⟨rfl, ?_, ?_, ?_, ?_, ?_⟩ <;> simp [onKeyUp, onTimer, h1]

theorem short_tap_never_starts_recording_witness :
    (onKeyUp true ((onKeyDown true true)^[2] (onKeyDown true false Renderer.initial))).effects
        = []
      ∧ (onKeyUp true
          ((onKeyDown true true)^[2] (onKeyDown true false Renderer.initial))).isRecording
        = false :=
  have h := short_tap_never_starts_recording Renderer.initial 2 rfl rfl
  ⟨h.2.1, h.2.2.2.1⟩

theorem startCalls_append (a b : List Effect) :
    startCalls (a ++ b) = startCalls a ++ startCalls b := by
  induction a with
  | nil => rfl
  | cons e rest ih => cases e <;> simp [startCalls, ih]

theorem stopCalls_append (a b : List Effect) :
    stopCalls (a ++ b) = stopCalls a + stopCalls b := by
  induction a with
  | nil => simp [stopCalls]
  | cons e rest ih =>
    cases e <;> simp [stopCalls, ih]
    omega

/-- One call of `stopRecording` logs itself once, calls no `startRecording`
and leaves `isRecording` false. -/
theorem stopRecording_calls (st : Renderer) :
    startCalls (stopRecording st).effects = startCalls st.effects
      ∧ stopCalls (stopRecording st).effects = stopCalls st.effects + 1
      ∧ (stopRecording st).isRecording = false := by
  unfold stopRecording
  simp only [encodeWAV_eq]
  refine ⟨?_, ?_, ?_⟩
  all_goals
    split_ifs <;> (try split) <;> (try split_ifs) <;>
      simp [cleanupRecording, startCalls_append, stopCalls_append, startCalls, stopCalls]

theorem startRecording_calls (outcome : StartOutcome) (source : Source) (st : Renderer)
    (h : st.isRecording = false) :
    (startRecording outcome source st).effects
        = st.effects ++ [Effect.startRecordingCalled source]
      ∧ (startRecording outcome source st).isRecording = true
      ∧ (startRecording outcome source st).recordingSource = some source
      ∧ (startRecording outcome source st).pttTimer = st.pttTimer
      ∧ (startRecording outcome source st).pttActive = st.pttActive := by
  unfold startRecording
  simp only [h]
  cases outcome <;> refine ⟨?_, ?_, ?_, ?_, ?_⟩ <;>
    simp [cleanupRecording] <;> split_ifs <;> simp

/-- C9. From Idle, the trace key-down, threshold timer fires, key-up, with any
number of auto-repeat key-downs in between, calls `startRecording` exactly
once, with source `ptt`, when the timer fires, and `stopRecording` exactly
once, on the key-up, and leaves the controller not recording. -/
theorem hold_starts_once_stops_once (st : Renderer) (outcome : StartOutcome) (m n : Nat)
    (h1 : st.isRecording = false) (h2 : st.pttTimer = false) :
    ((onKeyDown true true)^[m] (onKeyDown true false st)).effects = st.effects
      ∧ (onTimer outcome ((onKeyDown true true)^[m] (onKeyDown true false st))).effects
          = st.effects ++ [Effect.startRecordingCalled Source.ptt]
      ∧ (onTimer outcome ((onKeyDown true true)^[m] (onKeyDown true false st))).isRecording
          = true
      ∧ ((onKeyDown true true)^[n]
          (onTimer outcome ((onKeyDown true true)^[m] (onKeyDown true false st)))).effects
          = st.effects ++ [Effect.startRecordingCalled Source.ptt]
      ∧ startCalls (onKeyUp true ((onKeyDown true true)^[n]
          (onTimer outcome ((onKeyDown true true)^[m] (onKeyDown true false st))))).effects
          = startCalls st.effects ++ [Source.ptt]
      ∧ stopCalls (onKeyUp true ((onKeyDown true true)^[n]
          (onTimer outcome ((onKeyDown true true)^[m] (onKeyDown true false st))))).effects
          = stopCalls st.effects + 1
      ∧ (onKeyUp true ((onKeyDown true true)^[n]
          (onTimer outcome ((onKeyDown true true)^[m] (onKeyDown true false st))))).isRecording
          = false := by
  rw [onKeyDown_repeats, onKeyDown_repeats, onKeyDown_idle st h1 h2]
  have htimer : onTimer outcome { st with pttTimer := true }
      = startRecording outcome Source.ptt { st with pttActive := true, pttTimer := false } := by
    simp [onTimer]
  obtain ⟨e1, e2, e3, e4, e5⟩ := startRecording_calls outcome Source.ptt
    { st with pttActive := true, pttTimer := false } h1
  have hup : onKeyUp true
        (startRecording outcome Source.ptt { st with pttActive := true, pttTimer := false })
      = stopRecording
          { startRecording outcome Source.ptt { st with pttActive := true, pttTimer := false }
            with pttActive := false } := by
    unfold onKeyUp
    simp [e2, e3, e4, e5]
  obtain ⟨s1, s2, s3⟩ := stopRecording_calls
    { startRecording outcome Source.ptt { st with pttActive := true, pttTimer := false }
      with pttActive := false }
  rw [htimer, hup]
  refine ⟨rfl, e1, e2, e1, ?_, ?_, s3⟩
  · rw [s1]
    show startCalls (startRecording outcome Source.ptt _).effects = _
    rw [e1, startCalls_append]
    rfl
  · rw [s2]
    show stopCalls (startRecording outcome Source.ptt _).effects + 1 = _
    rw [e1, stopCalls_append]
    rfl

theorem hold_starts_once_stops_once_witness :
    startCalls (onKeyUp true ((onKeyDown true true)^[3]
        (onTimer StartOutcome.ok
          ((onKeyDown true true)^[1] (onKeyDown true false Renderer.initial))))).effects
        = [Source.ptt]
      ∧ stopCalls (onKeyUp true ((onKeyDown true true)^[3]
        (onTimer StartOutcome.ok
          ((onKeyDown true true)^[1] (onKeyDown true false Renderer.initial))))).effects
        = 1 :=
  have h := hold_starts_once_stops_once Renderer.initial StartOutcome.ok 1 3 rfl rfl
  ⟨h.2.2.2.2.1, h.2.2.2.2.2.1⟩

theorem askAI_call_messages (jsonParse : List Char → Option JsVal) (s : Settings)
    (exchange : HttpExchange) (question : List Char) (st : MainState) (call : BackendCall)
    (h : (askAI jsonParse s exchange question st).call = some call) :
    call.messages = (askBegin s question st).conversationHistory := by
  unfold askAI at h
  simp only [] at h
  split_ifs at h with h1 h2 h3
  · unfold askFinish at h
    split at h <;> simp only [Option.some.injEq] at h <;> rw [← h] <;> rfl
  · unfold askFinish at h
    split at h <;> simp only [Option.some.injEq] at h <;> rw [← h] <;> rfl

/-- When no run of `ask-ai` is suspended at the time of the reset, the next
ask starts from the empty history: it pushes the system entry and the
question, and that list is the `messages` argument of the stream call. -/
theorem askBegin_after_reset (jsonParse : List Char → Option JsVal) (s : Settings)
    (exchange : HttpExchange) (question : List Char) (st : MainState)
    (hwin : st.mainWindow = true) :
    (resetShortcut st).1.conversationHistory = []
      ∧ (askBegin s question (resetShortcut st).1).conversationHistory
          = [⟨Role.system, systemPrompt s⟩, ⟨Role.user, question⟩]
      ∧ ∀ call, (askAI jsonParse s exchange question (resetShortcut st).1).call = some call →
          call.messages = [⟨Role.system, systemPrompt s⟩, ⟨Role.user, question⟩] := by
  have hreset : (resetShortcut st).1.conversationHistory = [] := by
    simp [resetShortcut, hwin]
  have hbegin : (askBegin s question (resetShortcut st).1).conversationHistory
      = [⟨Role.system, systemPrompt s⟩, ⟨Role.user, question⟩] := by
    simp [askBegin, hreset]
  refine ⟨hreset, hbegin, ?_⟩
  intro call hcall
  rw [askAI_call_messages jsonParse s exchange question _ call hcall, hbegin]

/-- A run of `ask-ai` that is not interleaved with another event is its part
up to the `await` followed by its part after it. -/
theorem askAI_state_eq_dispatch (jsonParse : List Char → Option JsVal) (s : Settings)
    (exchange : HttpExchange) (question : List Char) (st : MainState) :
    (askAI jsonParse s exchange question st).state
      = match askDispatch jsonParse s exchange question st with
        | (st1, some run) => (askFinish st1 run.call run.stream).state
        | (st1, none) => st1 := by
  unfold askAI askDispatch
  simp only []
  split_ifs <;> rfl

/-- C10 (what the code does). The reset shortcut pressed while the first
question awaits its answer does empty the history, but the resumed run then
pushes its answer onto the emptied history. The next ask finds the history
non-empty, pushes no system entry, and calls the backend with the old answer
followed by the new question. -/
theorem ask_after_reset_while_awaiting :
    ((resetWhileAwaiting.take 2).foldl (orchestrate exampleParse)
        Orchestrator.initial).main.conversationHistory = []
      ∧ (resetWhileAwaiting.foldl (orchestrate exampleParse)
          Orchestrator.initial).main.conversationHistory
        = [⟨Role.assistant, "Hello world".toList⟩]
      ∧ (askBegin defaultSettings "q2".toList
          (resetWhileAwaiting.foldl (orchestrate exampleParse)
            Orchestrator.initial).main).conversationHistory
        = [⟨Role.assistant, "Hello world".toList⟩, ⟨Role.user, "q2".toList⟩]
      ∧ ((askDispatch exampleParse defaultSettings (.response 200 "OK".toList exampleChunks)
          "q2".toList
          (resetWhileAwaiting.foldl (orchestrate exampleParse)
            Orchestrator.initial).main).2.map (fun run => run.call.messages))
        = some [⟨Role.assistant, "Hello world".toList⟩, ⟨Role.user, "q2".toList⟩]
      ∧ ((askAI exampleParse defaultSettings (.response 200 "OK".toList exampleChunks)
          "q2".toList
          (resetWhileAwaiting.foldl (orchestrate exampleParse)
            Orchestrator.initial).main).call.map BackendCall.messages)
        = some [⟨Role.assistant, "Hello world".toList⟩, ⟨Role.user, "q2".toList⟩] := by
  refine ⟨?_, ?_, ?_, ?_, ?_⟩ <;> rfl

/-- The history after `ask-ai` is the history with the question, followed by
at most one assistant entry. -/
theorem askAI_history (jsonParse : List Char → Option JsVal) (s : Settings)
    (exchange : HttpExchange) (question : List Char) (st : MainState) :
    (askBegin s question st).conversationHistory
        = historyWithQuestion s question st.conversationHistory
      ∧ ((askAI jsonParse s exchange question st).state.conversationHistory
            = historyWithQuestion s question st.conversationHistory
          ∨ ∃ answer, (askAI jsonParse s exchange question st).state.conversationHistory
            = historyWithQuestion s question st.conversationHistory
              ++ [⟨Role.assistant, answer⟩]) := by
  have hbegin : (askBegin s question st).conversationHistory
      = historyWithQuestion s question st.conversationHistory := by
    unfold askBegin historyWithQuestion
    cases h : st.conversationHistory <;> simp
  refine ⟨hbegin, ?_⟩
  rw [← hbegin]
  unfold askAI
  simp only []
  split_ifs
  · unfold askFinish
    split
    · exact Or.inr ⟨_, rfl⟩
    · exact Or.inl rfl
    · exact Or.inl rfl
  · unfold askFinish
    split
    · exact Or.inr ⟨_, rfl⟩
    · exact Or.inl rfl
    · exact Or.inl rfl
  · exact Or.inl rfl
  · exact Or.inr ⟨_, rfl⟩

theorem systemEntryFirst_question (s : Settings) (question : List Char)
    (history : List Message) (h : SystemEntryFirst history) :
    SystemEntryFirst (historyWithQuestion s question history) := by
  unfold historyWithQuestion
  rcases h with h | ⟨content, rest, h, hrest⟩
  · subst h
    right
    refine ⟨systemPrompt s, [⟨Role.user, question⟩], by simp, ?_⟩
    intro m hm
    rw [List.mem_singleton.mp hm]
    simp
  · subst h
    right
    refine ⟨content, rest ++ [⟨Role.user, question⟩], by simp, ?_⟩
    intro m hm
    rcases List.mem_append.mp hm with e | e
    · exact hrest m e
    · rw [List.mem_singleton.mp e]
      simp

theorem systemEntryFirst_answer (history : List Message) (answer : List Char)
    (hne : history ≠ []) (h : SystemEntryFirst history) :
    SystemEntryFirst (history ++ [⟨Role.assistant, answer⟩]) := by
  rcases h with h | ⟨content, rest, h, hrest⟩
  · exact absurd h hne
  · subst h
    right
    refine ⟨content, rest ++ [⟨Role.assistant, answer⟩], by simp, ?_⟩
    intro m hm
    rcases List.mem_append.mp hm with e | e
    · exact hrest m e
    · rw [List.mem_singleton.mp e]
      simp

theorem historyWithQuestion_ne_nil (s : Settings) (question : List Char)
    (history : List Message) : historyWithQuestion s question history ≠ [] := by
  simp [historyWithQuestion]

/-- A run of `ask-ai` that is not interleaved with another event keeps the
system entry first. -/
theorem askAI_systemEntryFirst (jsonParse : List Char → Option JsVal) (s : Settings)
    (exchange : HttpExchange) (question : List Char) (st : MainState)
    (h : SystemEntryFirst st.conversationHistory) :
    SystemEntryFirst (askAI jsonParse s exchange question st).state.conversationHistory := by
  have hq := systemEntryFirst_question s question _ h
  rcases (askAI_history jsonParse s exchange question st).2 with e | ⟨answer, e⟩
  · rw [e]
    exact hq
  · rw [e]
    exact systemEntryFirst_answer _ answer (historyWithQuestion_ne_nil _ _ _) hq

theorem askBegin_history (s : Settings) (question : List Char) (st : MainState) :
    (askBegin s question st).conversationHistory
      = historyWithQuestion s question st.conversationHistory := by
  unfold askBegin historyWithQuestion
  cases h : st.conversationHistory <;> simp

theorem askFinish_systemEntryFirst (st : MainState) (call : BackendCall) (stream : StreamState)
    (hne : st.conversationHistory ≠ []) (h : SystemEntryFirst st.conversationHistory) :
    SystemEntryFirst (askFinish st call stream).state.conversationHistory
      ∧ (askFinish st call stream).state.conversationHistory ≠ [] := by
  unfold askFinish
  split
  · exact ⟨systemEntryFirst_answer _ _ hne h, by simp⟩
  · exact ⟨h, hne⟩
  · exact ⟨h, hne⟩

theorem askDispatch_systemEntryFirst (jsonParse : List Char → Option JsVal) (s : Settings)
    (exchange : HttpExchange) (question : List Char) (st : MainState)
    (h : SystemEntryFirst st.conversationHistory) :
    SystemEntryFirst (askDispatch jsonParse s exchange question st).1.conversationHistory
      ∧ (askDispatch jsonParse s exchange question st).1.conversationHistory ≠ [] := by
  have hq : SystemEntryFirst (askBegin s question st).conversationHistory := by
    rw [askBegin_history]
    exact systemEntryFirst_question s question _ h
  have hne : (askBegin s question st).conversationHistory ≠ [] := by
    rw [askBegin_history]
    exact historyWithQuestion_ne_nil _ _ _
  unfold askDispatch
  simp only []
  split_ifs
  · exact ⟨hq, hne⟩
  · exact ⟨hq, hne⟩
  · exact ⟨hq, hne⟩
  · exact ⟨systemEntryFirst_answer _ _ hne hq, by simp⟩

/-- One event keeps the system entry first, and the history non-empty while
a run is suspended, unless it is a reset that arrives while a run is
suspended. -/
theorem orchestrate_systemEntryFirst (jsonParse : List Char → Option JsVal)
    (o : Orchestrator) (step : OrchestratorStep)
    (hidle : step = OrchestratorStep.reset → o.awaiting = [])
    (h : SystemEntryFirst o.main.conversationHistory
      ∧ (o.awaiting ≠ [] → o.main.conversationHistory ≠ [])) :
    SystemEntryFirst (orchestrate jsonParse o step).main.conversationHistory
      ∧ ((orchestrate jsonParse o step).awaiting ≠ [] →
          (orchestrate jsonParse o step).main.conversationHistory ≠ []) := by
  obtain ⟨h1, h2⟩ := h
  cases step with
  | ask s exchange question =>
    have hd := askDispatch_systemEntryFirst jsonParse s exchange question o.main h1
    simp only [orchestrate]
    rcases hdis : askDispatch jsonParse s exchange question o.main with ⟨st1, run⟩
    rw [hdis] at hd
    cases run with
    | none => exact ⟨hd.1, fun _ => hd.2⟩
    | some r => exact ⟨hd.1, fun _ => hd.2⟩
  | settle index =>
    simp only [orchestrate]
    cases hget : o.awaiting.get? index with
    | none => exact ⟨h1, h2⟩
    | some run =>
      have hne : o.awaiting ≠ [] := by
        intro e
        rw [e] at hget
        cases hget
      have hf := askFinish_systemEntryFirst o.main run.call run.stream (h2 hne) h1
      simp only []
      split
      · exact ⟨h1, h2⟩
      · exact ⟨hf.1, fun _ => hf.2⟩
  | reset =>
    have hnil := hidle rfl
    simp only [orchestrate, resetShortcut]
    split_ifs
    · exact ⟨Or.inl rfl, fun hne => absurd hnil hne⟩
    · exact ⟨h1, h2⟩

/-- When no reset arrives while a run of `ask-ai` is suspended, every state
reached from the empty history has the system entry first, whatever the order
in which questions arrive and answers end. -/
theorem systemEntryFirst_of_resetsWhenIdle (jsonParse : List Char → Option JsVal)
    (steps : List OrchestratorStep) :
    ∀ o : Orchestrator,
      SystemEntryFirst o.main.conversationHistory
        ∧ (o.awaiting ≠ [] → o.main.conversationHistory ≠ []) →
      ResetsWhenIdle jsonParse o steps →
      SystemEntryFirst (steps.foldl (orchestrate jsonParse) o).main.conversationHistory := by
  induction steps with
  | nil => intro o h _; exact h.1
  | cons step rest ih =>
    intro o h hidle
    rw [List.foldl_cons]
    cases step with
    | ask s exchange question =>
      exact ih _ (orchestrate_systemEntryFirst jsonParse o _ (by intro e; cases e) h) hidle
    | settle index =>
      exact ih _ (orchestrate_systemEntryFirst jsonParse o _ (by intro e; cases e) h) hidle
    | reset =>
      exact ih _ (orchestrate_systemEntryFirst jsonParse o _ (fun _ => hidle.1) h) hidle.2

/-- C11 (what the code does). Ask, reset while the ask awaits its stream, then
the stream resolves: no run is suspended any more and the history is the lone
assistant entry, which is neither empty nor headed by a system entry. The same
three events with the reset last leave the history empty, and without the
reset the history is system, user, assistant. -/
theorem reset_while_awaiting_breaks_invariant :
    ¬ SystemEntryFirst (resetWhileAwaiting.foldl (orchestrate exampleParse)
        Orchestrator.initial).main.conversationHistory
      ∧ (resetWhileAwaiting.foldl (orchestrate exampleParse)
          Orchestrator.initial).main.conversationHistory
        = [⟨Role.assistant, "Hello world".toList⟩]
      ∧ (resetWhileAwaiting.foldl (orchestrate exampleParse)
          Orchestrator.initial).awaiting.length = 0
      ∧ ¬ ResetsWhenIdle exampleParse Orchestrator.initial resetWhileAwaiting
      ∧ ([firstQuestion, OrchestratorStep.settle 0].foldl
          (orchestrate exampleParse) Orchestrator.initial).main.conversationHistory
        = [⟨Role.system, systemPrompt defaultSettings⟩, ⟨Role.user, "q1".toList⟩,
            ⟨Role.assistant, "Hello world".toList⟩]
      ∧ ([firstQuestion, OrchestratorStep.settle 0, OrchestratorStep.reset].foldl
          (orchestrate exampleParse) Orchestrator.initial).main.conversationHistory = [] := by
  refine ⟨?_, rfl, rfl, ?_, rfl, rfl⟩
  · have e : (resetWhileAwaiting.foldl (orchestrate exampleParse)
        Orchestrator.initial).main.conversationHistory
        = [⟨Role.assistant, "Hello world".toList⟩] := rfl
    rw [e]
    rintro (h | ⟨content, rest, h, _⟩)
    · cases h
    · cases h
  · intro h
    simp only [resetWhileAwaiting, firstQuestion, ResetsWhenIdle] at h
    have hlen := congrArg List.length h.1
    revert hlen
    decide

/-- A reset that arrives while `ask-ai` awaits its stream replaces the
history, and the resumed handler then pushes the assistant entry onto the new,
empty one: the history is a single assistant entry. -/
theorem reset_during_ask (s : Settings) (question answer : List Char) (call : BackendCall)
    (history : List Message) :
    (askFinish (resetShortcut (askBegin s question ⟨true, history⟩)).1 call
        ⟨answer, Settled.resolved answer, [], []⟩).state.conversationHistory
      = [⟨Role.assistant, answer⟩] := by
  simp [askFinish, resetShortcut, askBegin]

/-- C12. When an ask fails (the stream of the configured backend rejects, or
the remote provider's key is missing) the history afterwards is the history
before, extended by the system entry (only if it was empty) and the question,
with no assistant entry; when the stream resolves, exactly one assistant entry
with the accumulated answer is appended after them. -/
theorem ask_history_on_failure_and_success (jsonParse : List Char → Option JsVal)
    (s : Settings) (exchange : HttpExchange) (question : List Char) (st : MainState) :
    (orDefault s.aiProvider "ollama".toList = "ollama".toList →
        (∀ message, (streamOllama jsonParse exchange).promise = Settled.rejected message →
          (askAI jsonParse s exchange question st).state.conversationHistory
            = historyWithQuestion s question st.conversationHistory)
        ∧ (∀ answer, (streamOllama jsonParse exchange).promise = Settled.resolved answer →
          (askAI jsonParse s exchange question st).state.conversationHistory
            = historyWithQuestion s question st.conversationHistory
              ++ [⟨Role.assistant, answer⟩]))
      ∧ (orDefault s.aiProvider "ollama".toList = "deepseek".toList →
        (isSet s.deepseekKey = false →
          (askAI jsonParse s exchange question st).state.conversationHistory
            = historyWithQuestion s question st.conversationHistory)
        ∧ (isSet s.deepseekKey = true →
          (∀ message, (streamDeepSeek jsonParse exchange).promise = Settled.rejected message →
            (askAI jsonParse s exchange question st).state.conversationHistory
              = historyWithQuestion s question st.conversationHistory)
          ∧ (∀ answer, (streamDeepSeek jsonParse exchange).promise = Settled.resolved answer →
            (askAI jsonParse s exchange question st).state.conversationHistory
              = historyWithQuestion s question st.conversationHistory
                ++ [⟨Role.assistant, answer⟩]))) := by
  have hbegin := (askAI_history jsonParse s exchange question st).1
  have hne : ¬ ("deepseek".toList = "ollama".toList) := by decide
  constructor
  · intro hprov
    have hask : askAI jsonParse s exchange question st
        = askFinish (askBegin s question st)
            (.ollama (orDefault s.ollamaModel "llama3".toList)
              (askBegin s question st).conversationHistory)
            (streamOllama jsonParse exchange) := by
      unfold askAI
      simp only []
      rw [if_pos hprov]
    constructor
    · intro message hrej
      rw [hask, ← hbegin]
      unfold askFinish
      simp only [hrej]
    · intro answer hres
      rw [hask, ← hbegin]
      unfold askFinish
      simp only [hres]
  · intro hprov
    have hno : ¬ (orDefault s.aiProvider "ollama".toList = "ollama".toList) := by
      rw [hprov]; exact hne
    constructor
    · intro hkey
      rw [← hbegin]
      unfold askAI
      simp only []
      rw [if_neg hno, if_pos hprov, hkey]
      rfl
    · intro hkey
      have hask : askAI jsonParse s exchange question st
          = askFinish (askBegin s question st)
              (.deepSeek (orDefault s.deepseekKey [])
                (askBegin s question st).conversationHistory)
              (streamDeepSeek jsonParse exchange) := by
        unfold askAI
        simp only []
        rw [if_neg hno, if_pos hprov, hkey]
        rfl
      constructor
      · intro message hrej
        rw [hask, ← hbegin]
        unfold askFinish
        simp only [hrej]
      · intro answer hres
        rw [hask, ← hbegin]
        unfold askFinish
        simp only [hres]

theorem ask_history_on_failure_and_success_witness :
    (askAI exampleParse ⟨none, none, none, none, none⟩
        (.response 500 "Internal Server Error".toList []) "q2".toList
        ⟨true, [⟨Role.system, "p".toList⟩, ⟨Role.user, "q1".toList⟩]⟩).state.conversationHistory
        = [⟨Role.system, "p".toList⟩, ⟨Role.user, "q1".toList⟩, ⟨Role.user, "q2".toList⟩]
      ∧ (askAI exampleParse ⟨none, none, none, none, none⟩
        (.response 200 "OK".toList exampleChunks) "q2".toList
        ⟨true, [⟨Role.system, "p".toList⟩, ⟨Role.user, "q1".toList⟩]⟩).state.conversationHistory
        = [⟨Role.system, "p".toList⟩, ⟨Role.user, "q1".toList⟩, ⟨Role.user, "q2".toList⟩,
            ⟨Role.assistant, "Hello world".toList⟩] :=
  ⟨((ask_history_on_failure_and_success exampleParse ⟨none, none, none, none, none⟩
      (.response 500 "Internal Server Error".toList []) "q2".toList
      ⟨true, [⟨Role.system, "p".toList⟩, ⟨Role.user, "q1".toList⟩]⟩).1 rfl).1 _ rfl,
   ((ask_history_on_failure_and_success exampleParse ⟨none, none, none, none, none⟩
      (.response 200 "OK".toList exampleChunks) "q2".toList
      ⟨true, [⟨Role.system, "p".toList⟩, ⟨Role.user, "q1".toList⟩]⟩).1 rfl).2 _ rfl⟩

/-- C13 (what the code does). When a content line reaches `streamOllama` in a
later network chunk than the line flagged done, `ask-ai` sends `ai-start`,
`ai-done` and then an `ai-chunk`: the `return` after `resolve` leaves only the
current `data` handler. When both lines come in one chunk the content line is
not forwarded. -/
theorem chunk_sent_after_done :
    (askAI exampleParse ⟨none, none, none, none, none⟩
        (.response 200 "OK".toList lateChunks) "q".toList ⟨true, []⟩).events
        = [AiEvent.start, AiEvent.done, AiEvent.chunk (.str "Hel".toList)]
      ∧ (askAI exampleParse ⟨none, none, none, none, none⟩
        (.response 200 "OK".toList [lateChunks.flatten]) "q".toList ⟨true, []⟩).events
        = [AiEvent.start, AiEvent.done] :=
  ⟨rfl, rfl⟩

/-- C14 (what the code does). On a response with status 401, `streamOllama`
rejects, while `streamDeepSeek`, which does not look at the status, resolves
with the empty text; `ask-ai` then sends no error message and appends an empty
assistant entry. -/
theorem deepSeek_ignores_status (jsonParse : List Char → Option JsVal) :
    (streamOllama jsonParse
        (.response 401 "Unauthorized".toList [unauthorizedBody])).promise
        = Settled.rejected "Ollama API Error: 401 Unauthorized".toList
      ∧ (streamDeepSeek jsonParse
        (.response 401 "Unauthorized".toList [unauthorizedBody])).promise
        = Settled.resolved []
      ∧ (askAI jsonParse deepSeekSettings
        (.response 401 "Unauthorized".toList [unauthorizedBody]) "q".toList ⟨true, []⟩).events
        = [AiEvent.start, AiEvent.done]
      ∧ (askAI jsonParse deepSeekSettings
        (.response 401 "Unauthorized".toList [unauthorizedBody]) "q".toList
        ⟨true, []⟩).state.conversationHistory
        = [⟨Role.system, systemPrompt deepSeekSettings⟩, ⟨Role.user, "q".toList⟩,
            ⟨Role.assistant, []⟩] :=
  ⟨rfl, rfl, rfl, rfl⟩

/-- C15. With the remote provider configured and its key missing or empty,
`ask-ai` sends the error "DeepSeek API Key is missing." and calls no stream
function; `captureAndSolve` calls no stream function whatever the capture
gives, and once the screen text has been recognised it ends with the same
error. -/
theorem missing_key_fails_before_request (jsonParse : List Char → Option JsVal)
    (s : Settings) (exchange : HttpExchange) (question : List Char) (st : MainState)
    (hprov : orDefault s.aiProvider "ollama".toList = "deepseek".toList)
    (hkey : isSet s.deepseekKey = false) :
    (askAI jsonParse s exchange question st).events
        = [AiEvent.start,
            AiEvent.chunk (.str "**Error:** DeepSeek API Key is missing.".toList),
            AiEvent.done]
      ∧ (askAI jsonParse s exchange question st).call = none
      ∧ (∀ capture, (captureAndSolve jsonParse s capture exchange st).call = none)
      ∧ (∀ text, trim text ≠ [] →
          (captureAndSolve jsonParse s (.ocr text) exchange st).events
            = [AiEvent.start, AiEvent.chunk (.str "**Analyzing screen...**\n".toList),
                AiEvent.chunk (.str "**Extracting text...**\n".toList),
                foundText (trim text),
                AiEvent.chunk (.str "\n**Error:** DeepSeek API Key is missing.".toList),
                AiEvent.done]) := by
  have hne : ¬ ("deepseek".toList = "ollama".toList) := by decide
  have hno : ¬ (orDefault s.aiProvider "ollama".toList = "ollama".toList) := by
    rw [hprov]; exact hne
  have hask : askAI jsonParse s exchange question st
      = { state := askBegin s question st,
          events := [AiEvent.start,
            AiEvent.chunk (.str ("**Error:** ".toList ++ "DeepSeek API Key is missing.".toList)),
            AiEvent.done],
          call := none } := by
    unfold askAI
    simp only []
    rw [if_neg hno, if_pos hprov, hkey]
    rfl
  refine ⟨?_, ?_, ?_, ?_⟩
  · rw [hask]; rfl
  · rw [hask]
  · intro capture
    cases capture with
    | captureFailed message => rfl
    | noSource => rfl
    | ocrFailed message => rfl
    | ocr text =>
      unfold captureAndSolve
      simp only []
      by_cases ht : trim text = []
      · rw [if_pos ht]
      · rw [if_neg ht, if_neg hno, if_pos hprov, hkey]
        rfl
  · intro text ht
    unfold captureAndSolve
    simp only []
    rw [if_neg ht, if_neg hno, if_pos hprov, hkey]
    rfl

theorem missing_key_fails_before_request_witness :
    (askAI exampleParse ⟨some "deepseek".toList, none, some [], none, none⟩
        (.response 200 "OK".toList []) "q".toList ⟨true, []⟩).call = none
      ∧ (captureAndSolve exampleParse ⟨some "deepseek".toList, none, some [], none, none⟩
        (.ocr " 2 + 2 = ? ".toList) (.response 200 "OK".toList []) ⟨true, []⟩).call = none :=
  have h := missing_key_fails_before_request exampleParse
    ⟨some "deepseek".toList, none, some [], none, none⟩ (.response 200 "OK".toList [])
    "q".toList ⟨true, []⟩ rfl rfl
  ⟨h.2.1, h.2.2.1 _⟩

theorem forOf_skip {σ : Type} (body : List Char → σ → σ × Bool) (bad : List Char)
    (hbad : ∀ st, body bad st = (st, false)) (pre post : List (List Char)) (st : σ) :
    forOf body (pre ++ bad :: post) st = forOf body (pre ++ post) st := by
  rw [forOf_append, forOf_append body pre post]
  have h : ∀ s, forOf body (bad :: post) s = forOf body post s := by
    intro s
    simp only [forOf, hbad]
  rw [h]

theorem deepSeekLine_malformed (jsonParse : List Char → Option JsVal) (bad : List Char)
    (h : MalformedDataLine jsonParse bad) (st : StreamState) :
    deepSeekLine jsonParse bad st = (st, false) := by
  obtain ⟨_, h1, h2, h3⟩ := h
  unfold deepSeekLine
  simp only []
  rw [if_pos h1, if_neg h2, h3]

theorem ollamaLine_malformed (jsonParse : List Char → Option JsVal) (bad : List Char)
    (h : MalformedJsonLine jsonParse bad) (st : StreamState) :
    ollamaLine jsonParse bad st = (st, false) := by
  unfold ollamaLine
  split_ifs
  · rfl
  · rw [h.2]

theorem split_unlines (lines : List (List Char)) (h : ∀ l ∈ lines, '\n' ∉ l) :
    split '\n' (unlines lines) = lines ++ [[]] :=
  split_lines '\n' lines h

/-- When every network chunk is a whole number of lines, each `data` handler
runs the line loop on exactly the lines of its chunk. -/
theorem onData_whole_lines (body : List Char → StreamState → StreamState × Bool)
    (groups : List (List (List Char))) :
    (∀ g ∈ groups, ∀ l ∈ g, '\n' ∉ l) →
    ∀ st : StreamState, (groups.map unlines).foldl (onData body) ([], st)
      = ([], groups.foldl (fun s g => (forOf body g s).1) st) := by
  induction groups with
  | nil => intro _ st; rfl
  | cons g rest ih =>
    intro h st
    have hg : ∀ l ∈ g, '\n' ∉ l := h g (List.mem_cons_self _ _)
    have hrest : ∀ g1 ∈ rest, ∀ l ∈ g1, '\n' ∉ l :=
      fun g1 hg1 => h g1 (List.mem_cons_of_mem _ hg1)
    have hstep : onData body ([], st) (unlines g) = ([], (forOf body g st).1) := by
      unfold onData
      simp only [List.nil_append]
      rw [split_unlines g hg, List.dropLast_concat, List.getLastD_concat]
    rw [List.map_cons, List.foldl_cons, hstep, ih hrest, List.foldl_cons]

theorem groups_skip {σ : Type} (body : List Char → σ → σ × Bool) (bad : List Char)
    (hbad : ∀ st, body bad st = (st, false)) (before after : List (List (List Char)))
    (pre post : List (List Char)) (st : σ) :
    (before ++ (pre ++ bad :: post) :: after).foldl (fun s g => (forOf body g s).1) st
      = (before ++ (pre ++ post) :: after).foldl (fun s g => (forOf body g s).1) st := by
  rw [List.foldl_append, List.foldl_append, List.foldl_cons, List.foldl_cons,
    forOf_skip body bad hbad]

theorem deepSeekLine_delta (jsonParse : List Char → Option JsVal) (l f : List Char)
    (st : StreamState) (h : DeltaLine jsonParse l f) :
    deepSeekLine jsonParse l st = (feed st [f], false) := by
  obtain ⟨_, h1, h2, json, hparse, hcontent⟩ := h
  have htr : truthy (.str f) = !f.isEmpty := rfl
  have hfeed : feed st [f] = if f.isEmpty then st else emit st (.str f) := rfl
  unfold deepSeekLine
  simp only []
  rw [if_pos h1, if_neg h2, hparse]
  simp only [hcontent, htr, hfeed]
  cases hf : f.isEmpty <;> simp

theorem deepSeekLine_done (jsonParse : List Char → Option JsVal) (l : List Char)
    (st : StreamState) (h : DoneLine l) :
    deepSeekLine jsonParse l st = (resolve st st.fullResponse, true) := by
  unfold deepSeekLine
  simp only []
  rw [h.2]
  rfl

theorem forOf_deltas (jsonParse : List Char → Option JsVal) (lines frags : List (List Char))
    (h : List.Forall₂ (DeltaLine jsonParse) lines frags) :
    ∀ st, forOf (deepSeekLine jsonParse) lines st = (feed st frags, false) := by
  induction h with
  | nil => intro st; rfl
  | cons hl _ ih =>
    intro st
    simp only [forOf]
    rw [deepSeekLine_delta _ _ _ _ hl]
    simp only []
    rw [ih]
    rfl

theorem deltaLines_no_newline (jsonParse : List Char → Option JsVal)
    (lines frags : List (List Char))
    (h : List.Forall₂ (DeltaLine jsonParse) lines frags) :
    ∀ l ∈ lines, '\n' ∉ l := by
  induction h with
  | nil => intro l hl; cases hl
  | cons hl _ ih =>
    intro l hmem
    rcases List.mem_cons.mp hmem with e | e
    · rw [e]; exact hl.1
    · exact ih l e

theorem no_newline_around {pre post : List (List Char)} {bad last : List Char}
    (hpre : ∀ l ∈ pre, '\n' ∉ l) (hpost : ∀ l ∈ post, '\n' ∉ l)
    (hbad : '\n' ∉ bad) (hlast : '\n' ∉ last) :
    ∀ l ∈ pre ++ bad :: post ++ [last], '\n' ∉ l := by
  intro l hl
  rcases List.mem_append.mp hl with e | e
  · rcases List.mem_append.mp e with e1 | e1
    · exact hpre l e1
    · rcases List.mem_cons.mp e1 with e2 | e2
      · rw [e2]; exact hbad
      · exact hpost l e2
  · rw [List.mem_singleton.mp e]; exact hlast

/-- The line loop over fragment lines with one skipped line among them. -/
theorem forOf_around_skipped (body : List Char → StreamState → StreamState × Bool)
    (pre post preFrags postFrags : List (List Char)) (bad : List Char)
    (hbad : ∀ st, body bad st = (st, false))
    (hpre : ∀ st, forOf body pre st = (feed st preFrags, false))
    (hpost : ∀ st, forOf body post st = (feed st postFrags, false)) (st : StreamState) :
    forOf body (pre ++ bad :: post) st = (feed st (preFrags ++ postFrags), false) := by
  rw [forOf_skip body bad hbad, forOf_append, hpre, if_neg (by simp), hpost, feed_append]

/-- Final stream state of either backend on a body whose lines are fragment
lines with one skipped line among them, closed by a terminating line, however
the body is cut into chunks. -/
theorem stream_around_skipped (body : List Char → StreamState → StreamState × Bool)
    (pre post preFrags postFrags : List (List Char)) (bad last : List Char)
    (lastFrags : List (List Char)) (chunks : List (List Char))
    (hnl : ∀ l ∈ pre ++ bad :: post ++ [last], '\n' ∉ l)
    (hbad : ∀ st, body bad st = (st, false))
    (hpre : ∀ st, forOf body pre st = (feed st preFrags, false))
    (hpost : ∀ st, forOf body post st = (feed st postFrags, false))
    (hlast : ∀ st, body last st
      = (resolve (feed st lastFrags) (feed st lastFrags).fullResponse, true))
    (hbody : chunks.flatten = unlines (pre ++ bad :: post ++ [last])) :
    onEnd (chunks.foldl (onData body) ([], StreamState.init))
      = resolve (feed StreamState.init (preFrags ++ postFrags ++ lastFrags))
          (feed StreamState.init (preFrags ++ postFrags ++ lastFrags)).fullResponse := by
  obtain ⟨groups, hg, hf⟩ := onData_foldl body chunks [] StreamState.init (by simp)
  rw [List.nil_append, hbody, split_unlines _ hnl, List.dropLast_concat] at hg
  have hpass := forOf_around_skipped body pre post preFrags postFrags bad hbad hpre hpost
    StreamState.init
  have hrun := groups_last body groups StreamState.init (pre ++ bad :: post) last hg
    (by rw [hpass])
  have hfinal : (forOf body (pre ++ bad :: post ++ [last]) StreamState.init).1
      = resolve (feed StreamState.init (preFrags ++ postFrags ++ lastFrags))
          (feed StreamState.init (preFrags ++ postFrags ++ lastFrags)).fullResponse := by
    rw [forOf_append, hpass, if_neg (by simp)]
    simp only [forOf]
    rw [hlast]
    simp only [feed_append]
  rw [hf, hrun, hfinal]
  unfold onEnd
  simp only []
  exact resolve_of_settled _ _ (resolve_promise_ne _ _)

/-- What was sent and how the promise is settled in the state `resolve (feed
init frags)`. -/
theorem resolved_feed_fields (frags : List (List Char)) :
    (resolve (feed StreamState.init frags) (feed StreamState.init frags).fullResponse).sent
        = (frags.filter (fun f => !f.isEmpty)).map JsVal.str
      ∧ (resolve (feed StreamState.init frags)
          (feed StreamState.init frags).fullResponse).late = []
      ∧ (resolve (feed StreamState.init frags)
          (feed StreamState.init frags).fullResponse).promise
        = Settled.resolved frags.flatten := by
  obtain ⟨f1, f2, f3, f4⟩ := feed_fields frags StreamState.init rfl
  obtain ⟨r1, r2, r3, _⟩ := resolve_fields (feed StreamState.init frags)
    (feed StreamState.init frags).fullResponse f1
  refine ⟨?_, ?_, ?_⟩
  · rw [r2, f3]; rfl
  · rw [r3, f4]; rfl
  · rw [r1, f2]; rfl

theorem no_newline_with (before after : List (List (List Char))) (pre post : List (List Char))
    (bad : List Char) (hbad : '\n' ∉ bad)
    (hlines : ∀ g ∈ before ++ (pre ++ post) :: after, ∀ l ∈ g, '\n' ∉ l) :
    ∀ g ∈ before ++ (pre ++ bad :: post) :: after, ∀ l ∈ g, '\n' ∉ l := by
  intro g hg l hl
  rcases List.mem_append.mp hg with e | e
  · exact hlines g (List.mem_append_left _ e) l hl
  · rcases List.mem_cons.mp e with e1 | e1
    · subst e1
      rcases List.mem_append.mp hl with e2 | e2
      · exact hlines (pre ++ post)
          (List.mem_append_right _ (List.mem_cons_self _ _)) l (List.mem_append_left _ e2)
      · rcases List.mem_cons.mp e2 with e3 | e3
        · rw [e3]; exact hbad
        · exact hlines (pre ++ post)
            (List.mem_append_right _ (List.mem_cons_self _ _)) l
            (List.mem_append_right _ e3)
    · exact hlines g (List.mem_append_right _ (List.mem_cons_of_mem _ e1)) l hl

/-- C16. For every sequence of complete lines received by `streamDeepSeek`,
and likewise by `streamOllama`, in chunks of whole lines, inserting anywhere a
line whose payload is not valid JSON changes nothing: the `ai-chunk` contents
sent, the accumulated text and the settled promise are the same. The lines
after the malformed one are still processed: when the lines before and after
it carry fragments and a terminating line follows, then, however the body is
cut into chunks, the `ai-chunk` contents are the non-empty fragments of the
lines before and after it, in order, and the promise resolves with the
concatenation of all of them. -/
theorem malformed_line_is_skipped (jsonParse : List Char → Option JsVal)
    (statusCode : Nat) (statusMessage : List Char)
    (before after : List (List (List Char))) (pre post : List (List Char))
    (beforeJson afterJson : List (List (List Char))) (preJson postJson : List (List Char))
    (badData badJson : List Char)
    (hlines : ∀ g ∈ before ++ (pre ++ post) :: after, ∀ l ∈ g, '\n' ∉ l)
    (hlinesJson : ∀ g ∈ beforeJson ++ (preJson ++ postJson) :: afterJson, ∀ l ∈ g, '\n' ∉ l)
    (hdata : MalformedDataLine jsonParse badData)
    (hjson : MalformedJsonLine jsonParse badJson) :
    streamDeepSeek jsonParse (.response statusCode statusMessage
          ((before ++ (pre ++ badData :: post) :: after).map unlines))
        = streamDeepSeek jsonParse (.response statusCode statusMessage
          ((before ++ (pre ++ post) :: after).map unlines))
      ∧ streamOllama jsonParse (.response statusCode statusMessage
          ((beforeJson ++ (preJson ++ badJson :: postJson) :: afterJson).map unlines))
        = streamOllama jsonParse (.response statusCode statusMessage
          ((beforeJson ++ (preJson ++ postJson) :: afterJson).map unlines))
      ∧ (∀ st, forOf (deepSeekLine jsonParse) (pre ++ badData :: post) st
          = forOf (deepSeekLine jsonParse) (pre ++ post) st)
      ∧ (∀ st, forOf (ollamaLine jsonParse) (preJson ++ badJson :: postJson) st
          = forOf (ollamaLine jsonParse) (preJson ++ postJson) st)
      ∧ (∀ (preFrags postFrags : List (List Char)) (lastLine : List Char)
          (chunks : List (List Char)),
          List.Forall₂ (DeltaLine jsonParse) pre preFrags →
          List.Forall₂ (DeltaLine jsonParse) post postFrags →
          DoneLine lastLine →
          chunks.flatten = unlines (pre ++ badData :: post ++ [lastLine]) →
          (streamDeepSeek jsonParse (.response statusCode statusMessage chunks)).sent
              = ((preFrags ++ postFrags).filter (fun f => !f.isEmpty)).map JsVal.str
            ∧ (streamDeepSeek jsonParse (.response statusCode statusMessage chunks)).late = []
            ∧ (streamDeepSeek jsonParse (.response statusCode statusMessage chunks)).promise
              = Settled.resolved (preFrags ++ postFrags).flatten)
      ∧ (∀ (preFrags postFrags : List (List Char)) (lastLine lastFrag : List Char)
          (chunks : List (List Char)),
          List.Forall₂ (fun l f => FragmentLine jsonParse l f false) preJson preFrags →
          List.Forall₂ (fun l f => FragmentLine jsonParse l f false) postJson postFrags →
          FragmentLine jsonParse lastLine lastFrag true →
          chunks.flatten = unlines (preJson ++ badJson :: postJson ++ [lastLine]) →
          (streamOllama jsonParse (.response 200 statusMessage chunks)).sent
              = ((preFrags ++ postFrags ++ [lastFrag]).filter (fun f => !f.isEmpty)).map
                  JsVal.str
            ∧ (streamOllama jsonParse (.response 200 statusMessage chunks)).late = []
            ∧ (streamOllama jsonParse (.response 200 statusMessage chunks)).promise
              = Settled.resolved (preFrags ++ postFrags ++ [lastFrag]).flatten) := by
  have hskipData := deepSeekLine_malformed jsonParse badData hdata
  have hskipJson := ollamaLine_malformed jsonParse badJson hjson
  refine ⟨?_, ?_, ?_, ?_, ?_, ?_⟩
  · simp only [streamDeepSeek]
    rw [onData_whole_lines _ _ (no_newline_with before after pre post badData hdata.1 hlines),
      onData_whole_lines _ _ hlines, groups_skip _ badData hskipData]
  · simp only [streamOllama]
    rw [onData_whole_lines _ _
        (no_newline_with beforeJson afterJson preJson postJson badJson hjson.1 hlinesJson),
      onData_whole_lines _ _ hlinesJson, groups_skip _ badJson hskipJson]
  · intro st
    exact forOf_skip _ badData hskipData pre post st
  · intro st
    exact forOf_skip _ badJson hskipJson preJson postJson st
  · intro preFrags postFrags lastLine chunks hpre hpost hlast hbody
    have hstate : streamDeepSeek jsonParse (.response statusCode statusMessage chunks)
        = resolve (feed StreamState.init (preFrags ++ postFrags ++ []))
            (feed StreamState.init (preFrags ++ postFrags ++ [])).fullResponse := by
      simp only [streamDeepSeek]
      exact stream_around_skipped (deepSeekLine jsonParse) pre post preFrags postFrags badData
        lastLine [] chunks
        (no_newline_around (deltaLines_no_newline jsonParse pre preFrags hpre)
          (deltaLines_no_newline jsonParse post postFrags hpost) hdata.1 hlast.1)
        hskipData (forOf_deltas jsonParse pre preFrags hpre)
        (forOf_deltas jsonParse post postFrags hpost)
        (fun st => deepSeekLine_done jsonParse lastLine st hlast) hbody
    rw [List.append_nil] at hstate
    rw [hstate]
    exact resolved_feed_fields (preFrags ++ postFrags)
  · intro preFrags postFrags lastLine lastFrag chunks hpre hpost hlast hbody
    have hstate : streamOllama jsonParse (.response 200 statusMessage chunks)
        = resolve (feed StreamState.init (preFrags ++ postFrags ++ [lastFrag]))
            (feed StreamState.init (preFrags ++ postFrags ++ [lastFrag])).fullResponse := by
      simp only [streamOllama]
      rw [if_neg (by simp)]
      exact stream_around_skipped (ollamaLine jsonParse) preJson postJson preFrags postFrags
        badJson lastLine [lastFrag] chunks
        (no_newline_around (fragmentLines_no_newline jsonParse preJson preFrags hpre)
          (fragmentLines_no_newline jsonParse postJson postFrags hpost) hjson.1 hlast.1)
        hskipJson (forOf_fragments jsonParse preJson preFrags hpre)
        (forOf_fragments jsonParse postJson postFrags hpost)
        (fun st => by rw [ollamaLine_fragment jsonParse lastLine lastFrag true st hlast]; rfl)
        hbody
    rw [hstate]
    exact resolved_feed_fields (preFrags ++ postFrags ++ [lastFrag])

set_option maxRecDepth 8000 in
theorem malformed_line_is_skipped_witness :
    (streamDeepSeek exampleParseBoth (.response 200 "OK".toList
        ([["data: \x7b\"choices\":[\x7b\"delta\":\x7b\"content\":\"Hel\"\x7d\x7d]\x7d".toList,
           "data: \x7boops".toList,
           "data: \x7b\"choices\":[\x7b\"delta\":\x7b\"content\":\"lo\"\x7d\x7d]\x7d".toList],
          ["data: [DONE]".toList]].map unlines))).sent
        = [.str "Hel".toList, .str "lo".toList]
      ∧ (streamDeepSeek exampleParseBoth (.response 200 "OK".toList
        ([["data: \x7b\"choices\":[\x7b\"delta\":\x7b\"content\":\"Hel\"\x7d\x7d]\x7d".toList,
           "data: \x7boops".toList,
           "data: \x7b\"choices\":[\x7b\"delta\":\x7b\"content\":\"lo\"\x7d\x7d]\x7d".toList],
          ["data: [DONE]".toList]].map unlines))).promise
        = Settled.resolved "Hello".toList
      ∧ streamDeepSeek exampleParseBoth (.response 200 "OK".toList
        ([["data: \x7b\"choices\":[\x7b\"delta\":\x7b\"content\":\"Hel\"\x7d\x7d]\x7d".toList,
           "data: \x7boops".toList,
           "data: \x7b\"choices\":[\x7b\"delta\":\x7b\"content\":\"lo\"\x7d\x7d]\x7d".toList],
          ["data: [DONE]".toList]].map unlines))
        = streamDeepSeek exampleParseBoth (.response 200 "OK".toList
        ([["data: \x7b\"choices\":[\x7b\"delta\":\x7b\"content\":\"Hel\"\x7d\x7d]\x7d".toList,
           "data: \x7b\"choices\":[\x7b\"delta\":\x7b\"content\":\"lo\"\x7d\x7d]\x7d".toList],
          ["data: [DONE]".toList]].map unlines))
      ∧ (streamOllama exampleParseBoth (.response 200 "OK".toList
        ([["\x7b\"message\":\x7b\"role\":\"assistant\",\"content\":\"Hel\"\x7d,\"done\":false\x7d".toList,
           "\x7boops".toList,
           "\x7b\"message\":\x7b\"role\":\"assistant\",\"content\":\"lo\"\x7d,\"done\":false\x7d".toList],
          ["\x7b\"message\":\x7b\"role\":\"assistant\",\"content\":\"\"\x7d,\"done\":true\x7d".toList]].map
            unlines))).sent
        = [.str "Hel".toList, .str "lo".toList]
      ∧ (streamOllama exampleParseBoth (.response 200 "OK".toList
        ([["\x7b\"message\":\x7b\"role\":\"assistant\",\"content\":\"Hel\"\x7d,\"done\":false\x7d".toList,
           "\x7boops".toList,
           "\x7b\"message\":\x7b\"role\":\"assistant\",\"content\":\"lo\"\x7d,\"done\":false\x7d".toList],
          ["\x7b\"message\":\x7b\"role\":\"assistant\",\"content\":\"\"\x7d,\"done\":true\x7d".toList]].map
            unlines))).promise
        = Settled.resolved "Hello".toList
      ∧ streamOllama exampleParseBoth (.response 200 "OK".toList
        ([["\x7b\"message\":\x7b\"role\":\"assistant\",\"content\":\"Hel\"\x7d,\"done\":false\x7d".toList,
           "\x7boops".toList,
           "\x7b\"message\":\x7b\"role\":\"assistant\",\"content\":\"lo\"\x7d,\"done\":false\x7d".toList],
          ["\x7b\"message\":\x7b\"role\":\"assistant\",\"content\":\"\"\x7d,\"done\":true\x7d".toList]].map
            unlines))
        = streamOllama exampleParseBoth (.response 200 "OK".toList
        ([["\x7b\"message\":\x7b\"role\":\"assistant\",\"content\":\"Hel\"\x7d,\"done\":false\x7d".toList,
           "\x7b\"message\":\x7b\"role\":\"assistant\",\"content\":\"lo\"\x7d,\"done\":false\x7d".toList],
          ["\x7b\"message\":\x7b\"role\":\"assistant\",\"content\":\"\"\x7d,\"done\":true\x7d".toList]].map
            unlines)) :=
  have h := malformed_line_is_skipped exampleParseBoth 200 "OK".toList
    [] [["data: [DONE]".toList]]
    ["data: \x7b\"choices\":[\x7b\"delta\":\x7b\"content\":\"Hel\"\x7d\x7d]\x7d".toList]
    ["data: \x7b\"choices\":[\x7b\"delta\":\x7b\"content\":\"lo\"\x7d\x7d]\x7d".toList]
    [] [["\x7b\"message\":\x7b\"role\":\"assistant\",\"content\":\"\"\x7d,\"done\":true\x7d".toList]]
    ["\x7b\"message\":\x7b\"role\":\"assistant\",\"content\":\"Hel\"\x7d,\"done\":false\x7d".toList]
    ["\x7b\"message\":\x7b\"role\":\"assistant\",\"content\":\"lo\"\x7d,\"done\":false\x7d".toList]
    "data: \x7boops".toList "\x7boops".toList
    (by decide) (by decide) ⟨by decide, by decide, by decide, rfl⟩ ⟨by decide, rfl⟩
  have hd := h.2.2.2.2.1 ["Hel".toList] ["lo".toList] "data: [DONE]".toList
    ([["data: \x7b\"choices\":[\x7b\"delta\":\x7b\"content\":\"Hel\"\x7d\x7d]\x7d".toList,
       "data: \x7boops".toList,
       "data: \x7b\"choices\":[\x7b\"delta\":\x7b\"content\":\"lo\"\x7d\x7d]\x7d".toList],
      ["data: [DONE]".toList]].map unlines)
    (List.Forall₂.cons ⟨by decide, by decide, by decide, _, rfl, rfl⟩ List.Forall₂.nil)
    (List.Forall₂.cons ⟨by decide, by decide, by decide, _, rfl, rfl⟩ List.Forall₂.nil)
    ⟨by decide, by decide⟩ (by decide)
  have ho := h.2.2.2.2.2 ["Hel".toList] ["lo".toList]
    "\x7b\"message\":\x7b\"role\":\"assistant\",\"content\":\"\"\x7d,\"done\":true\x7d".toList []
    ([["\x7b\"message\":\x7b\"role\":\"assistant\",\"content\":\"Hel\"\x7d,\"done\":false\x7d".toList,
       "\x7boops".toList,
       "\x7b\"message\":\x7b\"role\":\"assistant\",\"content\":\"lo\"\x7d,\"done\":false\x7d".toList],
      ["\x7b\"message\":\x7b\"role\":\"assistant\",\"content\":\"\"\x7d,\"done\":true\x7d".toList]].map
        unlines)
    (List.Forall₂.cons ⟨by decide, by decide, _, rfl, rfl, _, rfl, rfl⟩ List.Forall₂.nil)
    (List.Forall₂.cons ⟨by decide, by decide, _, rfl, rfl, _, rfl, rfl⟩ List.Forall₂.nil)
    ⟨by decide, by decide, _, rfl, rfl, _, rfl, rfl⟩ (by decide)
  ⟨hd.1, hd.2.2, h.1, ho.1, ho.2.2, h.2.1⟩

/-- C17 (what the code does). When the microphone is refused, `startRecording`
has already set `isRecording`, and its `catch` block only clears the media
variables: the controller still counts as recording, and the next click calls
`stopRecording` instead of starting a recording. -/
theorem failed_start_leaves_recording :
    (onMicClick (.failed "Permission denied".toList) Renderer.initial).isRecording = true
      ∧ (onMicClick (.failed "Permission denied".toList) Renderer.initial).listening = true
      ∧ (onMicClick .ok
          (onMicClick (.failed "Permission denied".toList) Renderer.initial)).effects
        = [Effect.startRecordingCalled Source.click, Effect.stopRecordingCalled] := by
  decide

/-- C19 (what the code does). Once `process-audio` has written the scratch
file for the local path, the file is unlinked only by the `close` handler of
the subprocess: it is still there after "Binary not found", after "Model not
found" and after an exception from `spawn`. -/
theorem scratch_file_left_behind (deepgram : DeepgramOutcome) (binPath modelPath : List Char)
    (message outputText : List Char) (code : Option Int) (tempFile : Bool) :
    processAudio ⟨none, none⟩ deepgram ⟨binPath, modelPath, false, true⟩
        (.closed code outputText) tempFile
        = (true, [TranscriptionEvent.error ("Binary not found: ".toList ++ binPath)])
      ∧ processAudio ⟨none, none⟩ deepgram ⟨binPath, modelPath, true, false⟩
        (.closed code outputText) tempFile
        = (true, [TranscriptionEvent.error ("Model not found: ".toList ++ modelPath)])
      ∧ processAudio ⟨none, none⟩ deepgram ⟨binPath, modelPath, true, true⟩
        (.threw message) tempFile
        = (true, [TranscriptionEvent.error message])
      ∧ (processAudio ⟨none, none⟩ deepgram ⟨binPath, modelPath, true, true⟩
        (.closed code outputText) tempFile).1 = false :=
  ⟨rfl, rfl, rfl, rfl⟩

/-- C20 (what the code does). The hallucination patterns are tested at the
start of the text only, so the transcript "Music is my passion" is discarded
like the single word "Music". -/
theorem hallucination_prefix_discards_sentence :
    whisperOnClose (some 0) "Music is my passion".toList = .result []
      ∧ whisperOnClose (some 0) "Music".toList = .result []
      ∧ stripTranscript "Music is my passion".toList = "Music is my passion".toList := by
  decide

/-- C18 (what the code does). A push-to-talk recording with one captured
block is stopped by a click; the controller is then not recording, but
`pttActive` is still set and `audioChunks` still holds the block. Releasing
the key calls `stopRecording` again, which encodes the same audio and sends a
second `process-audio` message. -/
theorem second_stop_resends_audio :
    (onMicClick .ok (onAudioProcess [Sample.fin 0]
        (onTimer .ok (onKeyDown true false Renderer.initial)))).isRecording = false
      ∧ processAudioCount (onMicClick .ok (onAudioProcess [Sample.fin 0]
        (onTimer .ok (onKeyDown true false Renderer.initial)))).effects = 1
      ∧ processAudioCount (onKeyUp true (onMicClick .ok (onAudioProcess [Sample.fin 0]
        (onTimer .ok (onKeyDown true false Renderer.initial))))).effects = 2
      ∧ stopCalls (onKeyUp true (onMicClick .ok (onAudioProcess [Sample.fin 0]
        (onTimer .ok (onKeyDown true false Renderer.initial))))).effects = 2 := by
  simp [onKeyUp, onMicClick, onAudioProcess, onTimer, onKeyDown, startRecording,
    stopRecording, cleanupRecording, Renderer.initial, flattenAudioChunks, encodeWAV_eq,
    processAudioCount, stopCalls]

/-- C21 (what the code does). A bracketed annotation that spans a carriage
return, as in output with CRLF line ends, is not stripped: the regular
expression's `.` does not match `\r`, and only `\n` was replaced by a space
beforehand. The delivered transcript keeps its `[` and the `]` after it. -/
theorem bracket_across_carriage_return_kept :
    whisperOnClose (some 0) "[Music\r\nplaying] hello".toList
        = .result "[Music\r playing] hello".toList
      ∧ whisperOnClose (some 0) "(door\r\ncloses) hello".toList
        = .result "(door\r closes) hello".toList
      ∧ whisperOnClose (some 0) "[Music\nplaying] hello".toList = .result "hello".toList := by
  decide

/-- C22 (what the code does). With the live transcription socket open, a stop
before any audio block was captured takes the "No audio recorded." return,
which comes before the socket is closed: no CloseStream frame is sent, the
socket is not closed and `deepgramSocket` keeps its reference. With a block
captured, the frame is sent, the socket closed and the reference dropped. -/
theorem stop_without_audio_leaves_socket_open :
    (onMicClick .ok (deepgramOnOpen (onMicClick .ok liveRenderer))).effects
        = [Effect.startRecordingCalled Source.click, Effect.stopRecordingCalled]
      ∧ (onMicClick .ok (deepgramOnOpen (onMicClick .ok liveRenderer))).deepgramSocket
        = some ReadyState.opened
      ∧ (onMicClick .ok (deepgramOnOpen (onMicClick .ok liveRenderer))).isRecording = false
      ∧ socketClosing (onMicClick .ok (onAudioProcess [Sample.nan]
          (deepgramOnOpen (onMicClick .ok liveRenderer)))).effects
        = [Effect.socketCloseStream, Effect.socketClose]
      ∧ (onMicClick .ok (onAudioProcess [Sample.nan]
          (deepgramOnOpen (onMicClick .ok liveRenderer)))).deepgramSocket = none := by
  decide

/-- C23 (what the code does). The click handler of the Reset / New Chat button
sends nothing to the main process, so the conversation history stays as it
was, and the next ask hands the earlier question and answer to the backend;
only the shortcut clears the history. -/
theorem reset_button_keeps_history (jsonParse : List Char → Option JsVal)
    (exchange : HttpExchange) (main : MainState) (renderer : Renderer) :
    (resetButton (main, renderer)).1 = main
      ∧ (askAI jsonParse ⟨none, none, none, none, none⟩ exchange "q2".toList
          (resetButton (⟨true, earlierHistory⟩, renderer)).1).call
        = some (.ollama "llama3".toList (earlierHistory ++ [⟨Role.user, "q2".toList⟩]))
      ∧ (resetByShortcut (⟨true, earlierHistory⟩, renderer)).1.conversationHistory = [] := by
  refine ⟨rfl, ?_, rfl⟩
  have h : (resetButton (⟨true, earlierHistory⟩, renderer)).1 = ⟨true, earlierHistory⟩ := rfl
  rw [h]
  unfold askAI
  simp only []
  rw [if_pos (by decide)]
  unfold askFinish
  split <;> rfl

/-- C24. The screen-solve flow never changes the conversation history: for
every capture result, provider setting and backend exchange the state after
`captureAndSolve` is the state before it, and the context handed to a stream
function is exactly two messages, the solve system prompt followed by a user
message that ends with the recognised (trimmed) text. -/
theorem captureAndSolve_isolated (jsonParse : List Char → Option JsVal) (s : Settings)
    (capture : ScreenCapture) (exchange : HttpExchange) (st : MainState) :
    (captureAndSolve jsonParse s capture exchange st).state = st
      ∧ ∀ call, (captureAndSolve jsonParse s capture exchange st).call = some call →
          ∃ text, capture = .ocr text
            ∧ call.messages
              = [⟨Role.system, solveSystemPrompt⟩,
                  ⟨Role.user, "Here is the text from the screen:\n\n".toList ++ trim text⟩]
            ∧ call.messages.length = 2 := by
  have hfinish : ∀ (before : List AiEvent) (call : BackendCall) (stream : StreamState),
      (solveFinish st before call stream).state = st
        ∧ (solveFinish st before call stream).call = some call := by
    intro before call stream
    unfold solveFinish
    split <;> exact ⟨rfl, rfl⟩
  cases capture with
  | captureFailed message => exact ⟨rfl, fun call h => by cases h⟩
  | noSource => exact ⟨rfl, fun call h => by cases h⟩
  | ocrFailed message => exact ⟨rfl, fun call h => by cases h⟩
  | ocr text =>
    unfold captureAndSolve
    simp only []
    split_ifs
    · exact ⟨rfl, fun call h => by cases h⟩
    · refine ⟨(hfinish _ _ _).1, ?_⟩
      intro call h
      rw [(hfinish _ _ _).2] at h
      cases h
      exact ⟨text, rfl, rfl, rfl⟩
    · refine ⟨(hfinish _ _ _).1, ?_⟩
      intro call h
      rw [(hfinish _ _ _).2] at h
      cases h
      exact ⟨text, rfl, rfl, rfl⟩
    · exact ⟨rfl, fun call h => by cases h⟩
    · exact ⟨rfl, fun call h => by cases h⟩

theorem captureAndSolve_isolated_witness :
    (captureAndSolve exampleParse ⟨none, none, none, none, none⟩ (.ocr " 2 + 2 = ? ".toList)
        (.response 200 "OK".toList exampleChunks) ⟨true, earlierHistory⟩).state
        = ⟨true, earlierHistory⟩
      ∧ ∃ text, ScreenCapture.ocr " 2 + 2 = ? ".toList = .ocr text
          ∧ (BackendCall.ollama "llama3.2".toList (solveMessages "2 + 2 = ?".toList)).messages
            = [⟨Role.system, solveSystemPrompt⟩,
                ⟨Role.user, "Here is the text from the screen:\n\n".toList ++ trim text⟩]
          ∧ (BackendCall.ollama "llama3.2".toList
              (solveMessages "2 + 2 = ?".toList)).messages.length = 2 :=
  have h := captureAndSolve_isolated exampleParse ⟨none, none, none, none, none⟩
    (.ocr " 2 + 2 = ? ".toList) (.response 200 "OK".toList exampleChunks)
    ⟨true, earlierHistory⟩
  ⟨h.1, h.2 (.ollama "llama3.2".toList (solveMessages "2 + 2 = ?".toList)) rfl⟩

/-- C25. While a click-sourced recording is active, every key-down and key-up
of the push-to-talk key (and of any other key) leaves the whole renderer state
unchanged: `isRecording`, `recordingSource`, the pending timer and `pttActive`
stay as they are and neither `startRecording` nor `stopRecording` is called. -/
theorem click_recording_ignores_space (st : Renderer) (space isRepeat : Bool)
    (hrec : st.isRecording = true) (hsrc : st.recordingSource = some Source.click) :
    onKeyDown space isRepeat st = st ∧ onKeyUp space st = st := by
  constructor
  · unfold onKeyDown
    simp [hrec, hsrc]
  · unfold onKeyUp
    simp [hrec, hsrc]

theorem click_recording_ignores_space_witness :
    onKeyDown true false (onMicClick .ok Renderer.initial) = onMicClick .ok Renderer.initial
      ∧ onKeyUp true (onMicClick .ok Renderer.initial) = onMicClick .ok Renderer.initial :=
  click_recording_ignores_space (onMicClick .ok Renderer.initial) true false rfl rfl

/-- What the handlers keep true of the tracked subprocess: it is running and
was not killed, and every subprocess has a number below the next one. -/
theorem whisperStep_tracked (st : WhisperState) (e : WhisperEvent)
    (h : (∀ pid, st.whisperProcess = some pid → pid ∈ st.alive ∧ pid ∉ st.killed)
      ∧ (∀ p ∈ st.alive, p < st.spawned) ∧ (∀ p ∈ st.killed, p < st.spawned)) :
    (∀ pid, (whisperStep st e).whisperProcess = some pid →
        pid ∈ (whisperStep st e).alive ∧ pid ∉ (whisperStep st e).killed)
      ∧ (∀ p ∈ (whisperStep st e).alive, p < (whisperStep st e).spawned)
      ∧ (∀ p ∈ (whisperStep st e).killed, p < (whisperStep st e).spawned) := by
  obtain ⟨h1, h2, h3⟩ := h
  cases e with
  | startRecording =>
    cases hw : st.whisperProcess with
    | some p =>
      simp only [whisperStep, hw]
      exact ⟨fun pid hp => h1 pid (hw ▸ hp), h2, h3⟩
    | none =>
      simp only [whisperStep, hw]
      refine ⟨?_, ?_, ?_⟩
      · intro pid hp
        simp only [Option.some.injEq] at hp
        subst hp
        refine ⟨by simp, ?_⟩
        intro hk
        exact absurd (h3 _ hk) (lt_irrefl _)
      · intro p hp
        rcases List.mem_append.mp hp with e1 | e1
        · exact Nat.lt_succ_of_lt (h2 p e1)
        · rw [List.mem_singleton.mp e1]; exact Nat.lt_succ_self _
      · intro p hp
        exact Nat.lt_succ_of_lt (h3 p hp)
  | stopRecording =>
    cases hw : st.whisperProcess with
    | some p =>
      simp only [whisperStep, hw]
      refine ⟨by simp, h2, ?_⟩
      intro q hq
      rcases List.mem_append.mp hq with e1 | e1
      · exact h3 q e1
      · rw [List.mem_singleton.mp e1]; exact h2 p (h1 p hw).1
    | none =>
      simp only [whisperStep, hw]
      exact ⟨fun pid hp => h1 pid (hw ▸ hp), h2, h3⟩
  | stdoutData pid data =>
    simp only [whisperStep]
    split_ifs <;> exact ⟨h1, h2, h3⟩
  | close pid =>
    simp only [whisperStep]
    split_ifs
    · refine ⟨by simp, ?_, h3⟩
      intro p hp
      exact h2 p (List.mem_filter.mp hp).1
    · exact ⟨h1, h2, h3⟩

theorem whisperRun_tracked (events : List WhisperEvent) :
    (∀ pid, (whisperRun events).whisperProcess = some pid →
        pid ∈ (whisperRun events).alive ∧ pid ∉ (whisperRun events).killed)
      ∧ (∀ p ∈ (whisperRun events).alive, p < (whisperRun events).spawned)
      ∧ (∀ p ∈ (whisperRun events).killed, p < (whisperRun events).spawned) := by
  have key : ∀ (events : List WhisperEvent) (st : WhisperState),
      ((∀ pid, st.whisperProcess = some pid → pid ∈ st.alive ∧ pid ∉ st.killed)
        ∧ (∀ p ∈ st.alive, p < st.spawned) ∧ (∀ p ∈ st.killed, p < st.spawned)) →
      ((∀ pid, (events.foldl whisperStep st).whisperProcess = some pid →
          pid ∈ (events.foldl whisperStep st).alive ∧ pid ∉ (events.foldl whisperStep st).killed)
        ∧ (∀ p ∈ (events.foldl whisperStep st).alive, p < (events.foldl whisperStep st).spawned)
        ∧ (∀ p ∈ (events.foldl whisperStep st).killed,
            p < (events.foldl whisperStep st).spawned)) := by
    intro events
    induction events with
    | nil => intro st h; exact h
    | cons e rest ih =>
      intro st h
      rw [List.foldl_cons]
      exact ih _ (whisperStep_tracked st e h)
  exact key events WhisperState.initial
    ⟨(by intro pid h; cases h), (by intro p h; cases h), (by intro p h; cases h)⟩

/-- C26 (the claim as stated fails). Output of a killed subprocess is still
delivered: after start and stop, a `data` event of subprocess 0, which was
killed and has not closed, sends `transcription-data`. And a start spawns a
new subprocess while an earlier one is still running: after start and stop,
the next start spawns subprocess 1 next to subprocess 0, so two subprocesses
are alive. -/
theorem killed_process_output_forwarded :
    ¬ (∀ (events : List WhisperEvent) (pid : Nat) (data : List Char),
        pid ∈ (whisperRun events).killed →
        (whisperStep (whisperRun events) (.stdoutData pid data)).sent
          = (whisperRun events).sent)
      ∧ ¬ (∀ events : List WhisperEvent,
        (whisperStep (whisperRun events) .startRecording).spawned
            = (whisperRun events).spawned + 1 →
          (whisperRun events).alive = [])
      ∧ ¬ (∀ events : List WhisperEvent, (whisperRun events).alive.length ≤ 1)
      ∧ (whisperRun [.startRecording, .stopRecording,
          .stdoutData 0 "[00:00:00.000 --> 00:00:02.000] hello".toList]).sent
        = [WhisperUi.transcriptionData "hello".toList]
      ∧ whisperRun [.startRecording, .stopRecording, .startRecording]
        = ⟨some 1, [0, 1], [0], 2, []⟩ := by
  refine ⟨?_, ?_, ?_, by decide, by decide⟩
  · intro h
    have h1 := h [.startRecording, .stopRecording] 0
      "[00:00:00.000 --> 00:00:02.000] hello".toList (by decide)
    revert h1
    decide
  · intro h
    have h1 := h [.startRecording, .stopRecording] (by decide)
    revert h1
    decide
  · intro h
    have h1 := h [.startRecording, .stopRecording, .startRecording]
    revert h1
    decide

/-- C26 (amended). In every state the handlers can reach, at most one
subprocess is tracked, and a tracked one is running and was not killed. A stop
command kills the tracked subprocess and leaves none tracked; without a
tracked one it does nothing. A start spawns a new subprocess, and tracks it,
when no subprocess is tracked, and only then. Output of a subprocess that has
not closed, killed or not, is forwarded as `transcription-data` when its
cleaned text is not empty. -/
theorem tracked_subprocess_invariant (events : List WhisperEvent) :
    (∀ pid, (whisperRun events).whisperProcess = some pid →
        pid ∈ (whisperRun events).alive ∧ pid ∉ (whisperRun events).killed)
      ∧ (whisperStep (whisperRun events) .stopRecording).whisperProcess = none
      ∧ (∀ pid, (whisperRun events).whisperProcess = some pid →
          (whisperStep (whisperRun events) .stopRecording).killed
              = (whisperRun events).killed ++ [pid]
            ∧ (whisperStep (whisperRun events) .stopRecording).alive
              = (whisperRun events).alive)
      ∧ ((whisperRun events).whisperProcess = none →
          whisperStep (whisperRun events) .stopRecording = whisperRun events)
      ∧ (∀ pid, (whisperRun events).whisperProcess = some pid →
          whisperStep (whisperRun events) .startRecording = whisperRun events)
      ∧ ((whisperRun events).whisperProcess = none →
          (whisperStep (whisperRun events) .startRecording).whisperProcess
              = some (whisperRun events).spawned
            ∧ (whisperStep (whisperRun events) .startRecording).alive
              = (whisperRun events).alive ++ [(whisperRun events).spawned]
            ∧ (whisperRun events).spawned ∉ (whisperRun events).alive
            ∧ (whisperStep (whisperRun events) .startRecording).spawned
              = (whisperRun events).spawned + 1)
      ∧ (∀ pid data, pid ∈ (whisperRun events).alive → cleanStreamText data ≠ [] →
          (whisperStep (whisperRun events) (.stdoutData pid data)).sent
            = (whisperRun events).sent
              ++ [WhisperUi.transcriptionData (cleanStreamText data)])
      ∧ (∀ pid data, cleanStreamText data = [] →
          whisperStep (whisperRun events) (.stdoutData pid data) = whisperRun events) := by
  obtain ⟨h1, h2, _⟩ := whisperRun_tracked events
  refine ⟨h1, ?_, ?_, ?_, ?_, ?_, ?_, ?_⟩
  · cases hw : (whisperRun events).whisperProcess <;> simp [whisperStep, hw]
  · intro pid hw
    simp [whisperStep, hw]
  · intro hw
    simp [whisperStep, hw]
  · intro pid hw
    simp [whisperStep, hw]
  · intro hw
    refine ⟨by simp [whisperStep, hw], by simp [whisperStep, hw], ?_, by simp [whisperStep, hw]⟩
    intro hmem
    exact absurd (h2 _ hmem) (lt_irrefl _)
  · intro pid data hpid hclean
    unfold cleanStreamText at hclean
    simp only [whisperStep, cleanStreamText]
    rw [if_pos hpid, if_neg hclean]
  · intro pid data hclean
    unfold cleanStreamText at hclean
    simp only [whisperStep]
    split_ifs <;> rfl

theorem tracked_subprocess_invariant_witness :
    (whisperRun [.startRecording, .stopRecording, .startRecording]).whisperProcess = some 1
      ∧ (1 ∈ (whisperRun [.startRecording, .stopRecording, .startRecording]).alive
        ∧ 1 ∉ (whisperRun [.startRecording, .stopRecording, .startRecording]).killed)
      ∧ whisperStep (whisperRun [.startRecording, .stopRecording, .startRecording])
          .startRecording
        = whisperRun [.startRecording, .stopRecording, .startRecording]
      ∧ (whisperStep (whisperRun [.startRecording, .stopRecording, .startRecording])
          (.stdoutData 0 "[00:00:00.000 --> 00:00:02.000] hello".toList)).sent
        = [WhisperUi.transcriptionData "hello".toList] :=
  have h := tracked_subprocess_invariant [.startRecording, .stopRecording, .startRecording]
  ⟨rfl, h.1 1 rfl, h.2.2.2.2.1 1 rfl,
    h.2.2.2.2.2.2.1 0 "[00:00:00.000 --> 00:00:02.000] hello".toList (by decide) (by decide)⟩

theorem pcmValue_fin (s : ℚ) : pcmValue (.fin s) = pcmOfClamped (max (-1) (min 1 s)) := rfl

theorem pcmOfClamped_neg (c : ℚ) (h : c < 0) : pcmOfClamped c = ⌈c * 32768⌉ := by
  have h2 : ¬ (0 ≤ c * 32768) := by
    intro hc
    nlinarith
  simp [pcmOfClamped, truncate, h, h2]

theorem pcmOfClamped_nonneg (c : ℚ) (h : 0 ≤ c) : pcmOfClamped c = ⌊c * 32767⌋ := by
  have h1 : ¬ c < 0 := not_lt.mpr h
  have h2 : 0 ≤ c * 32767 := by positivity
  simp [pcmOfClamped, truncate, h1, h2]

theorem pcmOfClamped_range (c : ℚ) (hlo : -1 ≤ c) (hhi : c ≤ 1) :
    -32768 ≤ pcmOfClamped c ∧ pcmOfClamped c ≤ 32767 := by
  by_cases h : c < 0
  · rw [pcmOfClamped_neg c h]
    constructor
    · have h1 : ((-32768 : ℤ) : ℚ) ≤ c * 32768 := by push_cast; linarith
      exact Int.cast_le.mp (h1.trans (Int.le_ceil _))
    · have h1 : ⌈c * 32768⌉ ≤ 0 := Int.ceil_le.mpr (by push_cast; linarith)
      omega
  · have h0 : 0 ≤ c := not_lt.mp h
    rw [pcmOfClamped_nonneg c h0]
    constructor
    · have h1 : 0 ≤ ⌊c * 32767⌋ := Int.floor_nonneg.mpr (by positivity)
      omega
    · have h1 : c * 32767 ≤ ((32767 : ℤ) : ℚ) := by push_cast; linarith
      exact Int.cast_le.mp ((Int.floor_le _).trans h1)

theorem pcmOfClamped_mono (c d : ℚ) (h : c ≤ d) : pcmOfClamped c ≤ pcmOfClamped d := by
  by_cases hc : c < 0
  · by_cases hd : d < 0
    · rw [pcmOfClamped_neg c hc, pcmOfClamped_neg d hd]
      exact Int.ceil_mono (by linarith)
    · have hd0 : 0 ≤ d := not_lt.mp hd
      rw [pcmOfClamped_neg c hc, pcmOfClamped_nonneg d hd0]
      have h1 : ⌈c * 32768⌉ ≤ 0 := Int.ceil_le.mpr (by push_cast; linarith)
      have h2 : 0 ≤ ⌊d * 32767⌋ := Int.floor_nonneg.mpr (by positivity)
      omega
  · have hc0 : 0 ≤ c := not_lt.mp hc
    have hd0 : 0 ≤ d := hc0.trans h
    rw [pcmOfClamped_nonneg c hc0, pcmOfClamped_nonneg d hd0]
    exact Int.floor_mono (by linarith)

theorem pcmValue_range (x : Sample) : -32768 ≤ pcmValue x ∧ pcmValue x ≤ 32767 := by
  cases x with
  | fin q =>
    rw [pcmValue_fin]
    exact pcmOfClamped_range _ (le_max_left _ _) (max_le (by norm_num) (min_le_left _ _))
  | nan => exact ⟨by decide, by decide⟩
  | inf negative =>
    have h : pcmValue (.inf negative) = pcmOfClamped (if negative then -1 else 1) := rfl
    rw [h]
    cases negative
    · exact pcmOfClamped_range _ (by norm_num) (by norm_num)
    · exact pcmOfClamped_range _ (by norm_num) (by norm_num)

theorem pcmOfClamped_neg_one : pcmOfClamped (-1) = -32768 := by
  rw [pcmOfClamped_neg _ (by norm_num)]
  have h : ((-1 : ℚ) * 32768) = ((-32768 : ℤ) : ℚ) := by push_cast; norm_num
  rw [h, Int.ceil_intCast]

theorem pcmOfClamped_one : pcmOfClamped 1 = 32767 := by
  rw [pcmOfClamped_nonneg _ (by norm_num)]
  have h : ((1 : ℚ) * 32767) = ((32767 : ℤ) : ℚ) := by push_cast; norm_num
  rw [h, Int.floor_intCast]

theorem pcmOfClamped_zero : pcmOfClamped 0 = 0 := by
  rw [pcmOfClamped_nonneg _ (le_refl _)]
  simp

theorem toInt16_stored (v : Int) (hlo : -32768 ≤ v) (hhi : v ≤ 32767) :
    toInt16 ((v % 65536).toNat % 256 + 256 * ((v % 65536).toNat / 256 % 256)) = v := by
  unfold toInt16
  split_ifs <;> omega

theorem pcmBytes_at (samples : List Sample) :
    ∀ (i : Nat) (x : Sample), samples[i]? = some x →
      (samples.flatMap pcmBytes).getD (2 * i) 0 = (pcmValue x % 65536).toNat % 256
        ∧ (samples.flatMap pcmBytes).getD (2 * i + 1) 0
          = (pcmValue x % 65536).toNat / 256 % 256 := by
  induction samples with
  | nil => intro i x h; simp at h
  | cons y rest ih =>
    intro i x h
    cases i with
    | zero =>
      simp only [List.getElem?_cons_zero, Option.some.injEq] at h
      subst h
      simp [List.flatMap_cons, pcmBytes, List.getD]
    | succ k =>
      simp only [List.getElem?_cons_succ] at h
      obtain ⟨h1, h2⟩ := ih k x h
      have e1 : 2 * (k + 1) = 2 * k + 2 := by ring
      have e2 : 2 * k + 2 + 1 = 2 * k + 1 + 2 := by ring
      have hc : (y :: rest).flatMap pcmBytes
          = (pcmValue y % 65536).toNat % 256
            :: (pcmValue y % 65536).toNat / 256 % 256 :: rest.flatMap pcmBytes := by
        simp [List.flatMap_cons, pcmBytes]
      rw [hc, e1, e2]
      exact ⟨h1, h2⟩

theorem getInt16_encodeWAV (samples : List Sample) (sampleRate i : Nat) (x : Sample)
    (buf : DataView) (hbuf : encodeWAV samples sampleRate = some buf)
    (hx : samples[i]? = some x) :
    getInt16 buf (44 + 2 * i) = some (pcmValue x) := by
  rw [encodeWAV_eq] at hbuf
  simp only [Option.some.injEq] at hbuf
  subst hbuf
  have hi : i < samples.length := by
    by_contra hne
    rw [List.getElem?_eq_none (by omega)] at hx
    cases hx
  have hlen : (wavHeader samples.length sampleRate ++ samples.flatMap pcmBytes).length
      = 44 + 2 * samples.length := by
    rw [List.length_append, wavHeader_length, pcmBytes_flatMap_length]
  obtain ⟨h1, h2⟩ := pcmBytes_at samples i x hx
  have g1 : (wavHeader samples.length sampleRate ++ samples.flatMap pcmBytes).getD
      (44 + 2 * i) 0 = (pcmValue x % 65536).toNat % 256 := by
    rw [List.getD_append_right _ _ _ _ (by rw [wavHeader_length]; omega), wavHeader_length,
      show 44 + 2 * i - 44 = 2 * i by omega]
    exact h1
  have g2 : (wavHeader samples.length sampleRate ++ samples.flatMap pcmBytes).getD
      (44 + 2 * i + 1) 0 = (pcmValue x % 65536).toNat / 256 % 256 := by
    rw [List.getD_append_right _ _ _ _ (by rw [wavHeader_length]; omega), wavHeader_length,
      show 44 + 2 * i + 1 - 44 = 2 * i + 1 by omega]
    exact h2
  unfold getInt16 getUint16
  rw [if_pos (by omega), g1, g2]
  simp only [Option.map_some']
  rw [toInt16_stored _ (pcmValue_range x).1 (pcmValue_range x).2]

/-- C27. For every real sample s, `floatTo16BitPCM` stores c * 32768 truncated
toward zero when the clamped sample c = max(-1, min(1, s)) is negative and
c * 32767 truncated toward zero otherwise; the stored value lies in
[-32768, 32767] (for NaN and the infinities too), does not decrease when s
grows, is -32768 at and below -1, 0 at 0 and 32767 at and above 1, and is
what a little-endian signed 16-bit read at byte offset 44 + 2i of the encoded
buffer gives for sample i. -/
theorem floatTo16BitPCM_values :
    (∀ s : ℚ, pcmValue (.fin s)
        = if max (-1) (min 1 s) < 0 then truncate (max (-1) (min 1 s) * 32768)
          else truncate (max (-1) (min 1 s) * 32767))
      ∧ (∀ x : Sample, -32768 ≤ pcmValue x ∧ pcmValue x ≤ 32767)
      ∧ (∀ s t : ℚ, s ≤ t → pcmValue (.fin s) ≤ pcmValue (.fin t))
      ∧ (∀ s : ℚ, s ≤ -1 → pcmValue (.fin s) = -32768)
      ∧ pcmValue (.inf true) = -32768
      ∧ pcmValue (.fin 0) = 0
      ∧ (∀ s : ℚ, 1 ≤ s → pcmValue (.fin s) = 32767)
      ∧ pcmValue (.inf false) = 32767
      ∧ (∀ (samples : List Sample) (sampleRate i : Nat) (x : Sample) (buf : DataView),
          encodeWAV samples sampleRate = some buf → samples[i]? = some x →
          getInt16 buf (44 + 2 * i) = some (pcmValue x)) := by
  refine ⟨fun s => rfl, pcmValue_range, ?_, ?_, ?_, ?_, ?_, ?_, ?_⟩
  · intro s t h
    rw [pcmValue_fin, pcmValue_fin]
    exact pcmOfClamped_mono _ _ (max_le_max (le_refl _) (min_le_min (le_refl _) h))
  · intro s h
    rw [pcmValue_fin]
    have hc : max (-1) (min 1 s) = -1 := by
      rw [min_eq_right (by linarith), max_eq_left h]
    rw [hc, pcmOfClamped_neg_one]
  · have h : pcmValue (.inf true) = pcmOfClamped (-1) := rfl
    rw [h, pcmOfClamped_neg_one]
  · rw [pcmValue_fin]
    have hc : max (-1 : ℚ) (min 1 0) = 0 := by norm_num
    rw [hc, pcmOfClamped_zero]
  · intro s h
    rw [pcmValue_fin]
    have hc : max (-1) (min 1 s) = 1 := by
      rw [min_eq_left h, max_eq_right (by norm_num)]
    rw [hc, pcmOfClamped_one]
  · have h : pcmValue (.inf false) = pcmOfClamped 1 := rfl
    rw [h, pcmOfClamped_one]
  · intro samples sampleRate i x buf hbuf hx
    exact getInt16_encodeWAV samples sampleRate i x buf hbuf hx

theorem floatTo16BitPCM_values_witness :
    pcmValue (.fin (-1 / 2)) ≤ pcmValue (.fin (1 / 3))
      ∧ pcmValue (.fin (-3)) = -32768
      ∧ pcmValue (.fin 2) = 32767 :=
  ⟨floatTo16BitPCM_values.2.2.1 (-1 / 2) (1 / 3) (by norm_num),
    floatTo16BitPCM_values.2.2.2.1 (-3) (by norm_num),
    floatTo16BitPCM_values.2.2.2.2.2.2.1 2 (by norm_num)⟩

theorem utf16Char_length (c : Char) :
    (utf16Char c).length ≤ utf8CharLength c
      ∧ ((utf16Char c).length = utf8CharLength c ↔ c.toNat < 128) := by
  unfold utf16Char utf8CharLength
  split_ifs <;> simp <;> omega

theorem jsLength_cons (c : Char) (s : List Char) :
    jsLength (c :: s) = (utf16Char c).length + jsLength s := by
  simp [jsLength, utf16, List.flatMap_cons]

theorem utf8Length_cons (c : Char) (s : List Char) :
    utf8Length (c :: s) = utf8CharLength c + utf8Length s := by
  simp [utf8Length]

/-- A string has at most as many UTF-16 code units as UTF-8 bytes, and as
many exactly when it is ASCII-only. -/
theorem jsLength_vs_utf8Length (s : List Char) :
    jsLength s ≤ utf8Length s
      ∧ (jsLength s = utf8Length s ↔ ∀ c ∈ s, c.toNat < 128) := by
  induction s with
  | nil => exact ⟨le_refl _, by simp [jsLength, utf16, utf8Length]⟩
  | cons c rest ih =>
    obtain ⟨hle, hiff⟩ := ih
    obtain ⟨cle, ciff⟩ := utf16Char_length c
    rw [jsLength_cons, utf8Length_cons]
    refine ⟨by omega, ?_⟩
    constructor
    · intro h
      have h1 : (utf16Char c).length = utf8CharLength c := by omega
      have h2 : jsLength rest = utf8Length rest := by omega
      intro d hd
      rcases List.mem_cons.mp hd with e | e
      · rw [e]; exact ciff.mp h1
      · exact hiff.mp h2 d e
    · intro h
      have h1 := ciff.mpr (h c (List.mem_cons_self _ _))
      have h2 := hiff.mpr (fun d hd => h d (List.mem_cons_of_mem _ hd))
      omega

theorem jsonEscape_of_non_ascii (c : Char) (h : 128 ≤ c.toNat) : jsonEscape c = [c] := by
  have h1 : c ≠ '"' := by
    intro e; rw [e] at h; revert h; decide
  have h2 : c ≠ '\\' := by
    intro e; rw [e] at h; revert h; decide
  unfold jsonEscape
  rw [if_neg h1, if_neg h2, if_neg (by omega), if_neg (by omega), if_neg (by omega),
    if_neg (by omega), if_neg (by omega), if_neg (by omega)]

theorem mem_jsonQuote (c : Char) (s : List Char) (hc : c ∈ s) (h : 128 ≤ c.toNat) :
    c ∈ jsonQuote s := by
  unfold jsonQuote
  apply List.mem_cons_of_mem
  apply List.mem_append_left
  rw [List.mem_flatMap]
  exact ⟨c, hc, by rw [jsonEscape_of_non_ascii c h]; exact List.mem_singleton_self c⟩

theorem mem_jsonMessage (c : Char) (m : Message) (hc : c ∈ m.content) (h : 128 ≤ c.toNat) :
    c ∈ jsonMessage m := by
  unfold jsonMessage
  apply List.mem_append_left
  apply List.mem_append_right
  exact mem_jsonQuote c m.content hc h

theorem mem_jsonItems (c : Char) (messages : List Message) :
    ∀ m ∈ messages, c ∈ jsonMessage m → c ∈ jsonItems messages := by
  induction messages with
  | nil => intro m hm; cases hm
  | cons a rest ih =>
    intro m hm hc
    cases rest with
    | nil =>
      rcases List.mem_cons.mp hm with e | e
      · rw [e] at hc; exact hc
      · cases e
    | cons b rest2 =>
      simp only [jsonItems]
      rcases List.mem_cons.mp hm with e | e
      · rw [e] at hc; exact List.mem_append_left _ hc
      · exact List.mem_append_right _ (List.mem_cons_of_mem _ (ih m e hc))

theorem mem_requestBody (model : List Char) (messages : List Message) (m : Message)
    (c : Char) (hm : m ∈ messages) (hc : c ∈ m.content) (h : 128 ≤ c.toNat) :
    c ∈ requestBody model messages := by
  unfold requestBody
  apply List.mem_append_left
  apply List.mem_append_right
  exact mem_jsonItems c messages m hm (mem_jsonMessage c m hc h)

/-- C28. `streamOllama` declares as `Content-Length` the UTF-8 byte length of
the JSON body, which is the number of bytes it writes; `streamDeepSeek`
declares the body's length in UTF-16 code units. That length equals the
number of bytes written exactly when the body is ASCII-only, and for every
history with a non-ASCII character in some entry it is strictly smaller than
the number of bytes written. -/
theorem content_length_declared (model : List Char) (messages : List Message) :
    (ollamaRequest model messages).contentLength
        = (ollamaRequest model messages).bytesWritten
      ∧ (ollamaRequest model messages).contentLength
        = utf8Length (requestBody model messages)
      ∧ (deepSeekRequest messages).contentLength
        = jsLength (deepSeekRequest messages).body
      ∧ ((deepSeekRequest messages).contentLength = (deepSeekRequest messages).bytesWritten
          ↔ ∀ c ∈ (deepSeekRequest messages).body, c.toNat < 128)
      ∧ (jsLength (ollamaRequest model messages).body
            = (ollamaRequest model messages).contentLength
          ↔ ∀ c ∈ (ollamaRequest model messages).body, c.toNat < 128)
      ∧ ((∃ m ∈ messages, ∃ c ∈ m.content, 128 ≤ c.toNat) →
          (deepSeekRequest messages).contentLength
            < (deepSeekRequest messages).bytesWritten) := by
  refine ⟨rfl, rfl, rfl, ?_, ?_, ?_⟩
  · exact (jsLength_vs_utf8Length _).2
  · exact (jsLength_vs_utf8Length _).2
  · rintro ⟨m, hm, c, hc, h⟩
    have hmem : c ∈ requestBody "deepseek-chat".toList messages :=
      mem_requestBody _ messages m c hm hc h
    obtain ⟨hle, hiff⟩ := jsLength_vs_utf8Length (requestBody "deepseek-chat".toList messages)
    have hne : jsLength (requestBody "deepseek-chat".toList messages)
        ≠ utf8Length (requestBody "deepseek-chat".toList messages) := by
      intro e
      have := hiff.mp e c hmem
      omega
    exact lt_of_le_of_ne hle hne

theorem content_length_declared_witness :
    (deepSeekRequest [⟨Role.system, "p".toList⟩, ⟨Role.user, "déjà vu?".toList⟩]).contentLength
      < (deepSeekRequest
          [⟨Role.system, "p".toList⟩, ⟨Role.user, "déjà vu?".toList⟩]).bytesWritten :=
  (content_length_declared "llama3".toList
      [⟨Role.system, "p".toList⟩, ⟨Role.user, "déjà vu?".toList⟩]).2.2.2.2.2
    ⟨⟨Role.user, "déjà vu?".toList⟩, by decide, 'é', by decide, by decide⟩

end AaruAI
